import Mathlib

/-! # dokku-nginx-custom-vhosts: the nginx config builder

A shallow embedding of `src/cmd/nginx-config-builder/main.go` (and of the
parts of `src/pkg/file_config` and `src/cmd/cache-purger` it shares data with).

Conventions of the embedding.

* Go strings are Lean `String`s (sequences of characters rather than of
  bytes); the string operations the program uses are defined on the
  character list so that they evaluate by structural recursion.
* A Go `map[string]V` is an association list with unique keys
  (`mapGet`, `mapSet`).  A `range` over a map visits the entries in the
  order of the list, so the order that the run time picks for an input map
  is part of the input, and the statements hold for every such order.
* Calls that leave the program (the `sigil` template evaluator, the file
  system, the clock) are parameters of the embedded functions; the standard
  library functions the program calls (`path`, `path/filepath`, `strings`,
  `strconv`, `regexp`) and `mergo.Merge` are modelled from their documented
  behaviour.
* A function returning `(T, error)` returns `Except String T`; `int` is the
  64-bit integer of the platforms the program is built for.
* A Go value of type `any` is a `Value`, told apart by its dynamic type.
  `yaml.v3`, decoding a mapping into a field of the named map type
  `ConfigVars`, builds every string-keyed mapping nested in it with that same
  type, which is why `Value` keeps `configVars` apart from `map`.
* The text that `text/template` produces for the location block template of
  the program is `renderLocationBlock`; the statements that depend on it take
  an evaluator for which `RendersLocationBlock` holds.
-/

deriving instance DecidableEq for Except

namespace NginxConfigBuilder

/-! ## Strings -/

/-- Model of `strings.HasPrefix`. -/
def hasPrefix (s pre : String) : Bool := pre.data.isPrefixOf s.data

/-- Pieces of a character list between occurrences of `sep`. -/
def splitChars (sep : Char) : List Char → List (List Char)
  | [] => [[]]
  | c :: cs =>
    if c = sep then [] :: splitChars sep cs
    else
      match splitChars sep cs with
      | [] => [[c]]
      | h :: t => (c :: h) :: t

/-- Model of `strings.Split(s, sep)` for a separator of one character. -/
def stringsSplit (s : String) (sep : Char) : List String :=
  (splitChars sep s.data).map String.mk

/-- Model of `strings.Join(parts, sep)`. -/
def stringsJoin (parts : List String) (sep : String) : String :=
  match parts with
  | [] => ""
  | [p] => p
  | p :: q :: rest => p ++ sep ++ stringsJoin (q :: rest) sep

/-! ## Go maps as association lists -/

/-- Lookup `m[k]` with the comma-ok result. -/
def mapGet {V : Type} (m : List (String × V)) (k : String) : Option V :=
  match m with
  | [] => none
  | (k', v) :: rest => if k' = k then some v else mapGet rest k

/-- Assignment `m[k] = v`. -/
def mapSet {V : Type} (m : List (String × V)) (k : String) (v : V) : List (String × V) :=
  match m with
  | [] => [(k, v)]
  | (k', v') :: rest => if k' = k then (k, v) :: rest else (k', v') :: mapSet rest k v

/-- Keys of a map. -/
def mapKeys {V : Type} (m : List (String × V)) : List String := m.map Prod.fst

/-! ## Paths (`path` / `path/filepath` on a Unix system) -/

/-- One step of `path.Clean` on the stack of kept elements (innermost last). -/
def cleanStep (rooted : Bool) (stack : List String) (e : String) : List String :=
  if e = "" ∨ e = "." then stack
  else if e = ".." then
    match stack.getLast? with
    | some top => if top = ".." then stack ++ [".."] else stack.dropLast
    | none => if rooted then stack else stack ++ [".."]
  else stack ++ [e]

/-- Elements kept by `path.Clean`, and whether the path is rooted. -/
def cleanElems (p : String) : Bool × List String :=
  let rooted := hasPrefix p "/"
  (rooted, (stringsSplit p '/').foldl (cleanStep rooted) [])

/-- Text of a cleaned path from its elements. -/
def renderPath (rooted : Bool) (elems : List String) : String :=
  if rooted then "/" ++ stringsJoin elems "/"
  else if elems = [] then "." else stringsJoin elems "/"

/-- Model of `path.Clean` (and of `filepath.Clean` on Unix): multiple slashes
collapse, `.` elements disappear, an inner `..` removes the element before it,
a `..` at the start of a rooted path disappears, the empty result is `.`. -/
def pathClean (p : String) : String :=
  let r := cleanElems p
  renderPath r.1 r.2

/-- Model of `path.Join` (and of `filepath.Join` on Unix). -/
def pathJoin (elem : List String) : String :=
  let buf := elem.foldl
    (fun (buf : String) e =>
      if buf ≠ "" ∨ e ≠ "" then (if buf ≠ "" then buf ++ "/" else buf) ++ e else buf) ""
  if elem.all (fun e => e = "") then "" else pathClean buf

/-- Model of `filepath.Base` on Unix. -/
def filepathBase (p : String) : String :=
  if p = "" then "."
  else
    let stripped := (p.data.reverse.dropWhile (fun c => c = '/')).reverse
    let last := (stripped.reverse.takeWhile (fun c => c ≠ '/')).reverse
    if last = [] then "/" else String.mk last

/-! ## Numbers -/

/-- Value of a list of decimal digits, most significant first. -/
def digitsValue (ds : List Char) : Nat :=
  ds.foldl (fun acc c => 10 * acc + (c.toNat - '0'.toNat)) 0

/-- Model of `strconv.Atoi` for a 64-bit `int`: an optional sign, at least one
decimal digit, and a range check. -/
def atoi (s : String) : Option Int :=
  let body : List Char × Bool :=
    match s.data with
    | '+' :: r => (r, false)
    | '-' :: r => (r, true)
    | r => (r, false)
  if body.1 = [] ∨ !body.1.all Char.isDigit then none
  else
    let v : Int := digitsValue body.1
    let signed : Int := if body.2 then -v else v
    if signed < -(2 : Int) ^ 63 ∨ (2 : Int) ^ 63 - 1 < signed then none else some signed

/-! ## Release directories (`getCurrentConfigVersionDirectory`) -/

/-- What the release manager reads from outside the program. -/
structure ReleaseEnv where
  /-- Result of `filepath.Glob(pattern)`. -/
  glob : String → Except String (List String)
  /-- Result of `time.Now().Format("20060102")`. -/
  now : String
  /-- Whether `os.Stat(file)` succeeds and reports a directory. -/
  statIsDir : String → Bool

/-- Strip a prefix from a character list. -/
def dropPrefix? : List Char → List Char → Option (List Char)
  | [], s => some s
  | _ :: _, [] => none
  | p :: ps, c :: cs => if p = c then dropPrefix? ps cs else none

/-- Model of `releasePattern.FindStringSubmatch` for the pattern
`^release-(\d+)\.(\d+)$`: the two captured groups, when the name matches. -/
def releasePatternFind (dirName : String) : Option (String × String) :=
  match dropPrefix? "release-".data dirName.data with
  | none => none
  | some rest =>
    let d1 := rest.takeWhile Char.isDigit
    match rest.dropWhile Char.isDigit with
    | '.' :: d2 =>
      if d1 ≠ [] ∧ d2 ≠ [] ∧ d2.all Char.isDigit then some (String.mk d1, String.mk d2) else none
    | _ => none

/-- The three variables `latestDir`, `latestDate`, `latestSequence`. -/
structure LatestState where
  latestDir : String
  latestDate : Int
  latestSequence : Int
deriving DecidableEq, Repr

/-- First loop of `getCurrentConfigVersionDirectory`: the counter `sequence`,
one more than the number of files that start with `D/release-<today>.`. -/
def countSequence (nginxConfigDirectory yyyymmdd : String) (files : List String) : Nat :=
  files.foldl
    (fun sequence file =>
      if hasPrefix file (nginxConfigDirectory ++ "/release-" ++ yyyymmdd ++ ".") then sequence + 1
      else sequence) 1

/-- Body of the second loop of `getCurrentConfigVersionDirectory`. -/
def latestStep (env : ReleaseEnv) (st : LatestState) (file : String) : LatestState :=
  let dirName := filepathBase file
  if !env.statIsDir file then st
  else
    match releasePatternFind dirName with
    | none => st
    | some (m1, m2) =>
      match atoi m1 with
      | none => st
      | some date =>
        match atoi m2 with
        | none => st
        | some sequence =>
          if st.latestDir = "" ∨ date > st.latestDate ∨
              (date = st.latestDate ∧ sequence > st.latestSequence) then
            { latestDir := file, latestDate := date, latestSequence := sequence }
          else st

/-- Embedding of `getCurrentConfigVersionDirectory`.  The counter of the first
loop is computed as in the source; no return statement reads it. -/
def getCurrentConfigVersionDirectory (env : ReleaseEnv) (nginxConfigDirectory : String) :
    Except String String :=
  match env.glob (pathJoin [nginxConfigDirectory, "release-*"]) with
  | .error e => .error ("failed to read nginx config directory: " ++ e)
  | .ok files =>
    let yyyymmdd := env.now
    let _sequence := countSequence nginxConfigDirectory yyyymmdd files
    if files.length = 0 then
      .ok (nginxConfigDirectory ++ "/release-" ++ yyyymmdd ++ ".1")
    else
      let st := files.foldl (latestStep env) { latestDir := "", latestDate := 0, latestSequence := 0 }
      if st.latestDir = "" then .error "no valid release directories found"
      else .ok st.latestDir

/-! ## The `current` symlink (`updateCurrentSymlink`, `getPreviousVersionDirectory`) -/

/-- What a path names in the file system. -/
inductive Node where
  | absent
  | symlink (target : String)
  | file
  | dir (empty : Bool)
deriving DecidableEq, Repr

/-- File-system state: what each path names, and the paths on which every
operation fails with a permission error. -/
structure FS where
  node : String → Node
  denied : String → Bool

/-- Model of `os.Symlink(target, p)`. -/
def FS.symlink (fs : FS) (target p : String) : Except String FS :=
  if fs.denied p then .error "permission denied"
  else if fs.node p = .absent then
    .ok { fs with node := fun q => if q = p then .symlink target else fs.node q }
  else .error "file exists"

/-- A name that is one path element: not empty, without a slash, and neither
`.` nor `..`. -/
def isPathElement (name : String) : Bool :=
  name ≠ "" && name ≠ "." && name ≠ ".." && !name.data.contains '/'

/-- Date and sequence number of a listed file that the second loop accepts:
an existing directory whose base name matches the release pattern and whose
two numbers parse. -/
def releaseKey (env : ReleaseEnv) (file : String) : Option (Int × Int) :=
  if env.statIsDir file then
    match releasePatternFind (filepathBase file) with
    | none => none
    | some (m1, m2) =>
      match atoi m1 with
      | none => none
      | some date =>
        match atoi m2 with
        | none => none
        | some sequence => some (date, sequence)
  else none

/-- Invariant of the second loop over the files seen so far. -/
def LatestInv (env : ReleaseEnv) (seen : List String) (st : LatestState) : Prop :=
  (st.latestDir = "" ∧ ∀ g ∈ seen, releaseKey env g = none) ∨
  (st.latestDir ≠ "" ∧ st.latestDir ∈ seen ∧
    releaseKey env st.latestDir = some (st.latestDate, st.latestSequence) ∧
    ∀ g ∈ seen, ∀ d s, releaseKey env g = some (d, s) →
      d < st.latestDate ∨ (d = st.latestDate ∧ s ≤ st.latestSequence))

/-! ## Values, the template evaluator, and the configuration object -/

/-- A Go value of type `any`, by its dynamic type: `nil`, `string`, `int`,
`bool`, `[]any`, `map[string]any`, a map of the named type
`file_config.ConfigVars` (declared as `map[string]any`, the type of
`Config.UserVars` and `Config.SysVars`), or a value of any other type
(`float64`, `time.Time`, ...) given by its printed form. -/
inductive Value where
  | null
  | str (s : String)
  | int (n : Int)
  | bool (b : Bool)
  | seq (items : List Value)
  | map (entries : List (String × Value))
  | configVars (entries : List (String × Value))
  | other (printed : String)

/-- The template evaluator `sigil.Execute(template, data, name)`; its grammar
is not part of this program. -/
structure Sigil where
  execute : String → Value → String → Except String String

/-- What a builder function does: return a result, return an error, or end
the process through `log.Fatalln`. -/
inductive Outcome (α : Type) where
  | ok (a : α)
  | error (msg : String)
  | fatal (msg : String)
deriving DecidableEq, Repr

/-- Type `file_config.UpstreamServer`. -/
structure UpstreamServer where
  Addr : String
  Flags : List (String × String)
deriving DecidableEq, Repr

/-- Type `file_config.UpstreamConfig`. -/
structure UpstreamConfig where
  Name : String
  Servers : List UpstreamServer
deriving DecidableEq, Repr

/-- Type `file_config.LocationConfig`. -/
structure LocationConfig where
  Modifier : String
  Uri : String
  Named : String
  Body : String
deriving DecidableEq, Repr

/-- Type `file_config.MapConfig` (the field `String` is declared last so
that the type of the same name stays in scope). -/
structure MapConfig where
  Variable : String
  Lines : String
  String : String
deriving DecidableEq, Repr

/-- Type `file_config.VariableConfig`. -/
structure VariableConfig where
  Name : String
  Value : String
deriving DecidableEq, Repr

/-- Type `file_config.CacheConfig`; `Flags` is `none` for a nil map. -/
structure CacheConfig where
  Name : String
  CachePath : String
  KeyZoneSize : String
  Flags : Option (List (String × String))
  InMem : Bool
  OnDisk : Bool
  PurgeOnDeploy : Bool
deriving DecidableEq, Repr

/-- Type `file_config.VhostConfig`. -/
structure VhostConfig where
  ServerName : String
  Locations : List LocationConfig
  Variables : List VariableConfig
  InServerBlock : String
deriving DecidableEq, Repr

/-- Type `file_config.Config`. -/
structure Config where
  Vhosts : List VhostConfig
  SysVars : Value
  UserVars : Value
  UpstreamAddressmode : String
  Upstreams : List UpstreamConfig
  Maps : List MapConfig
  ProxyCaches : List CacheConfig
  FastcgiCaches : List CacheConfig
  InHttpBlock : String

/-- The data `map[string]any{"vars": config.UserVars, "sys_vars": config.SysVars}`. -/
def varsContext (config : Config) : Value :=
  .map [("vars", config.UserVars), ("sys_vars", config.SysVars)]

/-! ## Upstream builder (`buildUpstreamConfig`) -/

/-- Type `upstreamConfigTemplateData`; `AppListeners` in iteration order. -/
structure upstreamConfigTemplateData where
  UpstreamPorts : List String
  AppListeners : List (String × List String)
  App : String
deriving DecidableEq, Repr

/-- Type `upstreamServer`. -/
structure upstreamServer where
  Addr : String
  Flags : List (String × String)
  FlagsString : String
deriving DecidableEq, Repr

/-- Type `upstreamConfig`. -/
structure upstreamConfig where
  GeneratedUpstreamName : String
  Servers : List upstreamServer
deriving DecidableEq, Repr

/-- The two maps `upstreamConfigs` and `upstreamResultingNames`. -/
structure UpstreamState where
  upstreamConfigs : List (String × upstreamConfig)
  upstreamResultingNames : List (String × String)
deriving DecidableEq, Repr

/-- Body of the loop over the listeners of one process type. -/
def listenerStep (port : String) (servers : List upstreamServer) (listener : String) :
    List upstreamServer :=
  let listenerSplit := stringsSplit listener ':'
  if listenerSplit.length ≠ 2 ∧ listenerSplit.length ≠ 1 then servers
  else
    let addr := listenerSplit.headD ""
    servers ++ [{ Addr := addr ++ ":" ++ port, Flags := [], FlagsString := "" }]

/-- Body of the loop over `data.AppListeners` for one port. -/
def processTypeStep (appName port : String) (st : UpstreamState)
    (entry : String × List String) : UpstreamState :=
  let processType := entry.1
  let listeners := entry.2
  if listeners.length = 0 then st
  else
    let refName := processType ++ "-" ++ port
    let generatedUpstreamName := appName ++ "-" ++ refName
    let names1 := mapSet st.upstreamResultingNames refName generatedUpstreamName
    let names2 :=
      if processType = "web" then
        let refNameDefault := "default-" ++ port
        let names := mapSet names1 refNameDefault generatedUpstreamName
        if (mapGet names "default").isNone then mapSet names "default" generatedUpstreamName
        else names
      else names1
    let uc : upstreamConfig :=
      match mapGet st.upstreamConfigs refName with
      | some uc => uc
      | none => { GeneratedUpstreamName := generatedUpstreamName, Servers := [] }
    { upstreamConfigs :=
        mapSet st.upstreamConfigs refName
          { uc with Servers := listeners.foldl (listenerStep port) uc.Servers }
      upstreamResultingNames := names2 }

/-- Body of the loop over `data.UpstreamPorts`. -/
def portStep (appName : String) (appListeners : List (String × List String))
    (st : UpstreamState) (port : String) : UpstreamState :=
  appListeners.foldl (processTypeStep appName port) st

/-- Body of the loop over `config.Upstreams`. -/
def userUpstreamStep (appName : String) (st : UpstreamState) (upstream : UpstreamConfig) :
    UpstreamState :=
  if upstream.Name = "" then st
  else
    let generatedUpstreamName := appName ++ "-" ++ upstream.Name
    { upstreamConfigs :=
        mapSet st.upstreamConfigs upstream.Name
          { GeneratedUpstreamName := generatedUpstreamName
            Servers := upstream.Servers.map
              (fun server => { Addr := server.Addr, Flags := server.Flags, FlagsString := "" }) }
      upstreamResultingNames :=
        mapSet st.upstreamResultingNames upstream.Name generatedUpstreamName }

/-- The loop over the flags of one server: the text in `FlagsString`. -/
def serverFlagsString (sigil : Sigil) (ctx : Value) :
    List (String × String) → String → Except String String
  | [], flagsString => .ok flagsString
  | (k, v) :: rest, flagsString =>
    let flagString := if v ≠ "" then k ++ "=" ++ v else k
    let separated := if flagsString ≠ "" then flagsString ++ " " else flagsString
    match sigil.execute flagString ctx "flag_string" with
    | .error e => .error ("failed to parse template: " ++ e)
    | .ok flagStringTemplated => serverFlagsString sigil ctx rest (separated ++ flagStringTemplated)

/-- The loop over the servers of one upstream. -/
def expandServers (sigil : Sigil) (ctx : Value) :
    List upstreamServer → Except String (List upstreamServer)
  | [] => .ok []
  | server :: rest =>
    match serverFlagsString sigil ctx server.Flags server.FlagsString with
    | .error e => .error e
    | .ok flagsString =>
      match expandServers sigil ctx rest with
      | .error e => .error e
      | .ok rest' => .ok ({ server with FlagsString := flagsString } :: rest')

/-- The loop over `upstreamConfigs` that expands the flags of every server. -/
def expandUpstreams (sigil : Sigil) (ctx : Value) :
    List (String × upstreamConfig) → Except String (List (String × upstreamConfig))
  | [] => .ok []
  | (key, uc) :: rest =>
    match expandServers sigil ctx uc.Servers with
    | .error e => .error e
    | .ok servers =>
      match expandUpstreams sigil ctx rest with
      | .error e => .error e
      | .ok rest' => .ok ((key, { uc with Servers := servers }) :: rest')

/-- An `upstreamServer` as template data. -/
def upstreamServerValue (server : upstreamServer) : Value :=
  .map [("Addr", .str server.Addr),
    ("Flags", .map (server.Flags.map (fun kv => (kv.1, Value.str kv.2)))),
    ("FlagsString", .str server.FlagsString)]

/-- An `upstreamConfig` as template data. -/
def upstreamConfigValue (uc : upstreamConfig) : Value :=
  .map [("GeneratedUpstreamName", .str uc.GeneratedUpstreamName),
    ("Servers", .seq (uc.Servers.map upstreamServerValue))]

/-- The template `templateStr` of `buildUpstreamConfig`. -/
def upstreamTemplateStr : String :=
  "\x7b\x7b- range $key, $value := $.upstreamConfigs -\x7d\x7d\n" ++
  "upstream \x7b\x7b $value.GeneratedUpstreamName \x7d\x7d \x7b\n" ++
  "\x7b\x7b- range $server := $value.Servers \x7d\x7d\n" ++
  "  server \x7b\x7b $server.Addr \x7d\x7d \x7b\x7b- if $server.FlagsString \x7d\x7d " ++
  "\x7b\x7b $server.FlagsString \x7d\x7d\x7b\x7b end -\x7d\x7d;\n" ++
  "\x7b\x7b- end \x7d\x7d\n\x7d\n\x7b\x7b end -\x7d\x7d"

/-- The maps `upstreamConfigs` and `upstreamResultingNames` after the loop
over the default upstreams and the loop over the user-supplied upstreams. -/
def collectUpstreams (appName : String) (config : Config) (data : upstreamConfigTemplateData) :
    UpstreamState :=
  let defaults := data.UpstreamPorts.foldl (portStep appName data.AppListeners)
    { upstreamConfigs := [], upstreamResultingNames := [] }
  config.Upstreams.foldl (userUpstreamStep appName) defaults

/-- The map `upstreamConfigs` as `buildUpstreamConfig` hands it to the
template: every upstream with the flags of its servers expanded. -/
def upstreamBlocks (sigil : Sigil) (appName : String) (config : Config)
    (data : upstreamConfigTemplateData) : Except String (List (String × upstreamConfig)) :=
  expandUpstreams sigil (varsContext config) (collectUpstreams appName config data).upstreamConfigs

/-- Embedding of `buildUpstreamConfig`: the rendered text and the registry
`upstreamResultingNames`. -/
def buildUpstreamConfig (sigil : Sigil) (appName : String) (config : Config)
    (data : upstreamConfigTemplateData) : Outcome (String × List (String × String)) :=
  match upstreamBlocks sigil appName config data with
  | .error e => .error e
  | .ok upstreamConfigs =>
    let dataRaw : Value :=
      .map [("upstreamConfigs", .map (upstreamConfigs.map (fun kv => (kv.1, upstreamConfigValue kv.2)))),
        ("vars", config.UserVars), ("sys_vars", config.SysVars)]
    match sigil.execute upstreamTemplateStr dataRaw "upstream_config" with
    | .error e => .fatal ("failed to parse template: " ++ e)
    | .ok result => .ok (result, (collectUpstreams appName config data).upstreamResultingNames)

/-- Whether process type `t` has at least one listener. -/
def hasListeners (appListeners : List (String × List String)) (t : String) : Bool :=
  appListeners.any (fun entry => entry.1 = t && entry.2.length ≠ 0)

/-- The server entry a listener string contributes for a declared port:
`host:port` for a listener of the form `host` or `host:port`, nothing for a
listener with three or more colon-separated segments. -/
def listenerServer (port listener : String) : Option upstreamServer :=
  match stringsSplit listener ':' with
  | [host] => some { Addr := host ++ ":" ++ port, Flags := [], FlagsString := "" }
  | [host, _] => some { Addr := host ++ ":" ++ port, Flags := [], FlagsString := "" }
  | _ => none

/-! ## Map builder (`buildMapConfig`) -/

/-- The template `templateStr` of `buildMapConfig`. -/
def mapTemplateStr : String :=
  "map \x7b\x7b $.string \x7d\x7d $\x7b\x7b $.variable \x7d\x7d \x7b\n" ++
  "\x7b\x7b- range $line := $.lines \x7d\x7d\n  \x7b\x7b $line \x7d\x7d\n" ++
  "\x7b\x7b- end \x7d\x7d\n\x7d\n"

/-- The inner loop of `buildMapConfig`: every variable of `config.Maps` is
assigned `variableName`. -/
def registerMapVariables (maps : List MapConfig) (variableName : String)
    (mapResultingVariables : List (String × String)) : List (String × String) :=
  maps.foldl (fun names mapVar => mapSet names mapVar.Variable variableName) mapResultingVariables

/-- The outer loop of `buildMapConfig` over the remaining definitions, from
the text and the registry built so far. -/
def mapLoop (sigil : Sigil) (appName : String) (config : Config) :
    List MapConfig → String × List (String × String) →
      Except String (String × List (String × String))
  | [], st => .ok st
  | mapVar :: rest, (mapConfigStr, mapResultingVariables) =>
    let variableName := appName ++ "_" ++ mapVar.Variable
    match sigil.execute mapVar.Lines (varsContext config) "map_lines" with
    | .error e => .error ("failed to parse template: " ++ e)
    | .ok linesOut =>
      match sigil.execute mapVar.String (varsContext config) "map_string" with
      | .error e => .error ("failed to parse template: " ++ e)
      | .ok stringOut =>
        let dataRaw : Value :=
          .map [("variable", .str variableName), ("string", .str stringOut),
            ("lines", .seq ((stringsSplit linesOut '\n').map Value.str))]
        match sigil.execute mapTemplateStr dataRaw "map_config" with
        | .error e => .error ("failed to parse template: " ++ e)
        | .ok result =>
          mapLoop sigil appName config rest
            (mapConfigStr ++ result,
              registerMapVariables config.Maps variableName mapResultingVariables)

/-- Embedding of `buildMapConfig`. -/
def buildMapConfig (sigil : Sigil) (appName : String) (config : Config) :
    Except String (String × List (String × String)) :=
  mapLoop sigil appName config config.Maps ("", [])

/-! ## Cache builders (`buildProxyCacheConfig`, `buildFastcgiCacheConfig`) -/

/-- Type `buildProxyCacheConfigData`; a default flag map is `none` when nil. -/
structure buildProxyCacheConfigData where
  proxyCacheOnDiskRootPath : String
  proxyCacheInMemRootPath : String
  proxyCacheDefaultFlags : Option (List (String × String))
  proxyCacheKeyZoneSize : String
  fastcgiOnDiskRootPath : String
  fastcgiInMemRootPath : String
  fastcgiDefaultFlags : Option (List (String × String))
  fastcgiKeyZoneSize : String
deriving DecidableEq, Repr

/-- Model of `mergo.Merge(&dst, src, mergo.WithOverride)` on two non-nil
`map[string]string`: every entry of `src` is assigned into `dst`. -/
def mergoMergeOverride (dst src : List (String × String)) : List (String × String) :=
  src.foldl (fun m kv => mapSet m kv.1 kv.2) dst

/-- The statements `flags := defaults; if cache.Flags != nil { mergo.Merge(&flags, ...) }`:
the map `flags` of this iteration, and the default map as the next iteration
finds it.  A non-nil default map is the very map that `flags` names, so the
merge writes into it; a nil one is replaced by a fresh map held by `flags` only. -/
def mergeCacheFlags (defaults : Option (List (String × String)))
    (cacheFlags : Option (List (String × String))) :
    List (String × String) × Option (List (String × String)) :=
  match cacheFlags with
  | none => (defaults.getD [], defaults)
  | some src =>
    match defaults with
    | some dst => (mergoMergeOverride dst src, some (mergoMergeOverride dst src))
    | none => (mergoMergeOverride [] src, none)

/-- The loop over `flags` that builds `flagStr`; `name` is the template name. -/
def cacheFlagStr (sigil : Sigil) (ctx : Value) (name : String) :
    List (String × String) → String → Except String String
  | [], flagStr => .ok flagStr
  | (k, v) :: rest, flagStr =>
    let str := if v ≠ "" then k ++ "=" ++ v else k
    let separated := if flagStr ≠ "" then flagStr ++ " " else flagStr
    match sigil.execute str ctx name with
    | .error e => .error ("failed to parse template: " ++ e)
    | .ok tmplOut => cacheFlagStr sigil ctx name rest (separated ++ tmplOut)

/-- State of the loop of a cache builder: `cfgStr`, `cacheResultingNames`, and
the default flag map of the kind. -/
structure CacheLoopState where
  cfgStr : String
  cacheResultingNames : List (String × String)
  defaultFlags : Option (List (String × String))
deriving DecidableEq, Repr

/-- The loop of `buildProxyCacheConfig` over the remaining caches. -/
def proxyCacheLoop (sigil : Sigil) (appName : String) (data : buildProxyCacheConfigData)
    (config : Config) : List CacheConfig → CacheLoopState →
      Except String (String × List (String × String))
  | [], st => .ok (st.cfgStr, st.cacheResultingNames)
  | cache :: rest, st =>
    let cacheName := "proxy_" ++ appName ++ "_" ++ cache.Name
    let cachePath :=
      if cache.CachePath = "" then
        if cache.InMem then pathJoin [data.proxyCacheInMemRootPath, cacheName]
        else pathJoin [data.proxyCacheOnDiskRootPath, cacheName]
      else cache.CachePath
    let merged := mergeCacheFlags st.defaultFlags cache.Flags
    let keyZoneSize := if cache.KeyZoneSize = "" then data.proxyCacheKeyZoneSize else cache.KeyZoneSize
    let names := mapSet st.cacheResultingNames cache.Name cacheName
    match cacheFlagStr sigil (varsContext config) "proxy_cache_flag_string" merged.1 "" with
    | .error e => .error e
    | .ok flagStr =>
      let cfgStr := if st.cfgStr ≠ "" then st.cfgStr ++ "\n" else st.cfgStr
      proxyCacheLoop sigil appName data config rest
        { cfgStr := cfgStr ++ ("proxy_cache_path " ++ cachePath ++ " keys_zone=" ++ cacheName ++
            ":" ++ keyZoneSize ++ " " ++ flagStr ++ ";")
          cacheResultingNames := names
          defaultFlags := merged.2 }

/-- Embedding of `buildProxyCacheConfig`. -/
def buildProxyCacheConfig (sigil : Sigil) (appName : String) (data : buildProxyCacheConfigData)
    (config : Config) : Except String (String × List (String × String)) :=
  proxyCacheLoop sigil appName data config config.ProxyCaches
    { cfgStr := "", cacheResultingNames := [], defaultFlags := data.proxyCacheDefaultFlags }

/-- The loop of `buildFastcgiCacheConfig` over the remaining caches. -/
def fastcgiCacheLoop (sigil : Sigil) (appName : String) (data : buildProxyCacheConfigData)
    (config : Config) : List CacheConfig → CacheLoopState →
      Except String (String × List (String × String))
  | [], st => .ok (st.cfgStr, st.cacheResultingNames)
  | cache :: rest, st =>
    let cacheName := "fastcgi_" ++ appName ++ "_" ++ cache.Name
    let cachePath :=
      if cache.CachePath = "" then
        if cache.InMem then pathJoin [data.fastcgiInMemRootPath, cacheName]
        else pathJoin [data.fastcgiOnDiskRootPath, cacheName]
      else cache.CachePath
    let merged := mergeCacheFlags st.defaultFlags cache.Flags
    let keyZoneSize := if cache.KeyZoneSize = "" then data.fastcgiKeyZoneSize else cache.KeyZoneSize
    let names := mapSet st.cacheResultingNames cache.Name cacheName
    match cacheFlagStr sigil (varsContext config) "fastcgi_cache_flag_string" merged.1 "" with
    | .error e => .error e
    | .ok flagStr =>
      let cfgStr := if st.cfgStr ≠ "" then st.cfgStr ++ "\n" else st.cfgStr
      fastcgiCacheLoop sigil appName data config rest
        { cfgStr := cfgStr ++ ("fastcgi_cache_path " ++ cachePath ++ " keys_zone=" ++ cacheName ++
            ":" ++ keyZoneSize ++ " " ++ flagStr ++ ";")
          cacheResultingNames := names
          defaultFlags := merged.2 }

/-- Embedding of `buildFastcgiCacheConfig`. -/
def buildFastcgiCacheConfig (sigil : Sigil) (appName : String) (data : buildProxyCacheConfigData)
    (config : Config) : Except String (String × List (String × String)) :=
  fastcgiCacheLoop sigil appName data config config.FastcgiCaches
    { cfgStr := "", cacheResultingNames := [], defaultFlags := data.fastcgiDefaultFlags }

/-! ## Environment lookup (`mustEnv`) -/

/-- The loop of `mustEnv` over the entries of the environment: the value of
the first entry whose key is `name`, or `none` when the loop ends without a
match.  An entry that splits at `=` into three or more pieces keeps the
zero values `key = ""`, `value = ""`. -/
def mustEnvLoop (name : String) : List String → Option String
  | [] => none
  | env :: rest =>
    let split := stringsSplit env '='
    let key := if split.length = 2 then split.headD "" else if split.length = 1 then env else ""
    let value := if split.length = 2 then (split.drop 1).headD "" else ""
    if name = key then some value else mustEnvLoop name rest

/-- Embedding of `mustEnv` on the environment `environs` (`os.Environ()`):
the value, or the end of the process through `log.Fatalln`. -/
def mustEnv (environs : List String) (name : String) : Outcome String :=
  match mustEnvLoop name environs with
  | some value => .ok value
  | none => .fatal ("missing required env var: " ++ name)

/-! ## Variable resolver (`resolveValue`, `resolveUserVars`) -/

mutual
/-- Embedding of `resolveValue`: the type switch has the cases `string`,
`map[string]any` and `[]any`; `nil` and every other dynamic type are returned
as they are. -/
def resolveValue (sigil : Sigil) (sysVars : Value) : Value → String → Except String Value
  | .null, _ => .ok .null
  | .str val, context =>
    match sigil.execute val sysVars context with
    | .error e => .error e
    | .ok resolved => .ok (.str resolved)
  | .map entries, context =>
    match resolveMapEntries sigil sysVars entries context with
    | .error e => .error e
    | .ok resolvedMap => .ok (.map resolvedMap)
  | .seq items, context =>
    match resolveSliceItems sigil sysVars items context 0 with
    | .error e => .error e
    | .ok resolvedSlice => .ok (.seq resolvedSlice)
  | .int n, _ => .ok (.int n)
  | .bool b, _ => .ok (.bool b)
  | .configVars entries, _ => .ok (.configVars entries)
  | .other printed, _ => .ok (.other printed)

/-- The loop of `resolveValue` over the entries of a `map[string]any`. -/
def resolveMapEntries (sigil : Sigil) (sysVars : Value) :
    List (String × Value) → String → Except String (List (String × Value))
  | [], _ => .ok []
  | (k, nestedVal) :: rest, context =>
    match resolveValue sigil sysVars nestedVal (context ++ "." ++ k) with
    | .error e => .error ("in key " ++ k ++ ": " ++ e)
    | .ok resolved =>
      match resolveMapEntries sigil sysVars rest context with
      | .error e => .error e
      | .ok rest' => .ok ((k, resolved) :: rest')

/-- The loop of `resolveValue` over the items of a `[]any`, from index `i`. -/
def resolveSliceItems (sigil : Sigil) (sysVars : Value) :
    List Value → String → Nat → Except String (List Value)
  | [], _, _ => .ok []
  | item :: rest, context, i =>
    match resolveValue sigil sysVars item (context ++ "[" ++ toString i ++ "]") with
    | .error e => .error ("at index " ++ toString i ++ ": " ++ e)
    | .ok resolved =>
      match resolveSliceItems sigil sysVars rest context (i + 1) with
      | .error e => .error e
      | .ok rest' => .ok (resolved :: rest')
end

/-- Embedding of `resolveUserVars`: the loop over the user variables. -/
def resolveUserVars (sigil : Sigil) (sysVars : Value) :
    List (String × Value) → Except String (List (String × Value))
  | [] => .ok []
  | (k, v) :: rest =>
    match resolveValue sigil sysVars v ("user_var_" ++ k) with
    | .error e => .error ("failed to resolve user var " ++ k ++ ": " ++ e)
    | .ok resolved =>
      match resolveUserVars sigil sysVars rest with
      | .error e => .error e
      | .ok rest' => .ok ((k, resolved) :: rest')

/-! ## Location builder (`buildLocationConfig`) -/

/-- Type `locationConfigData`. -/
structure locationConfigData where
  upstreams : List (String × String)
  mapVariables : List (String × String)
  proxyCaches : List (String × String)
  fastcgiCaches : List (String × String)

/-- The template `tmplLocationBlockStr` of `buildLocationConfig`. -/
def tmplLocationBlockStr : String :=
  "\x7b\x7b- if or $.uri $.named -\x7d\x7d\n" ++
  "location \x7b\x7b $.modifier \x7d\x7d\x7b\x7b if $.named \x7d\x7d@\x7b\x7b $.named \x7d\x7d" ++
  "\x7b\x7b else \x7d\x7d\x7b\x7b $.uri \x7d\x7d\x7b\x7b end \x7d\x7d \x7b\n" ++
  "\x7b\x7b- end -\x7d\x7d\n" ++
  "\x7b\x7b- range $line := $.bodyLines \x7d\x7d\n" ++
  "  \x7b\x7b $line \x7d\x7d\n" ++
  "\x7b\x7b- end \x7d\x7d\n" ++
  "\x7b\x7b- if or $.uri $.named \x7d\x7d\n" ++
  "\x7d\n\n" ++
  "\x7b\x7b end -\x7d\x7d\n"

/-- A Go `map[string]string` as a value of type `any`. -/
def stringMapValue (m : List (String × String)) : Value :=
  .map (m.map (fun kv => (kv.1, Value.str kv.2)))

/-- The map `variableNames` of one virtual host. -/
def variableNames (vhost : VhostConfig) : List (String × String) :=
  vhost.Variables.foldl (fun names var => mapSet names var.Name var.Name) []

/-- The map `namedLocations` of one virtual host. -/
def namedLocations (appName : String) (vhost : VhostConfig) : List (String × String) :=
  vhost.Locations.foldl
    (fun names location =>
      if location.Named ≠ "" then mapSet names location.Named (appName ++ "_" ++ location.Named)
      else names)
    []

/-- The map `bodyTmplData` of one virtual host. -/
def bodyTmplData (appName : String) (config : Config) (data : locationConfigData)
    (vhost : VhostConfig) : Value :=
  .map [("map_variables", stringMapValue data.mapVariables),
    ("upstreams", stringMapValue data.upstreams),
    ("proxy_caches", stringMapValue data.proxyCaches),
    ("fastcgi_caches", stringMapValue data.fastcgiCaches),
    ("variables", stringMapValue (variableNames vhost)),
    ("named_locations", stringMapValue (namedLocations appName vhost)),
    ("vars", config.UserVars),
    ("sys_vars", config.SysVars)]

/-- The map `tmplData` of one virtual host before its first rule. -/
def initialTmplData (config : Config) : List (String × Value) :=
  [("locationConfigs", .map []), ("vars", config.UserVars), ("sys_vars", config.SysVars)]

/-- The loop of `buildLocationConfig` over the remaining rules of one virtual
host, from the map `tmplData` and the text `locationConfigStr` built so far. -/
def locationLoop (sigil : Sigil) (appName : String) (config : Config)
    (data : locationConfigData) (vhost : VhostConfig) :
    List LocationConfig → List (String × Value) × String → Except String String
  | [], (_, locationConfigStr) => .ok locationConfigStr
  | location :: rest, (tmplData, locationConfigStr) =>
    match sigil.execute location.Modifier (bodyTmplData appName config data vhost)
        ("location_modifier_vhost_" ++ vhost.ServerName ++ "_uri_" ++ location.Uri) with
    | .error e => .error ("failed to parse location.Modifier template: " ++ e)
    | .ok modifierOut =>
      let tmplData := mapSet tmplData "modifier" (.str modifierOut)
      match sigil.execute location.Uri (bodyTmplData appName config data vhost)
          ("location_uri_vhost_" ++ vhost.ServerName ++ "_uri_" ++ location.Uri) with
      | .error e => .error ("failed to parse location.Uri template: " ++ e)
      | .ok uriOut =>
        let tmplData := mapSet tmplData "uri" (.str uriOut)
        match sigil.execute location.Body (bodyTmplData appName config data vhost)
            ("location_body_vhost_" ++ vhost.ServerName ++ "_uri_" ++ location.Uri) with
        | .error e => .error ("failed to parse location.Body template: " ++ e)
        | .ok bodyOut =>
          let bodyLines := stringsSplit bodyOut '\n'
          let tmplData := mapSet tmplData "bodyLines" (.seq (bodyLines.map Value.str))
          let tmplData := mapSet tmplData "named"
            (.str (if location.Named ≠ "" then
              (mapGet (namedLocations appName vhost) location.Named).getD "" else ""))
          match sigil.execute tmplLocationBlockStr (.map tmplData)
              ("location_block_vhost_" ++ vhost.ServerName ++ "_uri_" ++ location.Uri) with
          | .error e => .error ("failed to parse tmplLocationBlockStr template: " ++ e)
          | .ok locationOut =>
            locationLoop sigil appName config data vhost rest
              (tmplData,
                (if locationConfigStr ≠ "" then locationConfigStr ++ "\n"
                  else locationConfigStr) ++ locationOut)

/-- The loop of `buildLocationConfig` over the remaining virtual hosts, from
the map `locationConfigs` built so far. -/
def vhostLoop (sigil : Sigil) (appName : String) (config : Config)
    (data : locationConfigData) :
    List VhostConfig → List (String × String) → Except String (List (String × String))
  | [], locationConfigs => .ok locationConfigs
  | vhost :: rest, locationConfigs =>
    match locationLoop sigil appName config data vhost vhost.Locations
        (initialTmplData config, "") with
    | .error e => .error e
    | .ok locationConfigStr =>
      vhostLoop sigil appName config data rest
        (mapSet locationConfigs vhost.ServerName locationConfigStr)

/-- Embedding of `buildLocationConfig`. -/
def buildLocationConfig (sigil : Sigil) (appName : String) (config : Config)
    (data : locationConfigData) : Except String (List (String × String)) :=
  vhostLoop sigil appName config data config.Vhosts []

/-! ## Cache purger (`cmd/cache-purger`: `buildCachePath`) -/

/-- Model of `filepath.Join`: on a Unix system it is `path.Join`. -/
def filepathJoin (elem : List String) : String := pathJoin elem

/-- Text of the verb `%q` for a name that needs no escaping. -/
def goQuote (s : String) : String := "\"" ++ s ++ "\""

/-- Embedding of `buildCachePath` of the cache purger; `roots[k]` of a missing
key is the empty string. -/
def buildCachePath (kind appName : String) (cache : CacheConfig)
    (roots : List (String × String)) : Except String String :=
  if cache.CachePath ≠ "" then .ok cache.CachePath
  else if appName = "" then
    .error ("cache " ++ goQuote cache.Name ++
      ": app name is required to derive cache path; set -app-name or APP_NAME/DOKKU_APP_NAME")
  else
    let root :=
      if cache.InMem then (mapGet roots "in_mem").getD ""
      else if cache.OnDisk then (mapGet roots "on_disk").getD ""
      else (mapGet roots "on_disk").getD ""
    if root = "" then
      .error ("cache " ++ goQuote cache.Name ++ ": missing cache root path for " ++ kind ++
        " caches")
    else
      let kindPrefix := if kind = "fastcgi" then "fastcgi" else "proxy"
      let cacheDirName := kindPrefix ++ "_" ++ appName ++ "_" ++ cache.Name
      .ok (filepathJoin [root, cacheDirName])

/-! ## Descriptions used in the statements -/

/-- Storage path of a cache as the specification words it: the explicit path
when one is given; otherwise the in-memory root joined with the generated name
when the memory-backed flag is set; otherwise the on-disk root joined with the
generated name.  `root/name` is formed as `path.Join` forms it. -/
def specCachePath (explicitPath : String) (inMem _onDisk : Bool)
    (generatedName inMemRoot onDiskRoot : String) : String :=
  if explicitPath ≠ "" then explicitPath
  else if inMem then pathJoin [inMemRoot, generatedName]
  else pathJoin [onDiskRoot, generatedName]

/-- Keyspace size of a cache: its own, or the default of the kind if unset. -/
def specKeyZoneSize (own default : String) : String :=
  if own ≠ "" then own else default

/-- Lines appended to a text, a newline before each line unless the text is
still empty. -/
def appendLines (acc : String) (lines : List String) : String :=
  lines.foldl (fun acc line => (if acc ≠ "" then acc ++ "\n" else acc) ++ line) acc

/-- Concatenation of the lists `f x` for `x` in a list, in order. -/
def concatMap {α β : Type} (f : α → List β) : List α → List β
  | [] => []
  | a :: l => f a ++ concatMap f l

/-- Servers registered under a logical reference (none if it is absent). -/
def serversAt (cfgs : List (String × upstreamConfig)) (key : String) : List upstreamServer :=
  match mapGet cfgs key with
  | some uc => uc.Servers
  | none => []

/-- Servers that one (port, process type) pair adds under the reference `key`:
one per well-formed listener if the process type has listeners and the pair
is named `key`, none otherwise. -/
def refContribution (key port : String) (entry : String × List String) : List upstreamServer :=
  if entry.2.length ≠ 0 ∧ entry.1 ++ "-" ++ port = key then
    entry.2.filterMap (listenerServer port)
  else []

/-- The text of one flag before it is expanded: `k=v`, or `k` alone when the
value is empty. -/
def flagText (kv : String × String) : String :=
  if kv.2 ≠ "" then kv.1 ++ "=" ++ kv.2 else kv.1

/-- Every flag of every server of the upstream map is a flag of a server of
a user-declared upstream. -/
def FlagsFromUser (upstreams : List UpstreamConfig) (cfgs : List (String × upstreamConfig)) :
    Prop :=
  ∀ entry ∈ cfgs, ∀ s ∈ entry.2.Servers, ∀ kv ∈ s.Flags,
    ∃ u ∈ upstreams, ∃ s' ∈ u.Servers, kv ∈ s'.Flags

/-- A non-empty string of decimal digits. -/
def isDigits (s : String) : Prop := s.data ≠ [] ∧ s.data.all Char.isDigit = true

/-- A listed file is a valid release with the given date and sequence number:
it is an existing directory, its base name is `release-<digits>.<digits>`,
and the two digit strings parse to the two numbers. -/
def IsValidRelease (env : ReleaseEnv) (file : String) (date sequence : Int) : Prop :=
  env.statIsDir file = true ∧
  ∃ d1 d2 : String, isDigits d1 ∧ isDigits d2 ∧
    filepathBase file = "release-" ++ d1 ++ "." ++ d2 ∧
    atoi d1 = some date ∧ atoi d2 = some sequence

/-- Whether a listed file is an existing directory whose base name matches
the release pattern. -/
def isWellFormedEntry (env : ReleaseEnv) (file : String) : Bool :=
  env.statIsDir file && (releasePatternFind (filepathBase file)).isSome

/-- The same environment with another result of the directory listing. -/
def withListing (env : ReleaseEnv) (files : List String) : ReleaseEnv :=
  { env with glob := fun _ => .ok files }

/-- Every value of the registry is the generated name `<appName>-<key>` of a
reference `key` that is present among the upstreams. -/
def RegistryAgrees (appName : String) (st : UpstreamState) : Prop :=
  ∀ k v, mapGet st.upstreamResultingNames k = some v →
    ∃ key, (mapGet st.upstreamConfigs key).isSome = true ∧ v = appName ++ "-" ++ key

/-- Every upstream carries the generated name `<appName>-<key>` of its key. -/
def NamesGenerated (appName : String) (cfgs : List (String × upstreamConfig)) : Prop :=
  ∀ key uc, mapGet cfgs key = some uc → uc.GeneratedUpstreamName = appName ++ "-" ++ key

/-- Text that the `range` action of `tmplLocationBlockStr` emits for the body
lines: a newline and two spaces before each line (the newline after a line is
trimmed by the `\x7b\x7b- end \x7d\x7d` that follows it). -/
def bodyText : List String → String
  | [] => ""
  | line :: rest => "\n  " ++ line ++ bodyText rest

/-- Text of `tmplLocationBlockStr` under the rules of Go's `text/template`
for the strings `modifier`, `uri`, `named` and the string list `bodyLines`.
`or $.uri $.named` holds when one of the two strings is not empty; a trim
marker `-` removes the white space next to it, so the header reads
`location <modifier><target> \x7b` with no newline before it, and the footer,
whose actions carry no trim marker on its side, reads newline, `\x7d`, and two
newlines. -/
def renderLocationBlock (modifier uri named : String) (bodyLines : List String) : String :=
  if uri ≠ "" ∨ named ≠ "" then
    "location " ++ modifier ++ (if named ≠ "" then "@" ++ named else uri) ++ " \x7b" ++
      bodyText bodyLines ++ "\n\x7d\n\n"
  else bodyText bodyLines

/-- The evaluator renders `tmplLocationBlockStr` as `text/template` does:
on data whose keys `modifier`, `uri`, `named` hold strings and whose key
`bodyLines` holds a list of strings. -/
def RendersLocationBlock (sigil : Sigil) : Prop :=
  ∀ (tmplData : List (String × Value)) (name modifier uri named : String)
    (bodyLines : List String),
    mapGet tmplData "modifier" = some (.str modifier) →
    mapGet tmplData "uri" = some (.str uri) →
    mapGet tmplData "named" = some (.str named) →
    mapGet tmplData "bodyLines" = some (.seq (bodyLines.map Value.str)) →
    sigil.execute tmplLocationBlockStr (.map tmplData) name =
      .ok (renderLocationBlock modifier uri named bodyLines)

/-- Rendered output of one rule of a virtual host: its modifier, URI and body
evaluated against `bodyTmplData`, then the block template on the results. -/
def ruleOutput (sigil : Sigil) (appName : String) (config : Config)
    (data : locationConfigData) (vhost : VhostConfig) (location : LocationConfig) :
    Except String String :=
  match sigil.execute location.Modifier (bodyTmplData appName config data vhost)
      ("location_modifier_vhost_" ++ vhost.ServerName ++ "_uri_" ++ location.Uri) with
  | .error e => .error ("failed to parse location.Modifier template: " ++ e)
  | .ok modifierOut =>
    match sigil.execute location.Uri (bodyTmplData appName config data vhost)
        ("location_uri_vhost_" ++ vhost.ServerName ++ "_uri_" ++ location.Uri) with
    | .error e => .error ("failed to parse location.Uri template: " ++ e)
    | .ok uriOut =>
      match sigil.execute location.Body (bodyTmplData appName config data vhost)
          ("location_body_vhost_" ++ vhost.ServerName ++ "_uri_" ++ location.Uri) with
      | .error e => .error ("failed to parse location.Body template: " ++ e)
      | .ok bodyOut =>
        .ok (renderLocationBlock modifierOut uriOut
          (if location.Named ≠ "" then
            (mapGet (namedLocations appName vhost) location.Named).getD "" else "")
          (stringsSplit bodyOut '\n'))

/-- The strings of a list of values, if all of them are strings. -/
def stringItems : List Value → Option (List String)
  | [] => some []
  | .str s :: rest =>
    match stringItems rest with
    | some strs => some (s :: strs)
    | none => none
  | _ :: _ => none

/-- The evaluator fails on a string leaf that `resolveValue` reaches from a
value through the cases `map[string]any` and `[]any`, each leaf taken with
its context path. -/
inductive FailingLeaf (sigil : Sigil) (sysVars : Value) : Value → String → Prop where
  | str (s context e : String) (h : sigil.execute s sysVars context = .error e) :
      FailingLeaf sigil sysVars (.str s) context
  | map (entries : List (String × Value)) (context k : String) (v : Value)
      (hmem : (k, v) ∈ entries) (h : FailingLeaf sigil sysVars v (context ++ "." ++ k)) :
      FailingLeaf sigil sysVars (.map entries) context
  | seq (items : List Value) (context : String) (i : Nat) (v : Value)
      (hget : items.get? i = some v)
      (h : FailingLeaf sigil sysVars v (context ++ "[" ++ toString i ++ "]")) :
      FailingLeaf sigil sysVars (.seq items) context

/-- The three expansions of one rule of a virtual host: its modifier, its URI
and its body evaluated against `bodyTmplData`, if all three succeed. -/
def ruleExpansion (sigil : Sigil) (appName : String) (config : Config)
    (data : locationConfigData) (vhost : VhostConfig) (location : LocationConfig) :
    Option (String × String × String) :=
  match sigil.execute location.Modifier (bodyTmplData appName config data vhost)
      ("location_modifier_vhost_" ++ vhost.ServerName ++ "_uri_" ++ location.Uri),
    sigil.execute location.Uri (bodyTmplData appName config data vhost)
      ("location_uri_vhost_" ++ vhost.ServerName ++ "_uri_" ++ location.Uri),
    sigil.execute location.Body (bodyTmplData appName config data vhost)
      ("location_body_vhost_" ++ vhost.ServerName ++ "_uri_" ++ location.Uri) with
  | .ok modifierOut, .ok uriOut, .ok bodyOut => some (modifierOut, uriOut, bodyOut)
  | _, _, _ => none

/-- An evaluator that returns every template unchanged. -/
def sigilIdentity : Sigil := { execute := fun template _ _ => .ok template }

/-- A configuration with nothing declared. -/
def emptyConfig : Config :=
  { Vhosts := [], SysVars := .null, UserVars := .null, UpstreamAddressmode := "ip",
    Upstreams := [], Maps := [], ProxyCaches := [], FastcgiCaches := [], InHttpBlock := "" }

/-- The release environment of a config directory `D` that holds the
directories `names`, on the day `today`. -/
def releaseEnvOf (D : String) (names : List String) (today : String) : ReleaseEnv :=
  { glob := fun pattern =>
      if pattern = pathJoin [D, "release-*"] then .ok (names.map (fun n => D ++ "/" ++ n))
      else .ok []
    now := today
    statIsDir := fun file => (names.map (fun n => D ++ "/" ++ n)).contains file }

/-- Cache roots, default flags and default keyspace sizes as `main` builds
them from the environment. -/
def exampleCacheData : buildProxyCacheConfigData :=
  { proxyCacheOnDiskRootPath := "/var/cache/nginx"
    proxyCacheInMemRootPath := "/dev/shm/nginx"
    proxyCacheDefaultFlags := some [("levels", "1:2")]
    proxyCacheKeyZoneSize := "10m"
    fastcgiOnDiskRootPath := "/var/cache/fastcgi"
    fastcgiInMemRootPath := "/dev/shm/fastcgi"
    fastcgiDefaultFlags := some [("levels", "1:2")]
    fastcgiKeyZoneSize := "10m" }

/-- Two proxy caches: `a` with a flag of its own, `b` without any. -/
def exampleTwoCaches : Config :=
  { emptyConfig with
    ProxyCaches :=
      [{ Name := "a", CachePath := "", KeyZoneSize := "", Flags := some [("inactive", "10m")],
         InMem := true, OnDisk := false, PurgeOnDeploy := false },
       { Name := "b", CachePath := "", KeyZoneSize := "", Flags := none,
         InMem := false, OnDisk := false, PurgeOnDeploy := false }] }

/-- Two map definitions with different variable names. -/
def exampleTwoMaps : Config :=
  { emptyConfig with
    Maps := [{ Variable := "scheme", Lines := "default http;", String := "$http_x_forwarded_proto" },
             { Variable := "backend", Lines := "default 0;", String := "$uri" }] }

/-- The release environment of a config directory `D` whose `release-*`
entries are `entries` (name, whether it is a directory), on the day `today`. -/
def releaseEnvWith (D : String) (entries : List (String × Bool)) (today : String) : ReleaseEnv :=
  { glob := fun pattern =>
      if pattern = pathJoin [D, "release-*"] then .ok (entries.map (fun e => D ++ "/" ++ e.1))
      else .ok []
    now := today
    statIsDir := fun file => entries.any (fun e => D ++ "/" ++ e.1 = file && e.2) }

/-- A configuration with one user-declared upstream `api` of two servers. -/
def exampleUserUpstream : Config :=
  { emptyConfig with
    Upstreams :=
      [{ Name := "api"
         Servers := [{ Addr := "10.0.1.1:9000", Flags := [("weight", "3")] },
                     { Addr := "10.0.1.2:9000", Flags := [("backup", "")] }] }] }

/-- Listener data with one `web` listener and the declared port 8080. -/
def exampleWebData : upstreamConfigTemplateData :=
  { UpstreamPorts := ["8080"], AppListeners := [("web", ["10.0.0.1:5000"])], App := "app" }

/-- An evaluator that puts every template between angle brackets. -/
def sigilBracket : Sigil := { execute := fun template _ _ => .ok ("<" ++ template ++ ">") }

/-- An evaluator that rejects the template `broken` and returns every other
template unchanged. -/
def sigilStrict : Sigil :=
  { execute := fun template _ _ =>
      if template = "broken" then .error "template: unexpected EOF" else .ok template }

/-- The system-variable context that `main` passes to `resolveUserVars`. -/
def exampleSysVars : Value :=
  .map [("sys_vars", .configVars [("app_name", .str "app")])]

/-- An evaluator that renders `tmplLocationBlockStr` as `text/template` does
and returns every other template unchanged. -/
def sigilTextTemplate : Sigil :=
  { execute := fun template data _ =>
      if template = tmplLocationBlockStr then
        match data with
        | .map tmplData =>
          match mapGet tmplData "modifier", mapGet tmplData "uri", mapGet tmplData "named",
            mapGet tmplData "bodyLines" with
          | some (.str modifier), some (.str uri), some (.str named), some (.seq items) =>
            match stringItems items with
            | some bodyLines => .ok (renderLocationBlock modifier uri named bodyLines)
            | none => .error "template: bodyLines is not a list of strings"
          | _, _, _, _ => .error "template: missing value"
        | _ => .error "template: data is not a map"
      else .ok template }

/-- No registered names. -/
def emptyLocationData : locationConfigData :=
  { upstreams := [], mapVariables := [], proxyCaches := [], fastcgiCaches := [] }

/-- A virtual host of three rules: a URI rule, a named rule, and a rule with
neither. -/
def exampleVhost : VhostConfig :=
  { ServerName := "example.com"
    Locations :=
      [{ Modifier := "", Uri := "/", Named := "", Body := "proxy_pass http://app;" },
       { Modifier := "", Uri := "", Named := "fallback", Body := "return 404;" },
       { Modifier := "", Uri := "", Named := "", Body := "gzip on;\ngzip_vary on;" }]
    Variables := []
    InServerBlock := "" }

/-- A configuration with the one virtual host `exampleVhost`. -/
def exampleOneVhost : Config := { emptyConfig with Vhosts := [exampleVhost] }

/-- A virtual host `example.com` with one rule for the URI `/`. -/
def exampleFirstVhost : VhostConfig :=
  { ServerName := "example.com"
    Locations := [{ Modifier := "", Uri := "/", Named := "", Body := "return 200;" }]
    Variables := []
    InServerBlock := "" }

/-- A second virtual host `example.com`, with one rule for the URI `/api`. -/
def exampleSecondVhost : VhostConfig :=
  { ServerName := "example.com"
    Locations := [{ Modifier := "", Uri := "/api", Named := "", Body := "return 404;" }]
    Variables := []
    InServerBlock := "" }

/-- A configuration whose two virtual hosts declare the same server name. -/
def exampleSameServerName : Config :=
  { emptyConfig with Vhosts := [exampleFirstVhost, exampleSecondVhost] }

/-- An evaluator that renders `tmplLocationBlockStr` as `text/template` does,
renders the template `\x7b\x7b $.vars.prefix \x7d\x7d` as the empty text (the
value of a user variable `prefix` that is empty), and returns every other
template unchanged. -/
def sigilEmptyPrefix : Sigil :=
  { execute := fun template data name =>
      if template = "\x7b\x7b $.vars.prefix \x7d\x7d" then .ok ""
      else sigilTextTemplate.execute template data name }

/-- A configuration with the empty user variable `prefix` and one virtual
host whose one rule has the URI `\x7b\x7b $.vars.prefix \x7d\x7d`. -/
def exampleEmptyUri : Config :=
  { emptyConfig with
    UserVars := .configVars [("prefix", .str "")]
    Vhosts :=
      [{ ServerName := "example.com"
         Locations :=
           [{ Modifier := "", Uri := "\x7b\x7b $.vars.prefix \x7d\x7d", Named := "",
              Body := "return 404;" }]
         Variables := []
         InServerBlock := "" }] }

/-! # Theorems -/

/-! ### Go maps -/

theorem mapGet_mapSet {V : Type} (m : List (String × V)) (k k' : String) (v : V) :
    mapGet (mapSet m k v) k' = if k = k' then some v else mapGet m k' := by
  induction m with
  | nil => simp [mapSet, mapGet]
  | cons e rest ih =>
    obtain ⟨ke, ve⟩ := e
    by_cases h1 : ke = k
    · subst h1
      by_cases h2 : ke = k' <;> simp [mapSet, mapGet, h2]
    · by_cases h2 : ke = k'
      · subst h2
        simp [mapSet, mapGet, h1, Ne.symm h1]
      · simp [mapSet, mapGet, h1, h2, ih]

theorem mapGet_mapSet_same {V : Type} (m : List (String × V)) (k : String) (v : V) :
    mapGet (mapSet m k v) k = some v := by
  simp [mapGet_mapSet]

theorem mapGet_mapSet_ne {V : Type} (m : List (String × V)) (k k' : String) (v : V)
    (h : k ≠ k') : mapGet (mapSet m k v) k' = mapGet m k' := by
  simp [mapGet_mapSet, h]

theorem mem_mapSet {V : Type} (m : List (String × V)) (k : String) (v : V) (x : String × V)
    (h : x ∈ mapSet m k v) : x = (k, v) ∨ x ∈ m := by
  induction m with
  | nil =>
    simp only [mapSet, List.mem_singleton] at h
    exact Or.inl h
  | cons e rest ih =>
    obtain ⟨ke, ve⟩ := e
    by_cases hk : ke = k
    · simp only [mapSet, hk, if_true, List.mem_cons] at h
      rcases h with h | h
      · exact Or.inl h
      · exact Or.inr (List.mem_cons_of_mem _ h)
    · simp only [mapSet, hk, if_false, List.mem_cons] at h
      rcases h with h | h
      · exact Or.inr (h ▸ List.mem_cons_self _ _)
      · rcases ih h with h' | h'
        · exact Or.inl h'
        · exact Or.inr (List.mem_cons_of_mem _ h')

theorem mem_of_mapGet {V : Type} (m : List (String × V)) (k : String) (v : V)
    (h : mapGet m k = some v) : (k, v) ∈ m := by
  induction m with
  | nil => simp [mapGet] at h
  | cons e rest ih =>
    obtain ⟨ke, ve⟩ := e
    by_cases hk : ke = k
    · simp only [mapGet, hk, if_true] at h
      cases h
      rw [hk]
      exact List.mem_cons_self _ _
    · simp only [mapGet, hk, if_false] at h
      exact List.mem_cons_of_mem _ (ih h)

/-! ### Folds that preserve or establish a property -/

theorem foldl_preserves {α σ : Type} (f : σ → α → σ) (P : σ → Prop) (l : List α)
    (hpres : ∀ x ∈ l, ∀ s, P s → P (f s x)) (s : σ) (hs : P s) : P (l.foldl f s) := by
  induction l generalizing s with
  | nil => exact hs
  | cons a rest ih =>
    simp only [List.foldl_cons]
    apply ih
    · intro x hx s' hs'
      exact hpres x (List.mem_cons_of_mem _ hx) s' hs'
    · exact hpres a (List.mem_cons_self _ _) s hs

theorem foldl_establishes {α σ : Type} (f : σ → α → σ) (P : σ → Prop) (l : List α) (x0 : α)
    (hx : x0 ∈ l) (hpres : ∀ x ∈ l, ∀ s, P s → P (f s x)) (hest : ∀ s, P (f s x0)) (s : σ) :
    P (l.foldl f s) := by
  induction l generalizing s with
  | nil => cases hx
  | cons a rest ih =>
    simp only [List.foldl_cons]
    have hpres' : ∀ x ∈ rest, ∀ s, P s → P (f s x) :=
      fun x hx' s' hs' => hpres x (List.mem_cons_of_mem _ hx') s' hs'
    rcases List.mem_cons.mp hx with h | h
    · subst h
      exact foldl_preserves f P rest hpres' _ (hest s)
    · exact ih h hpres' _

theorem concatMap_nil {α β : Type} (f : α → List β) (l : List α) (h : ∀ x ∈ l, f x = []) :
    concatMap f l = [] := by
  induction l with
  | nil => rfl
  | cons a rest ih =>
    simp only [concatMap]
    rw [h a (List.mem_cons_self _ _), ih (fun x hx => h x (List.mem_cons_of_mem _ hx))]
    rfl

theorem concatMap_single {α β : Type} [DecidableEq α] (f : α → List β) (l : List α) (x0 : α)
    (hcount : l.count x0 = 1) (h : ∀ x ∈ l, x ≠ x0 → f x = []) :
    concatMap f l = f x0 := by
  induction l with
  | nil => simp at hcount
  | cons a rest ih =>
    simp only [concatMap]
    by_cases ha : a = x0
    · subst ha
      have hzero : rest.count a = 0 := by
        simp only [List.count_cons_self] at hcount
        omega
      have hnot : a ∉ rest := List.count_eq_zero.mp hzero
      rw [concatMap_nil f rest]
      · simp
      · intro x hx
        apply h x (List.mem_cons_of_mem _ hx)
        intro e
        exact hnot (e ▸ hx)
    · have hcount' : rest.count x0 = 1 := by
        rw [List.count_cons_of_ne (Ne.symm ha)] at hcount
        exact hcount
      rw [h a (List.mem_cons_self _ _) ha, ih hcount' (fun x hx => h x (List.mem_cons_of_mem _ hx))]
      rfl

/-! ### Text helpers -/

theorem append_ne_empty_right (a b : String) (hb : b ≠ "") : a ++ b ≠ "" := by
  intro h
  apply hb
  have hd := congrArg String.data h
  simp only [String.data_append] at hd
  have hnil : b.data = [] := (List.append_eq_nil.mp hd).2
  exact String.ext hnil

theorem appendLines_nonempty (acc : String) (lines : List String) (hacc : acc ≠ "")
    (hne : lines ≠ []) :
    appendLines acc lines = acc ++ "\n" ++ stringsJoin lines "\n" := by
  induction lines generalizing acc with
  | nil => exact absurd rfl hne
  | cons l rest ih =>
    cases rest with
    | nil => simp [appendLines, stringsJoin, hacc]
    | cons l2 rest2 =>
      have hacc' : acc ++ "\n" ++ l ≠ "" := by
        rw [String.append_assoc]
        intro h
        have hd := congrArg String.data h
        simp only [String.data_append] at hd
        have hnil : acc.data = [] := (List.append_eq_nil.mp hd).1
        exact hacc (String.ext hnil)
      have := ih (acc ++ "\n" ++ l) hacc' (by simp)
      simp only [appendLines, List.foldl_cons, hacc, ne_eq, not_false_eq_true, if_true] at this ⊢
      rw [this]
      simp [stringsJoin, String.append_assoc]

theorem appendLines_empty (lines : List String) (hall : ∀ l ∈ lines, l ≠ "") :
    appendLines "" lines = stringsJoin lines "\n" := by
  cases lines with
  | nil => rfl
  | cons l rest =>
    have hl : l ≠ "" := hall l (List.mem_cons_self _ _)
    cases rest with
    | nil => simp [appendLines, stringsJoin]
    | cons l2 rest2 =>
      have := appendLines_nonempty l (l2 :: rest2) hl (by simp)
      simp only [appendLines, List.foldl_cons] at this ⊢
      simp only [ne_eq, not_true_eq_false, if_false, String.empty_append]
      rw [this]
      simp [stringsJoin]

theorem appendLines_cons (acc line : String) (lines : List String) :
    appendLines acc (line :: lines) =
      appendLines ((if acc ≠ "" then acc ++ "\n" else acc) ++ line) lines := rfl

theorem zipWith_ne_empty {α β : Type} (f : α → β → String) (hf : ∀ a b, f a b ≠ "")
    (as : List α) (bs : List β) : ∀ l ∈ List.zipWith f as bs, l ≠ "" := by
  induction as generalizing bs with
  | nil => simp
  | cons a as ih =>
    cases bs with
    | nil => simp
    | cons b bs =>
      intro l hl
      simp only [List.zipWith_cons_cons, List.mem_cons] at hl
      rcases hl with hl | hl
      · rw [hl]
        exact hf a b
      · exact ih bs l hl

theorem stringsJoin_snoc (elems : List String) (name sep : String) (h : elems ≠ []) :
    stringsJoin (elems ++ [name]) sep = stringsJoin elems sep ++ sep ++ name := by
  induction elems with
  | nil => exact absurd rfl h
  | cons e rest ih =>
    cases rest with
    | nil => simp [stringsJoin]
    | cons e2 rest2 =>
      have := ih (by simp)
      simp only [List.cons_append] at this
      show e ++ sep ++ stringsJoin (e2 :: (rest2 ++ [name])) sep =
        e ++ sep ++ stringsJoin (e2 :: rest2) sep ++ sep ++ name
      rw [this]
      simp [String.append_assoc]

/-! ### Splitting and cleaning paths -/

theorem splitChars_ne_nil (sep : Char) (l : List Char) : splitChars sep l ≠ [] := by
  cases l with
  | nil => simp [splitChars]
  | cons c cs =>
    unfold splitChars
    split
    · simp
    · split <;> simp

theorem splitChars_append_sep (sep : Char) (a b : List Char) :
    splitChars sep (a ++ sep :: b) = splitChars sep a ++ splitChars sep b := by
  induction a with
  | nil => simp [splitChars]
  | cons c cs ih =>
    by_cases hc : c = sep
    · simp [splitChars, hc, ih]
    · have hne := splitChars_ne_nil sep cs
      cases hsplit : splitChars sep cs with
      | nil => exact absurd hsplit hne
      | cons h t =>
        simp [splitChars, hc, ih, hsplit]

theorem splitChars_no_sep (sep : Char) (b : List Char) (h : sep ∉ b) :
    splitChars sep b = [b] := by
  induction b with
  | nil => rfl
  | cons c cs ih =>
    have hc : c ≠ sep := by
      intro e
      exact h (by simp [e])
    have hcs : sep ∉ cs := by
      intro e
      exact h (by simp [e])
    simp [splitChars, hc, ih hcs]

theorem isPathElement_spec (name : String) (h : isPathElement name = true) :
    name ≠ "" ∧ name ≠ "." ∧ name ≠ ".." ∧ '/' ∉ name.data := by
  unfold isPathElement at h
  simp at h
  exact ⟨h.1.1.1, h.1.1.2, h.1.2, h.2⟩

theorem stringsSplit_child (D name : String) (h : '/' ∉ name.data) :
    stringsSplit (D ++ "/" ++ name) '/' = stringsSplit D '/' ++ [name] := by
  unfold stringsSplit
  have hd : (D ++ "/" ++ name).data = D.data ++ '/' :: name.data := by
    simp [String.data_append]
  rw [hd, splitChars_append_sep, splitChars_no_sep '/' name.data h]
  simp

theorem cleanStep_element (rooted : Bool) (stack : List String) (name : String)
    (h : isPathElement name = true) : cleanStep rooted stack name = stack ++ [name] := by
  obtain ⟨h1, h2, h3, _⟩ := isPathElement_spec name h
  simp [cleanStep, h1, h2, h3]

theorem hasPrefix_child (D name : String) (hD : D ≠ "") :
    hasPrefix (D ++ "/" ++ name) "/" = hasPrefix D "/" := by
  unfold hasPrefix
  have hd : (D ++ "/" ++ name).data = D.data ++ '/' :: name.data := by
    simp [String.data_append]
  rw [hd]
  cases hdata : D.data with
  | nil =>
    exfalso
    apply hD
    apply String.ext
    simpa using hdata
  | cons c cs =>
    show List.isPrefixOf ['/'] (c :: (cs ++ '/' :: name.data)) = List.isPrefixOf ['/'] (c :: cs)
    simp [List.isPrefixOf]

/-- Cleaning `D/name` keeps the elements of `D` and appends `name`. -/
theorem cleanElems_child (D name : String) (hD : D ≠ "") (h : isPathElement name = true) :
    cleanElems (D ++ "/" ++ name) = ((cleanElems D).1, (cleanElems D).2 ++ [name]) := by
  obtain ⟨_, _, _, h4⟩ := isPathElement_spec name h
  unfold cleanElems
  simp only [hasPrefix_child D name hD, stringsSplit_child D name h4, List.foldl_append,
    List.foldl_cons, List.foldl_nil, cleanStep_element _ _ name h]

theorem pathJoin_child (D name : String) (hD : D ≠ "") :
    pathJoin [D, name] = pathClean (D ++ "/" ++ name) := by
  simp [pathJoin, hD]

/-- For a root that is already clean and is neither `/` nor `.`, joining it
with one path element gives the text `root/name`. -/
theorem pathJoin_clean_root (root name : String) (hname : isPathElement name = true)
    (hclean : pathClean root = root) (helems : (cleanElems root).2 ≠ []) :
    pathJoin [root, name] = root ++ "/" ++ name := by
  have hroot : root ≠ "" := by
    intro e
    rw [e] at helems
    exact helems (by decide)
  rw [pathJoin_child root name hroot]
  unfold pathClean at hclean ⊢
  simp only [cleanElems_child root name hroot hname]
  simp only at hclean
  unfold renderPath at hclean ⊢
  by_cases hr : (cleanElems root).1 = true
  · simp only [hr, if_true] at hclean ⊢
    rw [stringsJoin_snoc _ _ _ helems, ← String.append_assoc, ← String.append_assoc, hclean]
  · simp only [hr, Bool.false_eq_true, if_false, helems] at hclean ⊢
    have hne : ¬ ((cleanElems root).2 ++ [name] = []) := by simp
    simp only [hne, if_false]
    rw [stringsJoin_snoc _ _ _ helems, hclean]

/-! ### Release directories: the release pattern -/

theorem dropPrefix?_eq_some (pre s rest : List Char) (h : dropPrefix? pre s = some rest) :
    s = pre ++ rest := by
  induction pre generalizing s with
  | nil =>
    simp only [dropPrefix?] at h
    cases h
    rfl
  | cons p ps ih =>
    cases s with
    | nil => simp [dropPrefix?] at h
    | cons c cs =>
      simp only [dropPrefix?] at h
      split at h
      · rename_i hpc
        rw [hpc, ih cs h]
        rfl
      · cases h

theorem dropPrefix?_append (pre rest : List Char) : dropPrefix? pre (pre ++ rest) = some rest := by
  induction pre with
  | nil => rfl
  | cons p ps ih => simp [dropPrefix?, ih]

theorem takeWhile_digits_dot (a b : List Char) (ha : a.all Char.isDigit = true) :
    (a ++ '.' :: b).takeWhile Char.isDigit = a ∧
      (a ++ '.' :: b).dropWhile Char.isDigit = '.' :: b := by
  induction a with
  | nil =>
    have hdot : Char.isDigit '.' = false := by decide
    simp [List.takeWhile, List.dropWhile, hdot]
  | cons c cs ih =>
    simp only [List.all_cons, Bool.and_eq_true] at ha
    obtain ⟨h1, h2⟩ := ih ha.2
    simp [List.takeWhile, List.dropWhile, ha.1, h1, h2]

theorem all_takeWhile (p : Char → Bool) (l : List Char) : (l.takeWhile p).all p = true := by
  induction l with
  | nil => rfl
  | cons c cs ih =>
    by_cases hc : p c = true
    · simp [List.takeWhile, hc, ih]
    · simp [List.takeWhile, hc]

/-- The model of the release pattern accepts exactly the names
`release-<digits>.<digits>` and captures the two digit strings. -/
theorem releasePatternFind_iff (dirName d1 d2 : String) :
    releasePatternFind dirName = some (d1, d2) ↔
      isDigits d1 ∧ isDigits d2 ∧ dirName = "release-" ++ d1 ++ "." ++ d2 := by
  constructor
  · intro h
    unfold releasePatternFind at h
    split at h
    · cases h
    · rename_i rest hrest
      have hdata := dropPrefix?_eq_some _ _ _ hrest
      simp only at h
      split at h
      · rename_i r2 hdrop
        split at h
        · rename_i hcond
          simp only [Option.some.injEq, Prod.mk.injEq] at h
          obtain ⟨h1, h2⟩ := h
          subst h1
          subst h2
          refine ⟨⟨hcond.1, all_takeWhile _ _⟩, ⟨hcond.2.1, hcond.2.2⟩, ?_⟩
          apply String.ext
          simp only [String.data_append]
          rw [hdata]
          have hsplit := List.takeWhile_append_dropWhile Char.isDigit rest
          rw [hdrop] at hsplit
          have h3 : "release-".data ++ rest =
              "release-".data ++ (List.takeWhile Char.isDigit rest ++ '.' :: r2) := by
            rw [hsplit]
          rw [h3]
          simp only [List.append_assoc]
          rfl
        · cases h
      · cases h
  · rintro ⟨⟨ha1, ha2⟩, ⟨hb1, hb2⟩, hname⟩
    unfold releasePatternFind
    have hdata : dirName.data = "release-".data ++ (d1.data ++ '.' :: d2.data) := by
      rw [hname]
      simp only [String.data_append, List.append_assoc]
      rfl
    rw [hdata, dropPrefix?_append]
    obtain ⟨ht, hd⟩ := takeWhile_digits_dot d1.data d2.data ha2
    simp only [ht, hd]
    simp [ha1, hb1, hb2]

theorem releaseKey_iff (env : ReleaseEnv) (file : String) (date sequence : Int) :
    releaseKey env file = some (date, sequence) ↔ IsValidRelease env file date sequence := by
  unfold releaseKey IsValidRelease
  constructor
  · intro h
    split at h
    · rename_i hdir
      refine ⟨hdir, ?_⟩
      split at h
      · cases h
      · rename_i m1 m2 hfind
        obtain ⟨hd1, hd2, hname⟩ := (releasePatternFind_iff _ _ _).mp hfind
        refine ⟨m1, m2, hd1, hd2, hname, ?_⟩
        split at h
        · cases h
        · rename_i d hd
          split at h
          · cases h
          · rename_i s hs
            simp only [Option.some.injEq, Prod.mk.injEq] at h
            rw [hd, hs, h.1, h.2]
            exact ⟨rfl, rfl⟩
    · cases h
  · rintro ⟨hdir, d1, d2, hd1, hd2, hname, ha1, ha2⟩
    have hfind := (releasePatternFind_iff (filepathBase file) d1 d2).mpr ⟨hd1, hd2, hname⟩
    simp [hdir, hfind, ha1, ha2]

/-! ### Release directories: the latest release -/

theorem latestStep_eq (env : ReleaseEnv) (st : LatestState) (file : String) :
    latestStep env st file =
      match releaseKey env file with
      | none => st
      | some (date, sequence) =>
        if st.latestDir = "" ∨ date > st.latestDate ∨
            (date = st.latestDate ∧ sequence > st.latestSequence) then
          { latestDir := file, latestDate := date, latestSequence := sequence }
        else st := by
  unfold latestStep releaseKey
  cases hs : env.statIsDir file
  · simp
  · simp only [Bool.not_true, Bool.false_eq_true, if_false, if_true]
    cases releasePatternFind (filepathBase file) with
    | none => rfl
    | some m =>
      obtain ⟨m1, m2⟩ := m
      simp only
      cases atoi m1 with
      | none => rfl
      | some date =>
        simp only
        cases atoi m2 with
        | none => rfl
        | some sequence => rfl

theorem releaseKey_empty (env : ReleaseEnv) : releaseKey env "" = none := by
  unfold releaseKey
  have h : releasePatternFind (filepathBase "") = none := by decide
  rw [h]
  simp

theorem latestInv_step (env : ReleaseEnv) (seen : List String) (st : LatestState) (f : String)
    (h : LatestInv env seen st) : LatestInv env (seen ++ [f]) (latestStep env st f) := by
  rw [latestStep_eq]
  cases hk : releaseKey env f with
  | none =>
    simp only
    rcases h with ⟨h0, hall⟩ | ⟨hne, hmem, hkey, hmax⟩
    · left
      refine ⟨h0, ?_⟩
      intro g hg
      rcases List.mem_append.mp hg with hg | hg
      · exact hall g hg
      · simp at hg; subst hg; exact hk
    · right
      refine ⟨hne, List.mem_append_left _ hmem, hkey, ?_⟩
      intro g hg d s hgk
      rcases List.mem_append.mp hg with hg | hg
      · exact hmax g hg d s hgk
      · simp at hg; subst hg; rw [hk] at hgk; cases hgk
  | some key =>
    obtain ⟨date, sequence⟩ := key
    have hfne : f ≠ "" := by
      intro hf
      rw [hf, releaseKey_empty] at hk
      cases hk
    simp only
    rcases h with ⟨h0, hall⟩ | ⟨hne, hmem, hkey, hmax⟩
    · right
      simp only [h0, true_or, if_true]
      refine ⟨hfne, by simp, hk, ?_⟩
      intro g hg d s hgk
      rcases List.mem_append.mp hg with hg | hg
      · rw [hall g hg] at hgk; cases hgk
      · simp at hg; subst hg; rw [hk] at hgk; cases hgk
        right; exact ⟨rfl, le_refl _⟩
    · right
      by_cases hc : date > st.latestDate ∨ (date = st.latestDate ∧ sequence > st.latestSequence)
      · have hc' : st.latestDir = "" ∨ date > st.latestDate ∨
            (date = st.latestDate ∧ sequence > st.latestSequence) := Or.inr hc
        simp only [hc', if_true]
        refine ⟨hfne, by simp, hk, ?_⟩
        intro g hg d s hgk
        rcases List.mem_append.mp hg with hg | hg
        · have := hmax g hg d s hgk
          omega
        · simp at hg; subst hg; rw [hk] at hgk; cases hgk
          right; exact ⟨rfl, le_refl _⟩
      · have hc' : ¬ (st.latestDir = "" ∨ date > st.latestDate ∨
            (date = st.latestDate ∧ sequence > st.latestSequence)) := by
          intro h'
          rcases h' with h' | h'
          · exact hne h'
          · exact hc h'
        simp only [hc', if_false]
        refine ⟨hne, List.mem_append_left _ hmem, hkey, ?_⟩
        intro g hg d s hgk
        rcases List.mem_append.mp hg with hg | hg
        · exact hmax g hg d s hgk
        · simp at hg; subst hg; rw [hk] at hgk; cases hgk
          omega

theorem latestInv_foldl (env : ReleaseEnv) (files seen : List String) (st : LatestState)
    (h : LatestInv env seen st) :
    LatestInv env (seen ++ files) (files.foldl (latestStep env) st) := by
  induction files generalizing seen st with
  | nil => simpa using h
  | cons f rest ih =>
    have := ih (seen ++ [f]) (latestStep env st f) (latestInv_step env seen st f h)
    simpa using this

/-- The path returned for a listing with an accepted entry is an accepted
entry of greatest (date, sequence). -/
theorem latest_release_key_maximal (env : ReleaseEnv) (D : String) (files : List String)
    (hglob : env.glob (pathJoin [D, "release-*"]) = .ok files)
    (hvalid : ∃ f ∈ files, (releaseKey env f).isSome) :
    ∃ latest date sequence,
      getCurrentConfigVersionDirectory env D = .ok latest ∧
      latest ∈ files ∧
      releaseKey env latest = some (date, sequence) ∧
      ∀ g ∈ files, ∀ d s, releaseKey env g = some (d, s) →
        d < date ∨ (d = date ∧ s ≤ sequence) := by
  obtain ⟨f, hf, hfk⟩ := hvalid
  have hne : files.length ≠ 0 := by
    intro h0
    have : files = [] := List.length_eq_zero.mp h0
    rw [this] at hf
    cases hf
  have hinv := latestInv_foldl env files []
    { latestDir := "", latestDate := 0, latestSequence := 0 } (Or.inl ⟨rfl, by simp⟩)
  simp only [List.nil_append] at hinv
  rcases hinv with ⟨_, hall⟩ | ⟨hdir, hmem, hkey, hmax⟩
  · rw [hall f hf] at hfk
    cases hfk
  · refine ⟨_, _, _, ?_, hmem, hkey, hmax⟩
    unfold getCurrentConfigVersionDirectory
    rw [hglob]
    simp only [hne, if_false, hdir]

theorem countSequence_foldl (prefixText : String) (files : List String) (n : Nat) :
    files.foldl (fun sequence file => if hasPrefix file prefixText then sequence + 1 else sequence) n =
      n + files.countP (fun file => hasPrefix file prefixText) := by
  induction files generalizing n with
  | nil => simp
  | cons f rest ih =>
    simp only [List.foldl_cons, ih, List.countP_cons]
    by_cases h : hasPrefix f prefixText = true
    · simp [h]
      omega
    · simp [h]

/-- The counter of the first loop is one more than the number of listed files
that start with `D/release-<today>.`. -/
theorem countSequence_eq (D today : String) (files : List String) :
    countSequence D today files =
      files.countP (fun file => hasPrefix file (D ++ "/release-" ++ today ++ ".")) + 1 := by
  unfold countSequence
  rw [countSequence_foldl]
  omega

/-- With a non-empty listing, a successful return is one of the listed files. -/
theorem returned_release_is_listed (env : ReleaseEnv) (D : String) (files : List String)
    (latest : String)
    (hglob : env.glob (pathJoin [D, "release-*"]) = .ok files) (hne : files ≠ [])
    (hret : getCurrentConfigVersionDirectory env D = .ok latest) : latest ∈ files := by
  have hlen : files.length ≠ 0 := fun h => hne (List.length_eq_zero.mp h)
  have hinv := latestInv_foldl env files []
    { latestDir := "", latestDate := 0, latestSequence := 0 } (Or.inl ⟨rfl, by simp⟩)
  simp only [List.nil_append] at hinv
  unfold getCurrentConfigVersionDirectory at hret
  rw [hglob] at hret
  simp only [hlen, if_false] at hret
  rcases hinv with ⟨hempty, _⟩ | ⟨_, hmem, _, _⟩
  · simp [hempty] at hret
  · split at hret
    · cases hret
    · cases hret
      exact hmem

set_option maxRecDepth 100000

/-! ### Release directories: the returned path -/

/-- C1. With `release-20240101.1` and `release-20240101.2` existing and the
date `20240101`, the counter of same-day directories reaches 3, yet
`getCurrentConfigVersionDirectory` returns the existing
`release-20240101.2`, not `release-20240101.3`. -/
theorem sequencing_returns_existing_release :
    getCurrentConfigVersionDirectory
        (releaseEnvOf "/data/conf.d" ["release-20240101.1", "release-20240101.2"] "20240101")
        "/data/conf.d" = .ok "/data/conf.d/release-20240101.2" ∧
      countSequence "/data/conf.d" "20240101"
        ["/data/conf.d/release-20240101.1", "/data/conf.d/release-20240101.2"] = 3 := by
  decide

/-- C2. With the release `release-20240101.1` of an earlier run existing, a
run on the next day is handed that same existing directory. -/
theorem next_run_reuses_release :
    getCurrentConfigVersionDirectory
        (releaseEnvOf "/data/conf.d" ["release-20240101.1"] "20240102")
        "/data/conf.d" = .ok "/data/conf.d/release-20240101.1" ∧
      (releaseEnvOf "/data/conf.d" ["release-20240101.1"] "20240102").glob
        (pathJoin ["/data/conf.d", "release-*"]) = .ok ["/data/conf.d/release-20240101.1"] := by
  decide

/-- C3. Whenever the listing holds at least one valid release (an existing
directory named `release-<digits>.<digits>` whose two numbers parse),
`getCurrentConfigVersionDirectory` returns one of the listed files, that file
is a valid release, and its (date, sequence) pair is the greatest among the
valid releases of the listing, dates compared first and sequence numbers
second, as integers. -/
theorem latest_release_is_maximal (env : ReleaseEnv) (D : String) (files : List String)
    (hglob : env.glob (pathJoin [D, "release-*"]) = .ok files)
    (hvalid : ∃ f ∈ files, ∃ d s, IsValidRelease env f d s) :
    ∃ latest date sequence,
      getCurrentConfigVersionDirectory env D = .ok latest ∧
      latest ∈ files ∧
      IsValidRelease env latest date sequence ∧
      ∀ g ∈ files, ∀ d s, IsValidRelease env g d s →
        d < date ∨ (d = date ∧ s ≤ sequence) := by
  obtain ⟨f, hf, d, s, hfv⟩ := hvalid
  have hkey : (releaseKey env f).isSome = true := by
    rw [(releaseKey_iff env f d s).mpr hfv]
    rfl
  obtain ⟨latest, date, sequence, hret, hmem, hlatest, hmax⟩ :=
    latest_release_key_maximal env D files hglob ⟨f, hf, hkey⟩
  refine ⟨latest, date, sequence, hret, hmem, (releaseKey_iff _ _ _ _).mp hlatest, ?_⟩
  intro g hg d' s' hgv
  exact hmax g hg d' s' ((releaseKey_iff _ _ _ _).mpr hgv)

theorem latest_release_is_maximal_witness :
    getCurrentConfigVersionDirectory
        (releaseEnvOf "/data/conf.d" ["release-20240101.2", "release-20240102.1"] "20240103")
        "/data/conf.d" = .ok "/data/conf.d/release-20240102.1" ∧
    ∃ latest date sequence,
      getCurrentConfigVersionDirectory
        (releaseEnvOf "/data/conf.d" ["release-20240101.2", "release-20240102.1"] "20240103")
        "/data/conf.d" = .ok latest ∧
      latest ∈ ["/data/conf.d/release-20240101.2", "/data/conf.d/release-20240102.1"] ∧
      IsValidRelease (releaseEnvOf "/data/conf.d" ["release-20240101.2", "release-20240102.1"]
        "20240103") latest date sequence ∧
      ∀ g ∈ ["/data/conf.d/release-20240101.2", "/data/conf.d/release-20240102.1"], ∀ d s,
        IsValidRelease (releaseEnvOf "/data/conf.d" ["release-20240101.2", "release-20240102.1"]
          "20240103") g d s →
        d < date ∨ (d = date ∧ s ≤ sequence) :=
  ⟨by decide,
    latest_release_is_maximal
      (releaseEnvOf "/data/conf.d" ["release-20240101.2", "release-20240102.1"] "20240103")
      "/data/conf.d" ["/data/conf.d/release-20240101.2", "/data/conf.d/release-20240102.1"]
      (by decide)
      ⟨"/data/conf.d/release-20240101.2", by simp, 20240101, 2,
        (releaseKey_iff _ _ _ _).mp (by decide)⟩⟩

/-! ### The `current` symlink -/

theorem refName_ne_default (t p : String) : t ++ "-" ++ p ≠ "default" := by
  intro h
  have hd := congrArg String.data h
  simp only [String.data_append] at hd
  have hmem : '-' ∈ t.data ++ "-".data ++ p.data := by
    have : "-".data = ['-'] := rfl
    rw [this]
    simp
  rw [hd] at hmem
  revert hmem
  decide

theorem defaultPort_ne_default (p : String) : "default-" ++ p ≠ "default" := by
  intro h
  have hd := congrArg (fun s => s.data.length) h
  simp only [String.data_append, List.length_append] at hd
  change 8 + p.data.length = 7 at hd
  omega

theorem setIfAbsent_isSome (names : List (String × String)) (k v : String) :
    (mapGet (if (mapGet names k).isNone then mapSet names k v else names) k).isSome = true := by
  by_cases h : (mapGet names k).isNone = true
  · simp [h, mapGet_mapSet_same]
  · simp only [h]
    cases hh : mapGet names k with
    | none => simp [hh] at h
    | some _ => simp [hh]

theorem processTypeStep_default (appName port : String) (st : UpstreamState)
    (entry : String × List String) :
    (mapGet (processTypeStep appName port st entry).upstreamResultingNames "default").isSome =
      ((mapGet st.upstreamResultingNames "default").isSome ||
        (entry.1 = "web" && entry.2.length ≠ 0)) := by
  unfold processTypeStep
  by_cases hl : entry.2.length = 0
  · simp [hl]
  · by_cases hw : entry.1 = "web"
    · have hrhs : ((mapGet st.upstreamResultingNames "default").isSome ||
          (decide (entry.1 = "web") && decide (entry.2.length ≠ 0))) = true := by
        simp [hw, hl]
      rw [hrhs]
      simp only [hl, hw, if_false, if_true]
      exact setIfAbsent_isSome _ _ _
    · simp only [hl, hw, if_false]
      rw [mapGet_mapSet_ne _ _ _ _ (refName_ne_default entry.1 port)]
      simp [hw]

theorem portStep_default (appName port : String) (appListeners : List (String × List String))
    (st : UpstreamState) :
    (mapGet (portStep appName appListeners st port).upstreamResultingNames "default").isSome =
      ((mapGet st.upstreamResultingNames "default").isSome || hasListeners appListeners "web") := by
  unfold portStep hasListeners
  induction appListeners generalizing st with
  | nil => simp
  | cons e rest ih =>
    simp only [List.foldl_cons, List.any_cons]
    rw [ih, processTypeStep_default, Bool.or_assoc]

theorem ports_default (appName : String) (appListeners : List (String × List String))
    (ports : List String) (st : UpstreamState) :
    (mapGet (ports.foldl (portStep appName appListeners) st).upstreamResultingNames
        "default").isSome =
      ((mapGet st.upstreamResultingNames "default").isSome ||
        (!ports.isEmpty && hasListeners appListeners "web")) := by
  induction ports generalizing st with
  | nil => simp
  | cons p rest ih =>
    simp only [List.foldl_cons]
    rw [ih, portStep_default]
    cases (mapGet st.upstreamResultingNames "default").isSome <;>
      cases hasListeners appListeners "web" <;> cases rest.isEmpty <;> simp

theorem userUpstreams_default (appName : String) (upstreams : List UpstreamConfig)
    (st : UpstreamState) (h : ∀ u ∈ upstreams, u.Name ≠ "default") :
    mapGet (upstreams.foldl (userUpstreamStep appName) st).upstreamResultingNames "default" =
      mapGet st.upstreamResultingNames "default" := by
  induction upstreams generalizing st with
  | nil => rfl
  | cons u rest ih =>
    simp only [List.foldl_cons]
    rw [ih _ (fun u' hu' => h u' (List.mem_cons_of_mem _ hu'))]
    unfold userUpstreamStep
    by_cases hn : u.Name = ""
    · simp [hn]
    · simp only [hn, if_false]
      exact mapGet_mapSet_ne _ _ _ _ (h u (List.mem_cons_self _ _))

theorem buildUpstreamConfig_names (sigil : Sigil) (appName : String) (config : Config)
    (data : upstreamConfigTemplateData) (text : String) (names : List (String × String))
    (h : buildUpstreamConfig sigil appName config data = .ok (text, names)) :
    names = (collectUpstreams appName config data).upstreamResultingNames := by
  unfold buildUpstreamConfig at h
  split at h
  · cases h
  · simp only at h
    split at h
    · cases h
    · cases h
      rfl

/-- C5 (amended). When `buildUpstreamConfig` succeeds, at least one upstream
port is declared and no user-declared upstream is named `default`, the
returned registry has the key `default` if and only if the `web` process type
has at least one listener. -/
theorem default_entry_iff_web_listener (sigil : Sigil) (appName : String) (config : Config)
    (data : upstreamConfigTemplateData) (text : String) (names : List (String × String))
    (hok : buildUpstreamConfig sigil appName config data = .ok (text, names))
    (hports : data.UpstreamPorts ≠ [])
    (huser : ∀ u ∈ config.Upstreams, u.Name ≠ "default") :
    (mapGet names "default").isSome = true ↔ hasListeners data.AppListeners "web" = true := by
  rw [buildUpstreamConfig_names sigil appName config data text names hok]
  unfold collectUpstreams
  rw [userUpstreams_default appName config.Upstreams _ huser, ports_default]
  have hne : data.UpstreamPorts.isEmpty = false := by
    cases hp : data.UpstreamPorts with
    | nil => exact absurd hp hports
    | cons _ _ => rfl
  simp [hne, mapGet]

/-- C5: a user-declared upstream named `default` puts the key `default` in
the registry although `web` has no listener; and with no declared port the
key is absent although `web` has a listener. -/
theorem default_entry_counterexample :
    (buildUpstreamConfig sigilIdentity "app"
        { emptyConfig with
          Upstreams := [{ Name := "default", Servers := [{ Addr := "10.0.0.9:8080", Flags := [] }] }] }
        { UpstreamPorts := ["8080"], AppListeners := [], App := "app" } =
      .ok (upstreamTemplateStr, [("default", "app-default")]) ∧
      hasListeners [] "web" = false) ∧
    (buildUpstreamConfig sigilIdentity "app" emptyConfig
        { UpstreamPorts := [], AppListeners := [("web", ["10.0.0.1:5000"])], App := "app" } =
      .ok (upstreamTemplateStr, []) ∧
      hasListeners [("web", ["10.0.0.1:5000"])] "web" = true) := by
  decide

theorem default_entry_iff_web_listener_witness :
    (mapGet [("web-8080", "app-web-8080"), ("default-8080", "app-web-8080"),
        ("default", "app-web-8080")] "default").isSome = true ↔
      hasListeners [("web", ["10.0.0.1:5000"])] "web" = true :=
  default_entry_iff_web_listener sigilIdentity "app" emptyConfig
    { UpstreamPorts := ["8080"], AppListeners := [("web", ["10.0.0.1:5000"])], App := "app" }
    upstreamTemplateStr
    [("web-8080", "app-web-8080"), ("default-8080", "app-web-8080"), ("default", "app-web-8080")]
    (by decide) (by decide) (by decide)

/-! ### Upstream builder: the registry entry of a default upstream -/

theorem processTypeStep_names (appName port : String) (st : UpstreamState)
    (entry : String × List String) (key : String) (hkey : key ≠ "default")
    (hfree : entry.1 = "web" → entry.2.length ≠ 0 → key ≠ "default-" ++ port) :
    mapGet (processTypeStep appName port st entry).upstreamResultingNames key =
      if entry.2.length ≠ 0 ∧ entry.1 ++ "-" ++ port = key then
        some (appName ++ "-" ++ (entry.1 ++ "-" ++ port))
      else mapGet st.upstreamResultingNames key := by
  unfold processTypeStep
  by_cases hl : entry.2.length = 0
  · simp [hl]
  · have hbase : mapGet (mapSet st.upstreamResultingNames (entry.1 ++ "-" ++ port)
        (appName ++ "-" ++ (entry.1 ++ "-" ++ port))) key =
        if entry.2.length ≠ 0 ∧ entry.1 ++ "-" ++ port = key then
          some (appName ++ "-" ++ (entry.1 ++ "-" ++ port))
        else mapGet st.upstreamResultingNames key := by
      rw [mapGet_mapSet]
      by_cases hk : entry.1 ++ "-" ++ port = key <;> simp [hk, hl]
    by_cases hw : entry.1 = "web"
    · have hne := hfree hw hl
      simp only [hl, if_false]
      rw [if_pos hw]
      rw [← hbase]
      split
      · rw [mapGet_mapSet_ne _ _ _ _ (Ne.symm hkey), mapGet_mapSet_ne _ _ _ _ (Ne.symm hne)]
      · rw [mapGet_mapSet_ne _ _ _ _ (Ne.symm hne)]
    · simp only [hl, if_false]
      rw [if_neg hw]
      exact hbase

theorem userUpstreamStep_names (appName : String) (st : UpstreamState) (u : UpstreamConfig)
    (key : String) :
    mapGet (userUpstreamStep appName st u).upstreamResultingNames key =
      if u.Name ≠ "" ∧ u.Name = key then some (appName ++ "-" ++ u.Name)
      else mapGet st.upstreamResultingNames key := by
  unfold userUpstreamStep
  by_cases hn : u.Name = ""
  · simp [hn]
  · simp only [hn, if_false]
    rw [mapGet_mapSet]
    by_cases hk : u.Name = key
    · rw [if_pos hk, if_pos ⟨hn, hk⟩]
    · rw [if_neg hk, if_neg (fun h => hk h.2)]

theorem mem_hasListeners (appListeners : List (String × List String))
    (entry : String × List String) (hmem : entry ∈ appListeners) (hl : entry.2.length ≠ 0) :
    hasListeners appListeners entry.1 = true := by
  unfold hasListeners
  rw [List.any_eq_true]
  exact ⟨entry, hmem, by simp [hl]⟩

/-- A reference of the `web` process type is never an alias `default-<q>`. -/
theorem web_ref_ne_alias (p q : String) : "web" ++ "-" ++ p ≠ "default-" ++ q := by
  intro h
  have hd := congrArg (fun s => s.data.head?) h
  simp only [String.data_append] at hd
  change some 'w' = some 'd' at hd
  revert hd
  decide

/-- C6 (amended). When `buildUpstreamConfig` succeeds, for every declared port
`p` and every process type `t` with at least one listener, the returned
registry maps `t-p` to `<appName>-t-p`, whatever upstreams the user declares,
provided `t-p` is not one of the aliases `default-<q>` that the `web` process
type registers (which is so when `web` has no listener, and for `t = web`). -/
theorem default_reference_registered (sigil : Sigil) (appName : String) (config : Config)
    (data : upstreamConfigTemplateData) (text : String) (names : List (String × String))
    (t p : String) (listeners : List String)
    (hok : buildUpstreamConfig sigil appName config data = .ok (text, names))
    (hp : p ∈ data.UpstreamPorts)
    (ht : (t, listeners) ∈ data.AppListeners) (hlisteners : listeners ≠ [])
    (halias : hasListeners data.AppListeners "web" = true →
      ∀ q ∈ data.UpstreamPorts, t ++ "-" ++ p ≠ "default-" ++ q) :
    mapGet names (t ++ "-" ++ p) = some (appName ++ "-" ++ t ++ "-" ++ p) := by
  rw [buildUpstreamConfig_names sigil appName config data text names hok]
  have hval : appName ++ "-" ++ t ++ "-" ++ p = appName ++ "-" ++ (t ++ "-" ++ p) := by
    simp [String.append_assoc]
  rw [hval]
  have hlen : listeners.length ≠ 0 := by
    intro h
    exact hlisteners (List.length_eq_zero.mp h)
  unfold collectUpstreams
  apply foldl_preserves (userUpstreamStep appName)
    (fun st => mapGet st.upstreamResultingNames (t ++ "-" ++ p) =
      some (appName ++ "-" ++ (t ++ "-" ++ p)))
  · intro u _ st hst
    simp only [userUpstreamStep_names]
    by_cases hk : u.Name ≠ "" ∧ u.Name = t ++ "-" ++ p
    · rw [if_pos hk, hk.2]
    · rw [if_neg hk]
      exact hst
  · have hstep : ∀ q ∈ data.UpstreamPorts, ∀ e ∈ data.AppListeners, ∀ st : UpstreamState,
        mapGet (processTypeStep appName q st e).upstreamResultingNames (t ++ "-" ++ p) =
          if e.2.length ≠ 0 ∧ e.1 ++ "-" ++ q = t ++ "-" ++ p then
            some (appName ++ "-" ++ (e.1 ++ "-" ++ q))
          else mapGet st.upstreamResultingNames (t ++ "-" ++ p) := by
      intro q hq e he st
      apply processTypeStep_names _ _ _ _ _ (refName_ne_default t p)
      intro hw hl
      have hweb : hasListeners data.AppListeners "web" = true := by
        rw [← hw]
        exact mem_hasListeners _ e he hl
      exact halias hweb q hq
    have hinner : ∀ q ∈ data.UpstreamPorts, ∀ e ∈ data.AppListeners, ∀ st : UpstreamState,
        mapGet st.upstreamResultingNames (t ++ "-" ++ p) =
            some (appName ++ "-" ++ (t ++ "-" ++ p)) →
          mapGet (processTypeStep appName q st e).upstreamResultingNames (t ++ "-" ++ p) =
            some (appName ++ "-" ++ (t ++ "-" ++ p)) := by
      intro q hq e he st hst
      rw [hstep q hq e he st]
      by_cases hk : e.2.length ≠ 0 ∧ e.1 ++ "-" ++ q = t ++ "-" ++ p
      · rw [if_pos hk, hk.2]
      · rw [if_neg hk]
        exact hst
    apply foldl_establishes (portStep appName data.AppListeners)
      (fun st => mapGet st.upstreamResultingNames (t ++ "-" ++ p) =
        some (appName ++ "-" ++ (t ++ "-" ++ p))) data.UpstreamPorts p hp
    · intro q hq st hst
      unfold portStep
      exact foldl_preserves (processTypeStep appName q)
        (fun st => mapGet st.upstreamResultingNames (t ++ "-" ++ p) =
          some (appName ++ "-" ++ (t ++ "-" ++ p))) data.AppListeners
        (fun e he s hs => hinner q hq e he s hs) st hst
    · intro st
      unfold portStep
      apply foldl_establishes (processTypeStep appName p)
        (fun st => mapGet st.upstreamResultingNames (t ++ "-" ++ p) =
          some (appName ++ "-" ++ (t ++ "-" ++ p))) data.AppListeners (t, listeners) ht
      · exact fun e he s hs => hinner p hp e he s hs
      · intro s
        rw [hstep p hp (t, listeners) ht s]
        simp [hlen]

/-- C6: with a process type named `default` next to `web`, the reference
`default-80` is mapped to the generated name of `web`, not to
`app-default-80`. -/
theorem default_reference_counterexample :
    buildUpstreamConfig sigilIdentity "app" emptyConfig
        { UpstreamPorts := ["80"]
          AppListeners := [("default", ["10.0.0.2:5000"]), ("web", ["10.0.0.1:5000"])]
          App := "app" } =
      .ok (upstreamTemplateStr,
        [("default-80", "app-web-80"), ("web-80", "app-web-80"), ("default", "app-web-80")]) ∧
    mapGet [("default-80", "app-web-80"), ("web-80", "app-web-80"), ("default", "app-web-80")]
        ("default" ++ "-" ++ "80") ≠ some ("app" ++ "-" ++ "default" ++ "-" ++ "80") := by
  decide

theorem default_reference_registered_witness :
    mapGet [("web-8080", "app-web-8080"), ("default-8080", "app-web-8080"),
        ("default", "app-web-8080")] ("web" ++ "-" ++ "8080") =
      some ("app" ++ "-" ++ "web" ++ "-" ++ "8080") :=
  default_reference_registered sigilIdentity "app" emptyConfig
    { UpstreamPorts := ["8080"], AppListeners := [("web", ["10.0.0.1:5000"])], App := "app" }
    upstreamTemplateStr
    [("web-8080", "app-web-8080"), ("default-8080", "app-web-8080"), ("default", "app-web-8080")]
    "web" "8080" ["10.0.0.1:5000"] (by decide) (by decide) (by decide) (by decide)
    (by
      intro _ q hq
      simp only [List.mem_singleton] at hq
      subst hq
      decide)

/-! ### Upstream builder: the servers of a default upstream -/

theorem listenerStep_eq (port : String) (servers : List upstreamServer) (listener : String) :
    listenerStep port servers listener = servers ++ (listenerServer port listener).toList := by
  unfold listenerStep listenerServer
  cases hsplit : stringsSplit listener ':' with
  | nil => simp
  | cons h rest =>
    cases rest with
    | nil => simp
    | cons x rest2 =>
      cases rest2 with
      | nil => simp
      | cons y rest3 => simp

theorem listeners_foldl (port : String) (listeners : List String) (servers : List upstreamServer) :
    listeners.foldl (listenerStep port) servers =
      servers ++ listeners.filterMap (listenerServer port) := by
  induction listeners generalizing servers with
  | nil => simp
  | cons l rest ih =>
    simp only [List.foldl_cons, ih, listenerStep_eq]
    cases h : listenerServer port l <;> simp [List.filterMap_cons, h]

theorem listenerServer_flagless (port listener : String) (s : upstreamServer)
    (h : listenerServer port listener = some s) : s.Flags = [] := by
  unfold listenerServer at h
  split at h
  · cases h; rfl
  · cases h; rfl
  · cases h

theorem processTypeStep_cfgs (appName port : String) (st : UpstreamState)
    (entry : String × List String) (key : String) :
    mapGet (processTypeStep appName port st entry).upstreamConfigs key =
      if entry.2.length ≠ 0 ∧ entry.1 ++ "-" ++ port = key then
        some { GeneratedUpstreamName :=
                 match mapGet st.upstreamConfigs key with
                 | some uc => uc.GeneratedUpstreamName
                 | none => appName ++ "-" ++ key
               Servers := serversAt st.upstreamConfigs key ++
                 entry.2.filterMap (listenerServer port) }
      else mapGet st.upstreamConfigs key := by
  unfold processTypeStep
  by_cases hl : entry.2.length = 0
  · simp [hl]
  · simp only [hl, if_false]
    rw [mapGet_mapSet]
    by_cases hk : entry.1 ++ "-" ++ port = key
    · subst hk
      simp only [if_true, ne_eq, hl, not_false_eq_true, and_self, listeners_foldl, serversAt]
      cases mapGet st.upstreamConfigs (entry.1 ++ "-" ++ port) <;> rfl
    · simp [hk]

theorem processTypeStep_servers (appName port : String) (st : UpstreamState)
    (entry : String × List String) (key : String) :
    serversAt (processTypeStep appName port st entry).upstreamConfigs key =
      serversAt st.upstreamConfigs key ++ refContribution key port entry := by
  unfold refContribution
  rw [serversAt, processTypeStep_cfgs]
  by_cases hc : entry.2.length ≠ 0 ∧ entry.1 ++ "-" ++ port = key
  · rw [if_pos hc, if_pos hc]
  · rw [if_neg hc, if_neg hc, List.append_nil]
    rfl

theorem portStep_servers (appName port : String) (appListeners : List (String × List String))
    (st : UpstreamState) (key : String) :
    serversAt (portStep appName appListeners st port).upstreamConfigs key =
      serversAt st.upstreamConfigs key ++ concatMap (refContribution key port) appListeners := by
  unfold portStep
  induction appListeners generalizing st with
  | nil => simp [concatMap]
  | cons e rest ih =>
    simp only [List.foldl_cons, concatMap]
    rw [ih, processTypeStep_servers, List.append_assoc]

theorem ports_servers (appName : String) (appListeners : List (String × List String))
    (ports : List String) (st : UpstreamState) (key : String) :
    serversAt (ports.foldl (portStep appName appListeners) st).upstreamConfigs key =
      serversAt st.upstreamConfigs key ++
        concatMap (fun q => concatMap (refContribution key q) appListeners) ports := by
  induction ports generalizing st with
  | nil => simp [concatMap]
  | cons q rest ih =>
    simp only [List.foldl_cons, concatMap]
    rw [ih, portStep_servers, List.append_assoc]

theorem processTypeStep_generatedName (appName port : String) (st : UpstreamState)
    (entry : String × List String) (key : String)
    (h : ∀ uc, mapGet st.upstreamConfigs key = some uc →
      uc.GeneratedUpstreamName = appName ++ "-" ++ key) :
    ∀ uc, mapGet (processTypeStep appName port st entry).upstreamConfigs key = some uc →
      uc.GeneratedUpstreamName = appName ++ "-" ++ key := by
  intro uc huc
  rw [processTypeStep_cfgs] at huc
  by_cases hc : entry.2.length ≠ 0 ∧ entry.1 ++ "-" ++ port = key
  · rw [if_pos hc] at huc
    cases huc
    cases hget : mapGet st.upstreamConfigs key with
    | none => rfl
    | some uc0 => exact h uc0 hget
  · rw [if_neg hc] at huc
    exact h uc huc

theorem processTypeStep_isSome (appName port : String) (st : UpstreamState)
    (entry : String × List String) (key : String)
    (h : (mapGet st.upstreamConfigs key).isSome = true ∨
      (entry.2.length ≠ 0 ∧ entry.1 ++ "-" ++ port = key)) :
    (mapGet (processTypeStep appName port st entry).upstreamConfigs key).isSome = true := by
  rw [processTypeStep_cfgs]
  by_cases hc : entry.2.length ≠ 0 ∧ entry.1 ++ "-" ++ port = key
  · rw [if_pos hc]
    rfl
  · rw [if_neg hc]
    rcases h with h | h
    · exact h
    · exact absurd h hc

/-- After the loop over the default upstreams, a reference that one
(port, process type) pair with listeners is named after is present, carries
the generated name, and holds the contributions of all pairs in order. -/
theorem defaults_block (appName : String) (data : upstreamConfigTemplateData)
    (t p : String) (listeners : List String)
    (hp : p ∈ data.UpstreamPorts) (ht : (t, listeners) ∈ data.AppListeners)
    (hl : listeners ≠ []) :
    mapGet (data.UpstreamPorts.foldl (portStep appName data.AppListeners)
        { upstreamConfigs := [], upstreamResultingNames := [] }).upstreamConfigs
        (t ++ "-" ++ p) =
      some { GeneratedUpstreamName := appName ++ "-" ++ (t ++ "-" ++ p)
             Servers := concatMap
               (fun q => concatMap (refContribution (t ++ "-" ++ p) q) data.AppListeners)
               data.UpstreamPorts } := by
  have hlen : listeners.length ≠ 0 := fun h => hl (List.length_eq_zero.mp h)
  have hservers := ports_servers appName data.AppListeners data.UpstreamPorts
    { upstreamConfigs := [], upstreamResultingNames := [] } (t ++ "-" ++ p)
  have hname : ∀ uc, mapGet (data.UpstreamPorts.foldl (portStep appName data.AppListeners)
      { upstreamConfigs := [], upstreamResultingNames := [] }).upstreamConfigs
      (t ++ "-" ++ p) = some uc → uc.GeneratedUpstreamName = appName ++ "-" ++ (t ++ "-" ++ p) := by
    apply foldl_preserves (portStep appName data.AppListeners)
      (fun st => ∀ uc, mapGet st.upstreamConfigs (t ++ "-" ++ p) = some uc →
        uc.GeneratedUpstreamName = appName ++ "-" ++ (t ++ "-" ++ p))
    · intro q _ st hst
      unfold portStep
      apply foldl_preserves (processTypeStep appName q)
        (fun st => ∀ uc, mapGet st.upstreamConfigs (t ++ "-" ++ p) = some uc →
          uc.GeneratedUpstreamName = appName ++ "-" ++ (t ++ "-" ++ p))
      · intro e _ s hs
        exact processTypeStep_generatedName appName q s e _ hs
      · exact hst
    · intro uc huc
      simp [mapGet] at huc
  have hsome : (mapGet (data.UpstreamPorts.foldl (portStep appName data.AppListeners)
      { upstreamConfigs := [], upstreamResultingNames := [] }).upstreamConfigs
      (t ++ "-" ++ p)).isSome = true := by
    apply foldl_establishes (portStep appName data.AppListeners)
      (fun st => (mapGet st.upstreamConfigs (t ++ "-" ++ p)).isSome = true)
      data.UpstreamPorts p hp
    · intro q _ st hst
      unfold portStep
      apply foldl_preserves (processTypeStep appName q)
        (fun st => (mapGet st.upstreamConfigs (t ++ "-" ++ p)).isSome = true)
      · intro e _ s hs
        exact processTypeStep_isSome appName q s e _ (Or.inl hs)
      · exact hst
    · intro st
      unfold portStep
      apply foldl_establishes (processTypeStep appName p)
        (fun st => (mapGet st.upstreamConfigs (t ++ "-" ++ p)).isSome = true)
        data.AppListeners (t, listeners) ht
      · intro e _ s hs
        exact processTypeStep_isSome appName p s e _ (Or.inl hs)
      · intro s
        exact processTypeStep_isSome appName p s (t, listeners) _ (Or.inr ⟨hlen, rfl⟩)
  cases hget : mapGet (data.UpstreamPorts.foldl (portStep appName data.AppListeners)
      { upstreamConfigs := [], upstreamResultingNames := [] }).upstreamConfigs
      (t ++ "-" ++ p) with
  | none => rw [hget] at hsome; cases hsome
  | some uc =>
    have h1 := hname uc hget
    simp only [serversAt, hget, mapGet, List.nil_append] at hservers
    obtain ⟨g, s⟩ := uc
    simp only at h1 hservers
    rw [h1, hservers]

theorem userUpstreamStep_cfgs (appName : String) (st : UpstreamState) (u : UpstreamConfig)
    (key : String) (h : u.Name ≠ key) :
    mapGet (userUpstreamStep appName st u).upstreamConfigs key =
      mapGet st.upstreamConfigs key := by
  unfold userUpstreamStep
  by_cases hn : u.Name = ""
  · simp [hn]
  · simp only [hn, if_false]
    exact mapGet_mapSet_ne _ _ _ _ h

theorem userUpstreams_cfgs (appName : String) (upstreams : List UpstreamConfig)
    (st : UpstreamState) (key : String) (h : ∀ u ∈ upstreams, u.Name ≠ key) :
    mapGet (upstreams.foldl (userUpstreamStep appName) st).upstreamConfigs key =
      mapGet st.upstreamConfigs key := by
  induction upstreams generalizing st with
  | nil => rfl
  | cons u rest ih =>
    simp only [List.foldl_cons]
    rw [ih _ (fun u' hu' => h u' (List.mem_cons_of_mem _ hu')),
      userUpstreamStep_cfgs _ _ _ _ (h u (List.mem_cons_self _ _))]

theorem expandServers_flagless (sigil : Sigil) (ctx : Value) (servers : List upstreamServer)
    (h : ∀ s ∈ servers, s.Flags = []) : expandServers sigil ctx servers = .ok servers := by
  induction servers with
  | nil => rfl
  | cons s rest ih =>
    have hs : s.Flags = [] := h s (List.mem_cons_self _ _)
    obtain ⟨addr, flags, flagsString⟩ := s
    simp only at hs
    subst hs
    simp only [expandServers, serverFlagsString,
      ih (fun s' hs' => h s' (List.mem_cons_of_mem _ hs'))]

theorem expandUpstreams_flagless (sigil : Sigil) (ctx : Value)
    (cfgs cfgs' : List (String × upstreamConfig)) (key : String) (uc : upstreamConfig)
    (hexp : expandUpstreams sigil ctx cfgs = .ok cfgs')
    (hget : mapGet cfgs key = some uc) (hflags : ∀ s ∈ uc.Servers, s.Flags = []) :
    mapGet cfgs' key = some uc := by
  induction cfgs generalizing cfgs' with
  | nil => simp [mapGet] at hget
  | cons e rest ih =>
    obtain ⟨k, uc0⟩ := e
    simp only [expandUpstreams] at hexp
    split at hexp
    · cases hexp
    · rename_i servers hservers
      split at hexp
      · cases hexp
      · rename_i rest' hrest
        cases hexp
        by_cases hk : k = key
        · simp only [mapGet, hk, if_true] at hget ⊢
          cases hget
          rw [expandServers_flagless sigil ctx _ hflags] at hservers
          cases hservers
          rfl
        · simp only [mapGet, hk, if_false] at hget ⊢
          exact ih rest' hrest hget

theorem contributions_unique (data : upstreamConfigTemplateData) (t p : String)
    (listeners : List String)
    (hkeys : (data.AppListeners.map Prod.fst).Nodup)
    (hp : data.UpstreamPorts.count p = 1)
    (ht : (t, listeners) ∈ data.AppListeners) (hl : listeners ≠ [])
    (hunique : ∀ q ∈ data.UpstreamPorts, ∀ e ∈ data.AppListeners, e.2 ≠ [] →
      e.1 ++ "-" ++ q = t ++ "-" ++ p → q = p ∧ e.1 = t) :
    concatMap (fun q => concatMap (refContribution (t ++ "-" ++ p) q) data.AppListeners)
        data.UpstreamPorts =
      listeners.filterMap (listenerServer p) := by
  have hpmem : p ∈ data.UpstreamPorts := by
    apply List.count_pos_iff.mp
    omega
  have hne : ∀ e : String × List String, e.2.length ≠ 0 → e.2 ≠ [] := by
    intro e h1 h2
    rw [h2] at h1
    exact h1 rfl
  rw [concatMap_single _ data.UpstreamPorts p hp]
  · have hnodup : data.AppListeners.Nodup := List.Nodup.of_map _ hkeys
    rw [concatMap_single _ data.AppListeners (t, listeners)
      (List.count_eq_one_of_mem hnodup ht)]
    · unfold refContribution
      have hlen : listeners.length ≠ 0 := fun h => hl (List.length_eq_zero.mp h)
      simp [hlen]
    · intro e he hne'
      unfold refContribution
      by_cases hc : e.2.length ≠ 0 ∧ e.1 ++ "-" ++ p = t ++ "-" ++ p
      · exfalso
        have h1 := (hunique p hpmem e he (hne e hc.1) hc.2).2
        exact hne' (List.inj_on_of_nodup_map hkeys he ht h1)
      · rw [if_neg hc]
  · intro q hq hqp
    apply concatMap_nil
    intro e he
    unfold refContribution
    by_cases hc : e.2.length ≠ 0 ∧ e.1 ++ "-" ++ q = t ++ "-" ++ p
    · exact absurd (hunique q hq e he (hne e hc.1) hc.2).1 hqp
    · rw [if_neg hc]

theorem buildUpstreamConfig_blocks (sigil : Sigil) (appName : String) (config : Config)
    (data : upstreamConfigTemplateData) (text : String) (names : List (String × String))
    (h : buildUpstreamConfig sigil appName config data = .ok (text, names)) :
    ∃ blocks, upstreamBlocks sigil appName config data = .ok blocks := by
  unfold buildUpstreamConfig at h
  split at h
  · cases h
  · rename_i blocks hblocks
    exact ⟨blocks, hblocks⟩

/-! ### Upstream builder: where an error comes from -/

theorem serverFlagsString_error (sigil : Sigil) (ctx : Value) (flags : List (String × String))
    (acc e : String) (h : serverFlagsString sigil ctx flags acc = .error e) :
    ∃ kv ∈ flags, ∃ err, sigil.execute (flagText kv) ctx "flag_string" = .error err := by
  induction flags generalizing acc with
  | nil => simp [serverFlagsString] at h
  | cons kv rest ih =>
    obtain ⟨k, v⟩ := kv
    simp only [serverFlagsString] at h
    split at h
    · rename_i err herr
      exact ⟨(k, v), List.mem_cons_self _ _, err, herr⟩
    · obtain ⟨kv', hmem, err, herr⟩ := ih _ h
      exact ⟨kv', List.mem_cons_of_mem _ hmem, err, herr⟩

theorem expandServers_error (sigil : Sigil) (ctx : Value) (servers : List upstreamServer)
    (e : String) (h : expandServers sigil ctx servers = .error e) :
    ∃ s ∈ servers, ∃ kv ∈ s.Flags, ∃ err,
      sigil.execute (flagText kv) ctx "flag_string" = .error err := by
  induction servers generalizing e with
  | nil => simp [expandServers] at h
  | cons s rest ih =>
    simp only [expandServers] at h
    split at h
    · rename_i e' he'
      obtain ⟨kv, hkv, err, herr⟩ := serverFlagsString_error sigil ctx _ _ _ he'
      exact ⟨s, List.mem_cons_self _ _, kv, hkv, err, herr⟩
    · split at h
      · rename_i e' he'
        obtain ⟨s', hs', rest'⟩ := ih _ he'
        exact ⟨s', List.mem_cons_of_mem _ hs', rest'⟩
      · cases h

theorem expandUpstreams_error (sigil : Sigil) (ctx : Value)
    (cfgs : List (String × upstreamConfig)) (e : String)
    (h : expandUpstreams sigil ctx cfgs = .error e) :
    ∃ entry ∈ cfgs, ∃ s ∈ entry.2.Servers, ∃ kv ∈ s.Flags, ∃ err,
      sigil.execute (flagText kv) ctx "flag_string" = .error err := by
  induction cfgs generalizing e with
  | nil => simp [expandUpstreams] at h
  | cons entry rest ih =>
    obtain ⟨k, uc⟩ := entry
    simp only [expandUpstreams] at h
    split at h
    · rename_i e' he'
      obtain ⟨s, hs, more⟩ := expandServers_error sigil ctx _ _ he'
      exact ⟨(k, uc), List.mem_cons_self _ _, s, hs, more⟩
    · split at h
      · rename_i e' he'
        obtain ⟨entry', hentry', more⟩ := ih _ he'
        exact ⟨entry', List.mem_cons_of_mem _ hentry', more⟩
      · cases h

theorem processTypeStep_flagsFromUser (upstreams : List UpstreamConfig) (appName port : String)
    (st : UpstreamState) (entry : String × List String)
    (h : FlagsFromUser upstreams st.upstreamConfigs) :
    FlagsFromUser upstreams (processTypeStep appName port st entry).upstreamConfigs := by
  unfold processTypeStep
  by_cases hl : entry.2.length = 0
  · simpa [hl] using h
  · simp only [hl, if_false]
    intro x hx s hs kv hkv
    rcases mem_mapSet _ _ _ _ hx with hx | hx
    · subst hx
      simp only [listeners_foldl, List.mem_append] at hs
      rcases hs with hs | hs
      · cases hget : mapGet st.upstreamConfigs (entry.1 ++ "-" ++ port) with
        | none =>
          rw [hget] at hs
          cases hs
        | some uc =>
          rw [hget] at hs
          exact h _ (mem_of_mapGet _ _ _ hget) s hs kv hkv
      · obtain ⟨l, _, hls⟩ := List.mem_filterMap.mp hs
        rw [listenerServer_flagless port l s hls] at hkv
        cases hkv
    · exact h x hx s hs kv hkv

theorem userUpstreamStep_flagsFromUser (upstreams : List UpstreamConfig) (appName : String)
    (st : UpstreamState) (u : UpstreamConfig) (hu : u ∈ upstreams)
    (h : FlagsFromUser upstreams st.upstreamConfigs) :
    FlagsFromUser upstreams (userUpstreamStep appName st u).upstreamConfigs := by
  unfold userUpstreamStep
  by_cases hn : u.Name = ""
  · simpa [hn] using h
  · simp only [hn, if_false]
    intro x hx s hs kv hkv
    rcases mem_mapSet _ _ _ _ hx with hx | hx
    · subst hx
      simp only [List.mem_map] at hs
      obtain ⟨s', hs', hss'⟩ := hs
      subst hss'
      exact ⟨u, hu, s', hs', hkv⟩
    · exact h x hx s hs kv hkv

theorem collectUpstreams_flagsFromUser (appName : String) (config : Config)
    (data : upstreamConfigTemplateData) :
    FlagsFromUser config.Upstreams (collectUpstreams appName config data).upstreamConfigs := by
  unfold collectUpstreams
  apply foldl_preserves (userUpstreamStep appName)
    (fun st => FlagsFromUser config.Upstreams st.upstreamConfigs)
  · intro u hu st hst
    exact userUpstreamStep_flagsFromUser _ _ _ _ hu hst
  · apply foldl_preserves (portStep appName data.AppListeners)
      (fun st => FlagsFromUser config.Upstreams st.upstreamConfigs)
    · intro q _ st hst
      unfold portStep
      apply foldl_preserves (processTypeStep appName q)
        (fun st => FlagsFromUser config.Upstreams st.upstreamConfigs)
      · intro e _ s hs
        exact processTypeStep_flagsFromUser _ _ _ _ _ hs
      · exact hst
    · intro x hx
      cases hx

/-- An error returned by `buildUpstreamConfig` comes from a flag of a
user-declared server that the evaluator rejects, never from a listener. -/
theorem buildUpstreamConfig_error (sigil : Sigil) (appName : String) (config : Config)
    (data : upstreamConfigTemplateData) (e : String)
    (h : buildUpstreamConfig sigil appName config data = .error e) :
    ∃ u ∈ config.Upstreams, ∃ s ∈ u.Servers, ∃ kv ∈ s.Flags, ∃ err,
      sigil.execute (flagText kv) (varsContext config) "flag_string" = .error err := by
  have hblocks : upstreamBlocks sigil appName config data = .error e := by
    unfold buildUpstreamConfig at h
    split at h
    · rename_i e' he'
      cases h
      exact he'
    · simp only at h
      split at h <;> cases h
  unfold upstreamBlocks at hblocks
  obtain ⟨entry, hentry, s, hs, kv, hkv, err, herr⟩ := expandUpstreams_error sigil _ _ _ hblocks
  obtain ⟨u, hu, s', hs', hkv'⟩ :=
    collectUpstreams_flagsFromUser appName config data entry hentry s hs kv hkv
  exact ⟨u, hu, s', hs', kv, hkv', err, herr⟩

/-- C7 (amended). For every port `p` declared exactly once and every process
type `t` with listeners, such that no other (process type, port) pair with
listeners is named `t-p` and no user-declared upstream is named `t-p`: when
`buildUpstreamConfig` succeeds, the upstream `t-p` handed to the template has
the generated name `<appName>-t-p` and exactly one server per listener of `t`
of the form `host` or `host:port`, in listener order, each with the address
`host:p`, while a listener with three or more colon-separated segments
contributes no server; and when `buildUpstreamConfig` returns an error, the
evaluator rejected a flag of a user-declared server, so no listener ever
causes an error. -/
theorem default_upstream_servers (sigil : Sigil) (appName : String) (config : Config)
    (data : upstreamConfigTemplateData) (t p : String) (listeners : List String)
    (hkeys : (data.AppListeners.map Prod.fst).Nodup)
    (hp : data.UpstreamPorts.count p = 1)
    (ht : (t, listeners) ∈ data.AppListeners) (hl : listeners ≠ [])
    (hunique : ∀ q ∈ data.UpstreamPorts, ∀ e ∈ data.AppListeners, e.2 ≠ [] →
      e.1 ++ "-" ++ q = t ++ "-" ++ p → q = p ∧ e.1 = t)
    (huser : ∀ u ∈ config.Upstreams, u.Name ≠ t ++ "-" ++ p) :
    (∀ text names, buildUpstreamConfig sigil appName config data = .ok (text, names) →
      ∃ blocks, upstreamBlocks sigil appName config data = .ok blocks ∧
        mapGet blocks (t ++ "-" ++ p) =
          some { GeneratedUpstreamName := appName ++ "-" ++ t ++ "-" ++ p
                 Servers := listeners.filterMap (listenerServer p) }) ∧
    (∀ e, buildUpstreamConfig sigil appName config data = .error e →
      ∃ u ∈ config.Upstreams, ∃ s ∈ u.Servers, ∃ kv ∈ s.Flags, ∃ err,
        sigil.execute (flagText kv) (varsContext config) "flag_string" = .error err) := by
  refine ⟨?_, fun e he => buildUpstreamConfig_error sigil appName config data e he⟩
  intro text names hok
  obtain ⟨blocks, hblocks⟩ := buildUpstreamConfig_blocks sigil appName config data text names hok
  refine ⟨blocks, hblocks, ?_⟩
  have hpmem : p ∈ data.UpstreamPorts := by
    apply List.count_pos_iff.mp
    omega
  have hval : appName ++ "-" ++ t ++ "-" ++ p = appName ++ "-" ++ (t ++ "-" ++ p) := by
    simp [String.append_assoc]
  rw [hval]
  unfold upstreamBlocks at hblocks
  apply expandUpstreams_flagless sigil _ _ _ _ _ hblocks
  · unfold collectUpstreams
    rw [userUpstreams_cfgs appName config.Upstreams _ _ huser,
      defaults_block appName data t p listeners hpmem ht hl,
      contributions_unique data t p listeners hkeys hp ht hl hunique]
  · intro s hs
    obtain ⟨l, _, hls⟩ := List.mem_filterMap.mp hs
    exact listenerServer_flagless p l s hls

/-- C7: a port declared twice gives the upstream `web-80` two servers for the
one listener of `web`; and two (process type, port) pairs with the same name
`a-b-c` give that upstream a server of each. -/
theorem default_upstream_servers_counterexample :
    (buildUpstreamConfig sigilIdentity "app" emptyConfig
        { UpstreamPorts := ["80", "80"], AppListeners := [("web", ["10.0.0.1:5000"])],
          App := "app" } =
      .ok (upstreamTemplateStr,
        [("web-80", "app-web-80"), ("default-80", "app-web-80"), ("default", "app-web-80")]) ∧
    upstreamBlocks sigilIdentity "app" emptyConfig
        { UpstreamPorts := ["80", "80"], AppListeners := [("web", ["10.0.0.1:5000"])],
          App := "app" } =
      .ok [("web-80",
        { GeneratedUpstreamName := "app-web-80"
          Servers := [{ Addr := "10.0.0.1:80", Flags := [], FlagsString := "" },
                      { Addr := "10.0.0.1:80", Flags := [], FlagsString := "" }] })]) ∧
    upstreamBlocks sigilIdentity "app" emptyConfig
        { UpstreamPorts := ["b-c", "c"]
          AppListeners := [("a", ["10.0.0.1"]), ("a-b", ["10.0.0.2"])], App := "app" } =
      .ok [("a-b-c",
              { GeneratedUpstreamName := "app-a-b-c"
                Servers := [{ Addr := "10.0.0.1:b-c", Flags := [], FlagsString := "" },
                            { Addr := "10.0.0.2:c", Flags := [], FlagsString := "" }] }),
           ("a-b-b-c",
              { GeneratedUpstreamName := "app-a-b-b-c"
                Servers := [{ Addr := "10.0.0.2:b-c", Flags := [], FlagsString := "" }] }),
           ("a-c",
              { GeneratedUpstreamName := "app-a-c"
                Servers := [{ Addr := "10.0.0.1:c", Flags := [], FlagsString := "" }] })] := by
  decide

theorem default_upstream_servers_witness :
    ∃ blocks,
      upstreamBlocks sigilIdentity "app" emptyConfig
          { UpstreamPorts := ["8080"]
            AppListeners := [("web", ["10.0.0.1:5000", "fe80::1:5000", "10.0.0.2"])]
            App := "app" } = .ok blocks ∧
        mapGet blocks ("web" ++ "-" ++ "8080") =
          some { GeneratedUpstreamName := "app" ++ "-" ++ "web" ++ "-" ++ "8080"
                 Servers := ["10.0.0.1:5000", "fe80::1:5000", "10.0.0.2"].filterMap
                   (listenerServer "8080") } :=
  (default_upstream_servers sigilIdentity "app" emptyConfig
    { UpstreamPorts := ["8080"]
      AppListeners := [("web", ["10.0.0.1:5000", "fe80::1:5000", "10.0.0.2"])]
      App := "app" }
    "web" "8080" ["10.0.0.1:5000", "fe80::1:5000", "10.0.0.2"]
    (by decide) (by decide) (by decide) (by decide)
    (by
      intro q hq e he _ heq
      simp only [List.mem_singleton] at hq he
      subst hq
      subst he
      exact ⟨rfl, rfl⟩)
    (by
      intro u hu
      cases hu)).1
    upstreamTemplateStr
    [("web-8080", "app-web-8080"), ("default-8080", "app-web-8080"), ("default", "app-web-8080")]
    (by decide)

/-! ### Cache builders -/

theorem proxyCacheLoop_lines (sigil : Sigil) (appName : String)
    (data : buildProxyCacheConfigData) (config : Config) (caches : List CacheConfig)
    (st : CacheLoopState) (cfgStr : String) (names : List (String × String))
    (h : proxyCacheLoop sigil appName data config caches st = .ok (cfgStr, names)) :
    ∃ flagStrs : List String, flagStrs.length = caches.length ∧
      cfgStr = appendLines st.cfgStr (List.zipWith
        (fun cache flagStr =>
          "proxy_cache_path " ++
            specCachePath cache.CachePath cache.InMem cache.OnDisk
              ("proxy_" ++ appName ++ "_" ++ cache.Name)
              data.proxyCacheInMemRootPath data.proxyCacheOnDiskRootPath ++
            " keys_zone=" ++ ("proxy_" ++ appName ++ "_" ++ cache.Name) ++ ":" ++
            specKeyZoneSize cache.KeyZoneSize data.proxyCacheKeyZoneSize ++ " " ++ flagStr ++ ";")
        caches flagStrs) := by
  induction caches generalizing st with
  | nil =>
    simp only [proxyCacheLoop] at h
    cases h
    exact ⟨[], rfl, rfl⟩
  | cons cache rest ih =>
    simp only [proxyCacheLoop] at h
    split at h
    · cases h
    · rename_i flagStr _
      obtain ⟨flagStrs, hlen, hcfg⟩ := ih _ h
      refine ⟨flagStr :: flagStrs, by simp [hlen], ?_⟩
      rw [hcfg, List.zipWith_cons_cons, appendLines_cons]
      congr 1
      unfold specCachePath specKeyZoneSize
      by_cases hp : cache.CachePath = "" <;> by_cases hz : cache.KeyZoneSize = "" <;>
        simp [hp, hz, String.append_assoc]

theorem fastcgiCacheLoop_lines (sigil : Sigil) (appName : String)
    (data : buildProxyCacheConfigData) (config : Config) (caches : List CacheConfig)
    (st : CacheLoopState) (cfgStr : String) (names : List (String × String))
    (h : fastcgiCacheLoop sigil appName data config caches st = .ok (cfgStr, names)) :
    ∃ flagStrs : List String, flagStrs.length = caches.length ∧
      cfgStr = appendLines st.cfgStr (List.zipWith
        (fun cache flagStr =>
          "fastcgi_cache_path " ++
            specCachePath cache.CachePath cache.InMem cache.OnDisk
              ("fastcgi_" ++ appName ++ "_" ++ cache.Name)
              data.fastcgiInMemRootPath data.fastcgiOnDiskRootPath ++
            " keys_zone=" ++ ("fastcgi_" ++ appName ++ "_" ++ cache.Name) ++ ":" ++
            specKeyZoneSize cache.KeyZoneSize data.fastcgiKeyZoneSize ++ " " ++ flagStr ++ ";")
        caches flagStrs) := by
  induction caches generalizing st with
  | nil =>
    simp only [fastcgiCacheLoop] at h
    cases h
    exact ⟨[], rfl, rfl⟩
  | cons cache rest ih =>
    simp only [fastcgiCacheLoop] at h
    split at h
    · cases h
    · rename_i flagStr _
      obtain ⟨flagStrs, hlen, hcfg⟩ := ih _ h
      refine ⟨flagStr :: flagStrs, by simp [hlen], ?_⟩
      rw [hcfg, List.zipWith_cons_cons, appendLines_cons]
      congr 1
      unfold specCachePath specKeyZoneSize
      by_cases hp : cache.CachePath = "" <;> by_cases hz : cache.KeyZoneSize = "" <;>
        simp [hp, hz, String.append_assoc]

/-- With clean roots (neither `/` nor `.`) and a generated name that is one
path element, the derived path of a cache without explicit path is the text
`<root>/<generated name>`, the in-memory root taking precedence. -/
theorem specCachePath_literal (inMem onDisk : Bool) (generatedName inMemRoot onDiskRoot : String)
    (hname : isPathElement generatedName = true)
    (hmem : pathClean inMemRoot = inMemRoot) (hmemElems : (cleanElems inMemRoot).2 ≠ [])
    (hdisk : pathClean onDiskRoot = onDiskRoot) (hdiskElems : (cleanElems onDiskRoot).2 ≠ []) :
    specCachePath "" inMem onDisk generatedName inMemRoot onDiskRoot =
      if inMem then inMemRoot ++ "/" ++ generatedName else onDiskRoot ++ "/" ++ generatedName := by
  unfold specCachePath
  rw [pathJoin_clean_root inMemRoot generatedName hname hmem hmemElems,
    pathJoin_clean_root onDiskRoot generatedName hname hdisk hdiskElems]
  simp

/-- C8. Every directive line of `buildProxyCacheConfig` and of
`buildFastcgiCacheConfig` carries, as its path, the explicit path of the cache
when one is given, otherwise the in-memory root of the kind joined with the
generated name when the memory-backed flag is set (whatever the disk-backed
flag), otherwise the on-disk root of the kind joined with the generated name:
the text is the newline-separated list of the lines
`<kind>_cache_path <path> keys_zone=<generated name>:<size> <flags>;`
with `<path>` the function `specCachePath` of the explicit path, the two tier
flags, the generated name and the two roots of the kind. -/
theorem cache_path_derivation (sigil : Sigil) (appName : String)
    (data : buildProxyCacheConfigData) (config : Config) :
    (∀ cfgStr names, buildProxyCacheConfig sigil appName data config = .ok (cfgStr, names) →
      ∃ flagStrs : List String, flagStrs.length = config.ProxyCaches.length ∧
        cfgStr = stringsJoin (List.zipWith
          (fun cache flagStr =>
            "proxy_cache_path " ++
              specCachePath cache.CachePath cache.InMem cache.OnDisk
                ("proxy_" ++ appName ++ "_" ++ cache.Name)
                data.proxyCacheInMemRootPath data.proxyCacheOnDiskRootPath ++
              " keys_zone=" ++ ("proxy_" ++ appName ++ "_" ++ cache.Name) ++ ":" ++
              specKeyZoneSize cache.KeyZoneSize data.proxyCacheKeyZoneSize ++ " " ++
              flagStr ++ ";")
          config.ProxyCaches flagStrs) "\n") ∧
    (∀ cfgStr names, buildFastcgiCacheConfig sigil appName data config = .ok (cfgStr, names) →
      ∃ flagStrs : List String, flagStrs.length = config.FastcgiCaches.length ∧
        cfgStr = stringsJoin (List.zipWith
          (fun cache flagStr =>
            "fastcgi_cache_path " ++
              specCachePath cache.CachePath cache.InMem cache.OnDisk
                ("fastcgi_" ++ appName ++ "_" ++ cache.Name)
                data.fastcgiInMemRootPath data.fastcgiOnDiskRootPath ++
              " keys_zone=" ++ ("fastcgi_" ++ appName ++ "_" ++ cache.Name) ++ ":" ++
              specKeyZoneSize cache.KeyZoneSize data.fastcgiKeyZoneSize ++ " " ++
              flagStr ++ ";")
          config.FastcgiCaches flagStrs) "\n") := by
  constructor
  · intro cfgStr names h
    obtain ⟨flagStrs, hlen, hcfg⟩ := proxyCacheLoop_lines sigil appName data config _ _ _ _ h
    refine ⟨flagStrs, hlen, ?_⟩
    rw [hcfg]
    apply appendLines_empty
    apply zipWith_ne_empty
    intro cache flagStr
    exact append_ne_empty_right _ _ (by decide)
  · intro cfgStr names h
    obtain ⟨flagStrs, hlen, hcfg⟩ := fastcgiCacheLoop_lines sigil appName data config _ _ _ _ h
    refine ⟨flagStrs, hlen, ?_⟩
    rw [hcfg]
    apply appendLines_empty
    apply zipWith_ne_empty
    intro cache flagStr
    exact append_ne_empty_right _ _ (by decide)

theorem cache_path_derivation_witness :
    ∃ flagStrs : List String, flagStrs.length = exampleTwoCaches.ProxyCaches.length ∧
      "proxy_cache_path /dev/shm/nginx/proxy_app_a keys_zone=proxy_app_a:10m levels=1:2 inactive=10m;\nproxy_cache_path /var/cache/nginx/proxy_app_b keys_zone=proxy_app_b:10m levels=1:2 inactive=10m;" =
        stringsJoin (List.zipWith
          (fun cache flagStr =>
            "proxy_cache_path " ++
              specCachePath cache.CachePath cache.InMem cache.OnDisk
                ("proxy_" ++ "app" ++ "_" ++ cache.Name)
                exampleCacheData.proxyCacheInMemRootPath exampleCacheData.proxyCacheOnDiskRootPath ++
              " keys_zone=" ++ ("proxy_" ++ "app" ++ "_" ++ cache.Name) ++ ":" ++
              specKeyZoneSize cache.KeyZoneSize exampleCacheData.proxyCacheKeyZoneSize ++ " " ++
              flagStr ++ ";")
          exampleTwoCaches.ProxyCaches flagStrs) "\n" :=
  (cache_path_derivation sigilIdentity "app" exampleCacheData exampleTwoCaches).1 _
    [("a", "proxy_app_a"), ("b", "proxy_app_b")] (by decide)

/-- C9. With the default flag `levels=1:2` and two caches, `a` with the flag
`inactive=10m` of its own and `b` with no flag, the directive line of `b`
carries `inactive=10m` as well: the flag of `a` was merged into the default
map that `b` starts from. -/
theorem second_cache_inherits_flags :
    buildProxyCacheConfig sigilIdentity "app" exampleCacheData exampleTwoCaches =
      .ok ("proxy_cache_path /dev/shm/nginx/proxy_app_a keys_zone=proxy_app_a:10m levels=1:2 inactive=10m;\nproxy_cache_path /var/cache/nginx/proxy_app_b keys_zone=proxy_app_b:10m levels=1:2 inactive=10m;",
        [("a", "proxy_app_a"), ("b", "proxy_app_b")]) := by
  decide

/-! ### Map builder -/

/-- C10. With the two map definitions `scheme` and `backend`, the registry
maps both variables to `app_backend`, the generated name of the last
definition. -/
theorem map_registry_last_name_wins :
    buildMapConfig sigilIdentity "app" exampleTwoMaps =
      .ok (mapTemplateStr ++ mapTemplateStr,
        [("scheme", "app_backend"), ("backend", "app_backend")]) := by
  decide

/-! ### Release directories: empty listings and ignored entries -/

/-- C15. When the listing of `release-*` entries of the config directory is
empty, `getCurrentConfigVersionDirectory` returns `D/release-<today>.1` and
no error. -/
theorem first_release_is_one (env : ReleaseEnv) (D : String)
    (hglob : env.glob (pathJoin [D, "release-*"]) = .ok []) :
    getCurrentConfigVersionDirectory env D = .ok (D ++ "/release-" ++ env.now ++ ".1") := by
  unfold getCurrentConfigVersionDirectory
  rw [hglob]
  simp

theorem first_release_is_one_witness :
    (releaseEnvOf "/data/conf.d" [] "20240101").glob (pathJoin ["/data/conf.d", "release-*"]) =
        .ok [] ∧
      getCurrentConfigVersionDirectory (releaseEnvOf "/data/conf.d" [] "20240101") "/data/conf.d" =
        .ok ("/data/conf.d" ++ "/release-" ++
          (releaseEnvOf "/data/conf.d" [] "20240101").now ++ ".1") :=
  ⟨by decide, first_release_is_one (releaseEnvOf "/data/conf.d" [] "20240101") "/data/conf.d"
    (by decide)⟩

theorem latestStep_ignored (env : ReleaseEnv) (st : LatestState) (file : String)
    (h : isWellFormedEntry env file = false) : latestStep env st file = st := by
  unfold isWellFormedEntry at h
  unfold latestStep
  cases hdir : env.statIsDir file
  · simp
  · rw [hdir] at h
    simp only [Bool.true_and] at h
    cases hfind : releasePatternFind (filepathBase file) with
    | none =>
      simp only [Bool.not_true, Bool.false_eq_true, if_false]
      rw [hfind]
    | some m =>
      rw [hfind] at h
      cases h

theorem latest_foldl_filter (env : ReleaseEnv) (files : List String) (st : LatestState) :
    (files.filter (isWellFormedEntry env)).foldl (latestStep env) st =
      files.foldl (latestStep env) st := by
  induction files generalizing st with
  | nil => rfl
  | cons f rest ih =>
    cases hf : isWellFormedEntry env f
    · rw [List.filter_cons_of_neg (by simp [hf])]
      simp only [List.foldl_cons, latestStep_ignored env st f hf]
      exact ih st
    · rw [List.filter_cons_of_pos hf]
      simp only [List.foldl_cons]
      exact ih _

/-- C19 (amended). Removing from the listing every entry that is not an
existing directory or whose base name does not match the release pattern
leaves the result of `getCurrentConfigVersionDirectory` (path and error alike)
unchanged, provided some entry remains or the listing was empty. -/
theorem ignored_entries_do_not_matter (env : ReleaseEnv) (D : String) (files : List String)
    (hglob : env.glob (pathJoin [D, "release-*"]) = .ok files)
    (hsome : files.filter (isWellFormedEntry env) = [] → files = []) :
    getCurrentConfigVersionDirectory (withListing env (files.filter (isWellFormedEntry env))) D =
      getCurrentConfigVersionDirectory env D := by
  have hstep : latestStep (withListing env (files.filter (isWellFormedEntry env))) =
      latestStep env := rfl
  have hg : (withListing env (files.filter (isWellFormedEntry env))).glob
      (pathJoin [D, "release-*"]) = .ok (files.filter (isWellFormedEntry env)) := rfl
  have hnow : (withListing env (files.filter (isWellFormedEntry env))).now = env.now := rfl
  unfold getCurrentConfigVersionDirectory
  rw [hglob, hg, hstep, hnow]
  by_cases hempty : files = []
  · subst hempty
    rfl
  · have hfilter : files.filter (isWellFormedEntry env) ≠ [] := fun h => hempty (hsome h)
    have h1 : (files.filter (isWellFormedEntry env)).length ≠ 0 :=
      fun h => hfilter (List.length_eq_zero.mp h)
    have h2 : files.length ≠ 0 := fun h => hempty (List.length_eq_zero.mp h)
    simp only [h1, h2, if_false]
    rw [latest_foldl_filter env files]

/-- C19: with the single entry `release-notes.txt`, a plain file, the function
returns an error; with that entry removed the listing is empty and the
function returns `release-20240101.1`. -/
theorem ignored_entries_counterexample :
    getCurrentConfigVersionDirectory
        (releaseEnvWith "/data/conf.d" [("release-notes.txt", false)] "20240101") "/data/conf.d" =
      .error "no valid release directories found" ∧
    ["/data/conf.d/release-notes.txt"].filter
        (isWellFormedEntry (releaseEnvWith "/data/conf.d" [("release-notes.txt", false)]
          "20240101")) = [] ∧
    getCurrentConfigVersionDirectory
        (withListing (releaseEnvWith "/data/conf.d" [("release-notes.txt", false)] "20240101") [])
        "/data/conf.d" = .ok "/data/conf.d/release-20240101.1" := by
  decide

theorem ignored_entries_do_not_matter_witness :
    getCurrentConfigVersionDirectory
        (withListing
          (releaseEnvWith "/data/conf.d"
            [("release-20240101.1", true), ("release-notes.txt", false), ("release-old", true)]
            "20240102")
          (["/data/conf.d/release-20240101.1", "/data/conf.d/release-notes.txt",
              "/data/conf.d/release-old"].filter
            (isWellFormedEntry (releaseEnvWith "/data/conf.d"
              [("release-20240101.1", true), ("release-notes.txt", false), ("release-old", true)]
              "20240102"))))
        "/data/conf.d" =
      getCurrentConfigVersionDirectory
        (releaseEnvWith "/data/conf.d"
          [("release-20240101.1", true), ("release-notes.txt", false), ("release-old", true)]
          "20240102")
        "/data/conf.d" :=
  ignored_entries_do_not_matter
    (releaseEnvWith "/data/conf.d"
      [("release-20240101.1", true), ("release-notes.txt", false), ("release-old", true)]
      "20240102")
    "/data/conf.d"
    ["/data/conf.d/release-20240101.1", "/data/conf.d/release-notes.txt",
      "/data/conf.d/release-old"]
    (by decide) (by decide)

/-! ### Environment lookup -/

/-- An entry `NAME=VALUE` whose name and value hold no `=` is found. -/
theorem mustEnv_plain_value (name value : String) (rest : List String)
    (hname : '=' ∉ name.data) (hvalue : '=' ∉ value.data) :
    mustEnv ((name ++ "=" ++ value) :: rest) name = .ok value := by
  have hsplit : stringsSplit (name ++ "=" ++ value) '=' = [name, value] := by
    unfold stringsSplit
    have hd : (name ++ "=" ++ value).data = name.data ++ '=' :: value.data := by
      simp [String.data_append]
    rw [hd, splitChars_append_sep, splitChars_no_sep '=' name.data hname,
      splitChars_no_sep '=' value.data hvalue]
    rfl
  unfold mustEnv mustEnvLoop
  simp only [hsplit]
  simp

/-- C13. With the environment entry `PROXY_CACHE_DEFAULT_FLAGS=levels=1:2`
present, `mustEnv("PROXY_CACHE_DEFAULT_FLAGS")` ends the process with
`missing required env var`: the entry splits at `=` into three pieces, so its
key is never read. -/
theorem mustEnv_value_with_equals_is_missing :
    mustEnv ["PATH=/usr/bin", "PROXY_CACHE_DEFAULT_FLAGS=levels=1:2"]
        "PROXY_CACHE_DEFAULT_FLAGS" =
      .fatal "missing required env var: PROXY_CACHE_DEFAULT_FLAGS" ∧
    mustEnv ["PATH=/usr/bin", "PROXY_CACHE_DEFAULT_FLAGS=levels"] "PROXY_CACHE_DEFAULT_FLAGS" =
      .ok "levels" := by
  decide

/-! ### Cache builders: the name registry -/

theorem proxyCacheLoop_names (sigil : Sigil) (appName : String)
    (data : buildProxyCacheConfigData) (config : Config) (caches : List CacheConfig)
    (st : CacheLoopState) (cfgStr : String) (names : List (String × String))
    (h : proxyCacheLoop sigil appName data config caches st = .ok (cfgStr, names)) (n : String) :
    mapGet names n =
      if n ∈ caches.map (fun cache => cache.Name) then some ("proxy_" ++ appName ++ "_" ++ n)
      else mapGet st.cacheResultingNames n := by
  induction caches generalizing st with
  | nil =>
    simp only [proxyCacheLoop] at h
    cases h
    simp
  | cons cache rest ih =>
    simp only [proxyCacheLoop] at h
    split at h
    · cases h
    · rw [ih _ h]
      simp only [List.map_cons, List.mem_cons, mapGet_mapSet]
      by_cases hrest : n ∈ rest.map (fun cache => cache.Name)
      · simp [hrest]
      · by_cases hn : cache.Name = n
        · subst hn
          simp [hrest]
        · have hn' : ¬ n = cache.Name := fun e => hn e.symm
          simp [hrest, hn, hn']

theorem fastcgiCacheLoop_names (sigil : Sigil) (appName : String)
    (data : buildProxyCacheConfigData) (config : Config) (caches : List CacheConfig)
    (st : CacheLoopState) (cfgStr : String) (names : List (String × String))
    (h : fastcgiCacheLoop sigil appName data config caches st = .ok (cfgStr, names)) (n : String) :
    mapGet names n =
      if n ∈ caches.map (fun cache => cache.Name) then some ("fastcgi_" ++ appName ++ "_" ++ n)
      else mapGet st.cacheResultingNames n := by
  induction caches generalizing st with
  | nil =>
    simp only [fastcgiCacheLoop] at h
    cases h
    simp
  | cons cache rest ih =>
    simp only [fastcgiCacheLoop] at h
    split at h
    · cases h
    · rw [ih _ h]
      simp only [List.map_cons, List.mem_cons, mapGet_mapSet]
      by_cases hrest : n ∈ rest.map (fun cache => cache.Name)
      · simp [hrest]
      · by_cases hn : cache.Name = n
        · subst hn
          simp [hrest]
        · have hn' : ¬ n = cache.Name := fun e => hn e.symm
          simp [hrest, hn, hn']

/-- C16. When a cache builder succeeds, its registry has exactly the declared
cache names as keys and maps each declared name `n` to `proxy_<appName>_n`
(`buildProxyCacheConfig`) or `fastcgi_<appName>_n` (`buildFastcgiCacheConfig`),
and the directive line of each cache names its keys zone
`keys_zone=<that generated name>:<size>`. -/
theorem cache_registry_names (sigil : Sigil) (appName : String)
    (data : buildProxyCacheConfigData) (config : Config) :
    (∀ cfgStr names, buildProxyCacheConfig sigil appName data config = .ok (cfgStr, names) →
      (∀ n, mapGet names n =
        if n ∈ config.ProxyCaches.map (fun cache => cache.Name) then
          some ("proxy_" ++ appName ++ "_" ++ n)
        else none) ∧
      ∃ flagStrs : List String, flagStrs.length = config.ProxyCaches.length ∧
        cfgStr = stringsJoin (List.zipWith
          (fun cache flagStr =>
            "proxy_cache_path " ++
              specCachePath cache.CachePath cache.InMem cache.OnDisk
                ("proxy_" ++ appName ++ "_" ++ cache.Name)
                data.proxyCacheInMemRootPath data.proxyCacheOnDiskRootPath ++
              " keys_zone=" ++ ("proxy_" ++ appName ++ "_" ++ cache.Name) ++ ":" ++
              specKeyZoneSize cache.KeyZoneSize data.proxyCacheKeyZoneSize ++ " " ++
              flagStr ++ ";")
          config.ProxyCaches flagStrs) "\n") ∧
    (∀ cfgStr names, buildFastcgiCacheConfig sigil appName data config = .ok (cfgStr, names) →
      (∀ n, mapGet names n =
        if n ∈ config.FastcgiCaches.map (fun cache => cache.Name) then
          some ("fastcgi_" ++ appName ++ "_" ++ n)
        else none) ∧
      ∃ flagStrs : List String, flagStrs.length = config.FastcgiCaches.length ∧
        cfgStr = stringsJoin (List.zipWith
          (fun cache flagStr =>
            "fastcgi_cache_path " ++
              specCachePath cache.CachePath cache.InMem cache.OnDisk
                ("fastcgi_" ++ appName ++ "_" ++ cache.Name)
                data.fastcgiInMemRootPath data.fastcgiOnDiskRootPath ++
              " keys_zone=" ++ ("fastcgi_" ++ appName ++ "_" ++ cache.Name) ++ ":" ++
              specKeyZoneSize cache.KeyZoneSize data.fastcgiKeyZoneSize ++ " " ++
              flagStr ++ ";")
          config.FastcgiCaches flagStrs) "\n") := by
  constructor
  · intro cfgStr names h
    constructor
    · intro n
      rw [proxyCacheLoop_names sigil appName data config _ _ _ _ h n]
      simp [mapGet]
    · obtain ⟨flagStrs, hlen, hcfg⟩ := proxyCacheLoop_lines sigil appName data config _ _ _ _ h
      refine ⟨flagStrs, hlen, ?_⟩
      rw [hcfg]
      apply appendLines_empty
      apply zipWith_ne_empty
      intro cache flagStr
      exact append_ne_empty_right _ _ (by decide)
  · intro cfgStr names h
    constructor
    · intro n
      rw [fastcgiCacheLoop_names sigil appName data config _ _ _ _ h n]
      simp [mapGet]
    · obtain ⟨flagStrs, hlen, hcfg⟩ := fastcgiCacheLoop_lines sigil appName data config _ _ _ _ h
      refine ⟨flagStrs, hlen, ?_⟩
      rw [hcfg]
      apply appendLines_empty
      apply zipWith_ne_empty
      intro cache flagStr
      exact append_ne_empty_right _ _ (by decide)

theorem cache_registry_names_witness :
    ∀ n, mapGet [("a", "proxy_app_a"), ("b", "proxy_app_b")] n =
      if n ∈ exampleTwoCaches.ProxyCaches.map (fun cache => cache.Name) then
        some ("proxy_" ++ "app" ++ "_" ++ n)
      else none :=
  ((cache_registry_names sigilIdentity "app" exampleCacheData exampleTwoCaches).1
    "proxy_cache_path /dev/shm/nginx/proxy_app_a keys_zone=proxy_app_a:10m levels=1:2 inactive=10m;\nproxy_cache_path /var/cache/nginx/proxy_app_b keys_zone=proxy_app_b:10m levels=1:2 inactive=10m;"
    [("a", "proxy_app_a"), ("b", "proxy_app_b")] (by decide)).1

/-! ### Upstream builder: what the expansion of flags keeps -/

theorem expandServers_keeps (sigil : Sigil) (ctx : Value) (servers servers' : List upstreamServer)
    (h : expandServers sigil ctx servers = .ok servers') :
    servers'.map (fun s => s.Addr) = servers.map (fun s => s.Addr) ∧
      servers'.map (fun s => s.Flags) = servers.map (fun s => s.Flags) := by
  induction servers generalizing servers' with
  | nil =>
    simp only [expandServers] at h
    cases h
    exact ⟨rfl, rfl⟩
  | cons s rest ih =>
    simp only [expandServers] at h
    split at h
    · cases h
    · split at h
      · cases h
      · rename_i rest' hrest
        cases h
        obtain ⟨h1, h2⟩ := ih rest' hrest
        simp [h1, h2]

theorem expandUpstreams_get (sigil : Sigil) (ctx : Value)
    (cfgs cfgs' : List (String × upstreamConfig)) (key : String) (uc : upstreamConfig)
    (hexp : expandUpstreams sigil ctx cfgs = .ok cfgs')
    (hget : mapGet cfgs key = some uc) :
    ∃ uc', mapGet cfgs' key = some uc' ∧
      uc'.GeneratedUpstreamName = uc.GeneratedUpstreamName ∧
      uc'.Servers.map (fun s => s.Addr) = uc.Servers.map (fun s => s.Addr) ∧
      uc'.Servers.map (fun s => s.Flags) = uc.Servers.map (fun s => s.Flags) := by
  induction cfgs generalizing cfgs' with
  | nil => simp [mapGet] at hget
  | cons e rest ih =>
    obtain ⟨k, uc0⟩ := e
    simp only [expandUpstreams] at hexp
    split at hexp
    · cases hexp
    · rename_i servers hservers
      split at hexp
      · cases hexp
      · rename_i rest' hrest
        cases hexp
        by_cases hk : k = key
        · simp only [mapGet, hk, if_true] at hget ⊢
          cases hget
          obtain ⟨h1, h2⟩ := expandServers_keeps sigil ctx _ _ hservers
          exact ⟨_, rfl, rfl, h1, h2⟩
        · simp only [mapGet, hk, if_false] at hget ⊢
          exact ih rest' hrest hget

theorem expandUpstreams_none (sigil : Sigil) (ctx : Value)
    (cfgs cfgs' : List (String × upstreamConfig)) (key : String)
    (hexp : expandUpstreams sigil ctx cfgs = .ok cfgs')
    (hget : mapGet cfgs key = none) : mapGet cfgs' key = none := by
  induction cfgs generalizing cfgs' with
  | nil =>
    simp only [expandUpstreams] at hexp
    cases hexp
    rfl
  | cons e rest ih =>
    obtain ⟨k, uc0⟩ := e
    simp only [expandUpstreams] at hexp
    split at hexp
    · cases hexp
    · split at hexp
      · cases hexp
      · rename_i rest' hrest
        cases hexp
        by_cases hk : k = key
        · simp [mapGet, hk] at hget
        · simp only [mapGet, hk, if_false] at hget ⊢
          exact ih rest' hrest hget

/-! ### Upstream builder: every write to the registry -/

/-- After one step of the loop over the process types, an entry of the
registry is an entry it had before or carries the generated name of the
reference of this step, which is then present among the upstreams. -/
theorem processTypeStep_names_cases (appName port : String) (st : UpstreamState)
    (entry : String × List String) (k v : String)
    (h : mapGet (processTypeStep appName port st entry).upstreamResultingNames k = some v) :
    mapGet st.upstreamResultingNames k = some v ∨
      (entry.2.length ≠ 0 ∧ v = appName ++ "-" ++ (entry.1 ++ "-" ++ port)) := by
  unfold processTypeStep at h
  by_cases hl : entry.2.length = 0
  · left
    simpa [hl] using h
  · simp only [hl, if_false] at h
    have hbase : ∀ v', mapGet (mapSet st.upstreamResultingNames (entry.1 ++ "-" ++ port)
        (appName ++ "-" ++ (entry.1 ++ "-" ++ port))) k = some v' →
        mapGet st.upstreamResultingNames k = some v' ∨
          (entry.2.length ≠ 0 ∧ v' = appName ++ "-" ++ (entry.1 ++ "-" ++ port)) := by
      intro v' hv'
      rw [mapGet_mapSet] at hv'
      split at hv'
      · cases hv'
        exact Or.inr ⟨hl, rfl⟩
      · exact Or.inl hv'
    have halias : ∀ v', mapGet (mapSet (mapSet st.upstreamResultingNames (entry.1 ++ "-" ++ port)
        (appName ++ "-" ++ (entry.1 ++ "-" ++ port))) ("default-" ++ port)
        (appName ++ "-" ++ (entry.1 ++ "-" ++ port))) k = some v' →
        mapGet st.upstreamResultingNames k = some v' ∨
          (entry.2.length ≠ 0 ∧ v' = appName ++ "-" ++ (entry.1 ++ "-" ++ port)) := by
      intro v' hv'
      rw [mapGet_mapSet] at hv'
      split at hv'
      · cases hv'
        exact Or.inr ⟨hl, rfl⟩
      · exact hbase v' hv'
    by_cases hw : entry.1 = "web"
    · rw [if_pos hw] at h
      split at h
      · rw [mapGet_mapSet] at h
        split at h
        · cases h
          exact Or.inr ⟨hl, rfl⟩
        · exact halias v h
      · exact halias v h
    · rw [if_neg hw] at h
      exact hbase v h

/-! ### Upstream builder: registry and upstreams agree -/

theorem mapSet_isSome {V : Type} (m : List (String × V)) (k key : String) (v : V)
    (h : (mapGet m key).isSome = true) : (mapGet (mapSet m k v) key).isSome = true := by
  rw [mapGet_mapSet]
  split
  · rfl
  · exact h

theorem processTypeStep_agrees (appName port : String) (st : UpstreamState)
    (entry : String × List String) (h : RegistryAgrees appName st) :
    RegistryAgrees appName (processTypeStep appName port st entry) := by
  intro k v hkv
  rcases processTypeStep_names_cases appName port st entry k v hkv with hold | ⟨hl, hv⟩
  · obtain ⟨key, hkey, hval⟩ := h k v hold
    exact ⟨key, processTypeStep_isSome appName port st entry key (Or.inl hkey), hval⟩
  · exact ⟨entry.1 ++ "-" ++ port,
      processTypeStep_isSome appName port st entry _ (Or.inr ⟨hl, rfl⟩), hv⟩

theorem userUpstreamStep_agrees (appName : String) (st : UpstreamState) (u : UpstreamConfig)
    (h : RegistryAgrees appName st) : RegistryAgrees appName (userUpstreamStep appName st u) := by
  intro k v hkv
  rw [userUpstreamStep_names] at hkv
  unfold userUpstreamStep
  by_cases hn : u.Name = ""
  · simp only [hn, ne_eq, not_true_eq_false, false_and, if_false] at hkv
    simp only [hn, if_true]
    exact h k v hkv
  · simp only [hn, if_false]
    by_cases hk : u.Name ≠ "" ∧ u.Name = k
    · rw [if_pos hk] at hkv
      cases hkv
      exact ⟨u.Name, by rw [mapGet_mapSet_same]; rfl, rfl⟩
    · rw [if_neg hk] at hkv
      obtain ⟨key, hkey, hval⟩ := h k v hkv
      exact ⟨key, mapSet_isSome _ _ _ _ hkey, hval⟩

theorem collectUpstreams_agrees (appName : String) (config : Config)
    (data : upstreamConfigTemplateData) :
    RegistryAgrees appName (collectUpstreams appName config data) := by
  unfold collectUpstreams
  apply foldl_preserves (userUpstreamStep appName) (RegistryAgrees appName)
  · intro u _ st hst
    exact userUpstreamStep_agrees appName st u hst
  · apply foldl_preserves (portStep appName data.AppListeners) (RegistryAgrees appName)
    · intro q _ st hst
      unfold portStep
      apply foldl_preserves (processTypeStep appName q) (RegistryAgrees appName)
      · intro e _ s hs
        exact processTypeStep_agrees appName q s e hs
      · exact hst
    · intro k v hkv
      simp [mapGet] at hkv

theorem userUpstreamStep_generated (appName : String) (st : UpstreamState) (u : UpstreamConfig)
    (h : NamesGenerated appName st.upstreamConfigs) :
    NamesGenerated appName (userUpstreamStep appName st u).upstreamConfigs := by
  unfold userUpstreamStep
  by_cases hn : u.Name = ""
  · simpa [hn] using h
  · simp only [hn, if_false]
    intro key uc huc
    rw [mapGet_mapSet] at huc
    split at huc
    · rename_i hk
      cases huc
      rw [hk]
    · exact h key uc huc

theorem collectUpstreams_generated (appName : String) (config : Config)
    (data : upstreamConfigTemplateData) :
    NamesGenerated appName (collectUpstreams appName config data).upstreamConfigs := by
  unfold collectUpstreams
  apply foldl_preserves (userUpstreamStep appName)
    (fun st => NamesGenerated appName st.upstreamConfigs)
  · intro u _ st hst
    exact userUpstreamStep_generated appName st u hst
  · apply foldl_preserves (portStep appName data.AppListeners)
      (fun st => NamesGenerated appName st.upstreamConfigs)
    · intro q _ st hst
      unfold portStep
      apply foldl_preserves (processTypeStep appName q)
        (fun st => NamesGenerated appName st.upstreamConfigs)
      · intro e _ s hs key
        exact processTypeStep_generatedName appName q s e key (hs key)
      · exact hst
    · intro key uc huc
      simp [mapGet] at huc

/-- When `buildUpstreamConfig` succeeds, every value of the returned registry
is the generated name of an upstream handed to the template. -/
theorem registry_values_are_blocks (sigil : Sigil) (appName : String) (config : Config)
    (data : upstreamConfigTemplateData) (text : String) (names : List (String × String))
    (hok : buildUpstreamConfig sigil appName config data = .ok (text, names)) :
    ∃ blocks, upstreamBlocks sigil appName config data = .ok blocks ∧
      ∀ k v, mapGet names k = some v →
        ∃ key uc, mapGet blocks key = some uc ∧ uc.GeneratedUpstreamName = v := by
  obtain ⟨blocks, hblocks⟩ := buildUpstreamConfig_blocks sigil appName config data text names hok
  refine ⟨blocks, hblocks, ?_⟩
  intro k v hkv
  rw [buildUpstreamConfig_names sigil appName config data text names hok] at hkv
  obtain ⟨key, hkey, hval⟩ := collectUpstreams_agrees appName config data k v hkv
  cases hget : mapGet (collectUpstreams appName config data).upstreamConfigs key with
  | none => rw [hget] at hkey; cases hkey
  | some uc =>
    unfold upstreamBlocks at hblocks
    obtain ⟨uc', huc', hgen, _, _⟩ := expandUpstreams_get sigil _ _ _ key uc hblocks hget
    refine ⟨key, uc', huc', ?_⟩
    rw [hgen, collectUpstreams_generated appName config data key uc hget, hval]

/-! ### Upstream builder: the scenario of one `web` listener -/

/-- The registry entry of a default reference, on the state that
`buildUpstreamConfig` collects. -/
theorem registry_default_reference (appName : String) (config : Config)
    (data : upstreamConfigTemplateData) (t p : String) (listeners : List String)
    (hp : p ∈ data.UpstreamPorts)
    (ht : (t, listeners) ∈ data.AppListeners) (hlisteners : listeners ≠ [])
    (halias : hasListeners data.AppListeners "web" = true →
      ∀ q ∈ data.UpstreamPorts, t ++ "-" ++ p ≠ "default-" ++ q) :
    mapGet (collectUpstreams appName config data).upstreamResultingNames (t ++ "-" ++ p) =
      some (appName ++ "-" ++ (t ++ "-" ++ p)) := by
  have hlen : listeners.length ≠ 0 := by
    intro h
    exact hlisteners (List.length_eq_zero.mp h)
  unfold collectUpstreams
  apply foldl_preserves (userUpstreamStep appName)
    (fun st => mapGet st.upstreamResultingNames (t ++ "-" ++ p) =
      some (appName ++ "-" ++ (t ++ "-" ++ p)))
  · intro u _ st hst
    simp only [userUpstreamStep_names]
    by_cases hk : u.Name ≠ "" ∧ u.Name = t ++ "-" ++ p
    · rw [if_pos hk, hk.2]
    · rw [if_neg hk]
      exact hst
  · have hstep : ∀ q ∈ data.UpstreamPorts, ∀ e ∈ data.AppListeners, ∀ st : UpstreamState,
        mapGet (processTypeStep appName q st e).upstreamResultingNames (t ++ "-" ++ p) =
          if e.2.length ≠ 0 ∧ e.1 ++ "-" ++ q = t ++ "-" ++ p then
            some (appName ++ "-" ++ (e.1 ++ "-" ++ q))
          else mapGet st.upstreamResultingNames (t ++ "-" ++ p) := by
      intro q hq e he st
      apply processTypeStep_names _ _ _ _ _ (refName_ne_default t p)
      intro hw hl
      have hweb : hasListeners data.AppListeners "web" = true := by
        rw [← hw]
        exact mem_hasListeners _ e he hl
      exact halias hweb q hq
    have hinner : ∀ q ∈ data.UpstreamPorts, ∀ e ∈ data.AppListeners, ∀ st : UpstreamState,
        mapGet st.upstreamResultingNames (t ++ "-" ++ p) =
            some (appName ++ "-" ++ (t ++ "-" ++ p)) →
          mapGet (processTypeStep appName q st e).upstreamResultingNames (t ++ "-" ++ p) =
            some (appName ++ "-" ++ (t ++ "-" ++ p)) := by
      intro q hq e he st hst
      rw [hstep q hq e he st]
      by_cases hk : e.2.length ≠ 0 ∧ e.1 ++ "-" ++ q = t ++ "-" ++ p
      · rw [if_pos hk, hk.2]
      · rw [if_neg hk]
        exact hst
    apply foldl_establishes (portStep appName data.AppListeners)
      (fun st => mapGet st.upstreamResultingNames (t ++ "-" ++ p) =
        some (appName ++ "-" ++ (t ++ "-" ++ p))) data.UpstreamPorts p hp
    · intro q hq st hst
      unfold portStep
      exact foldl_preserves (processTypeStep appName q)
        (fun st => mapGet st.upstreamResultingNames (t ++ "-" ++ p) =
          some (appName ++ "-" ++ (t ++ "-" ++ p))) data.AppListeners
        (fun e he s hs => hinner q hq e he s hs) st hst
    · intro st
      unfold portStep
      apply foldl_establishes (processTypeStep appName p)
        (fun st => mapGet st.upstreamResultingNames (t ++ "-" ++ p) =
          some (appName ++ "-" ++ (t ++ "-" ++ p))) data.AppListeners (t, listeners) ht
      · exact fun e he s hs => hinner p hp e he s hs
      · intro s
        rw [hstep p hp (t, listeners) ht s]
        simp [hlen]

/-- The upstream of a default reference that one (port, process type) pair
alone is named after, as handed to the template. -/
theorem default_block (sigil : Sigil) (appName : String) (config : Config)
    (data : upstreamConfigTemplateData) (t p : String) (listeners : List String)
    (blocks : List (String × upstreamConfig))
    (hblocks : upstreamBlocks sigil appName config data = .ok blocks)
    (hkeys : (data.AppListeners.map Prod.fst).Nodup)
    (hp : data.UpstreamPorts.count p = 1)
    (ht : (t, listeners) ∈ data.AppListeners) (hl : listeners ≠ [])
    (hunique : ∀ q ∈ data.UpstreamPorts, ∀ e ∈ data.AppListeners, e.2 ≠ [] →
      e.1 ++ "-" ++ q = t ++ "-" ++ p → q = p ∧ e.1 = t)
    (huser : ∀ u ∈ config.Upstreams, u.Name ≠ t ++ "-" ++ p) :
    mapGet blocks (t ++ "-" ++ p) =
      some { GeneratedUpstreamName := appName ++ "-" ++ (t ++ "-" ++ p)
             Servers := listeners.filterMap (listenerServer p) } := by
  have hpmem : p ∈ data.UpstreamPorts := by
    apply List.count_pos_iff.mp
    omega
  unfold upstreamBlocks at hblocks
  apply expandUpstreams_flagless sigil _ _ _ _ _ hblocks
  · unfold collectUpstreams
    rw [userUpstreams_cfgs appName config.Upstreams _ _ huser,
      defaults_block appName data t p listeners hpmem ht hl,
      contributions_unique data t p listeners hkeys hp ht hl hunique]
  · intro s hs
    obtain ⟨l, _, hls⟩ := List.mem_filterMap.mp hs
    exact listenerServer_flagless p l s hls

theorem listenerServer_host (port addr : String) (haddr : ':' ∉ addr.data) :
    listenerServer port addr =
      some { Addr := addr ++ ":" ++ port, Flags := [], FlagsString := "" } := by
  have hsplit : stringsSplit addr ':' = [addr] := by
    unfold stringsSplit
    rw [splitChars_no_sep ':' addr.data haddr]
    rfl
  unfold listenerServer
  rw [hsplit]

theorem listenerServer_host_port (port addr listenerPort : String) (haddr : ':' ∉ addr.data)
    (hport : ':' ∉ listenerPort.data) :
    listenerServer port (addr ++ ":" ++ listenerPort) =
      some { Addr := addr ++ ":" ++ port, Flags := [], FlagsString := "" } := by
  have hsplit : stringsSplit (addr ++ ":" ++ listenerPort) ':' = [addr, listenerPort] := by
    unfold stringsSplit
    have hd : (addr ++ ":" ++ listenerPort).data = addr.data ++ ':' :: listenerPort.data := by
      simp [String.data_append]
    rw [hd, splitChars_append_sep, splitChars_no_sep ':' addr.data haddr,
      splitChars_no_sep ':' listenerPort.data hport]
    rfl
  unfold listenerServer
  rw [hsplit]

/-- C14. When `buildUpstreamConfig` succeeds, every generated name that is a
value of the returned registry is the `GeneratedUpstreamName` of an upstream
handed to the template; and with the one `web` listener `addr` (or
`addr:<port>`), the declared port 8080, the app name `A` and no user-declared
upstream named `web-8080`, the registry maps `web-8080` to `A-web-8080` and
the upstream named `A-web-8080` has exactly the one server `addr:8080`. -/
theorem registry_and_blocks_agree (sigil : Sigil) (appName : String) (config : Config) :
    (∀ data text names, buildUpstreamConfig sigil appName config data = .ok (text, names) →
      ∃ blocks, upstreamBlocks sigil appName config data = .ok blocks ∧
        ∀ k v, mapGet names k = some v →
          ∃ key uc, mapGet blocks key = some uc ∧ uc.GeneratedUpstreamName = v) ∧
    (∀ addr listener app text names, ':' ∉ addr.data →
      (listener = addr ∨ ∃ port : String, ':' ∉ port.data ∧ listener = addr ++ ":" ++ port) →
      (∀ u ∈ config.Upstreams, u.Name ≠ "web-8080") →
      buildUpstreamConfig sigil appName config
          { UpstreamPorts := ["8080"], AppListeners := [("web", [listener])], App := app } =
        .ok (text, names) →
      mapGet names "web-8080" = some (appName ++ "-web-8080") ∧
      ∃ blocks,
        upstreamBlocks sigil appName config
            { UpstreamPorts := ["8080"], AppListeners := [("web", [listener])], App := app } =
          .ok blocks ∧
        mapGet blocks "web-8080" =
          some { GeneratedUpstreamName := appName ++ "-web-8080"
                 Servers := [{ Addr := addr ++ ":8080", Flags := [], FlagsString := "" }] }) := by
  constructor
  · intro data text names hok
    exact registry_values_are_blocks sigil appName config data text names hok
  · intro addr listener app text names haddr hlistener huser hok
    have hkey : "web" ++ "-" ++ "8080" = "web-8080" := by decide
    have hval : appName ++ "-" ++ "web-8080" = appName ++ "-web-8080" := by
      rw [String.append_assoc]
      rfl
    have hserver : listenerServer "8080" listener =
        some { Addr := addr ++ ":8080", Flags := [], FlagsString := "" } := by
      have haddr8080 : addr ++ ":" ++ "8080" = addr ++ ":8080" := by
        rw [String.append_assoc]
        rfl
      rcases hlistener with h | ⟨port, hport, h⟩
      · rw [h, listenerServer_host "8080" addr haddr, haddr8080]
      · rw [h, listenerServer_host_port "8080" addr port haddr hport, haddr8080]
    constructor
    · rw [buildUpstreamConfig_names sigil appName config _ text names hok]
      have h := registry_default_reference appName config
        { UpstreamPorts := ["8080"], AppListeners := [("web", [listener])], App := app }
        "web" "8080" [listener] (by simp) (by simp) (by simp)
        (fun _ q _ => web_ref_ne_alias "8080" q)
      rw [hkey, hval] at h
      exact h
    · obtain ⟨blocks, hblocks⟩ := buildUpstreamConfig_blocks sigil appName config _ text names hok
      refine ⟨blocks, hblocks, ?_⟩
      have h := default_block sigil appName config
        { UpstreamPorts := ["8080"], AppListeners := [("web", [listener])], App := app }
        "web" "8080" [listener] blocks hblocks (by simp) (by simp) (by simp) (by simp)
        (by
          intro q hq e he _ _
          simp only [List.mem_singleton] at hq he
          rw [hq, he]
          exact ⟨rfl, rfl⟩)
        (by
          intro u hu
          rw [hkey]
          exact huser u hu)
      rw [hkey, hval] at h
      rw [h]
      simp [List.filterMap_cons, hserver]

theorem registry_and_blocks_agree_witness :
    mapGet [("web-8080", "A-web-8080"), ("default-8080", "A-web-8080"), ("default", "A-web-8080")]
        "web-8080" = some ("A" ++ "-web-8080") ∧
    ∃ blocks,
      upstreamBlocks sigilIdentity "A" emptyConfig
          { UpstreamPorts := ["8080"], AppListeners := [("web", ["10.0.0.1:8080"])],
            App := "A" } = .ok blocks ∧
      mapGet blocks "web-8080" =
        some { GeneratedUpstreamName := "A" ++ "-web-8080"
               Servers := [{ Addr := "10.0.0.1" ++ ":8080", Flags := [], FlagsString := "" }] } :=
  (registry_and_blocks_agree sigilIdentity "A" emptyConfig).2
    "10.0.0.1" "10.0.0.1:8080" "A" upstreamTemplateStr
    [("web-8080", "A-web-8080"), ("default-8080", "A-web-8080"), ("default", "A-web-8080")]
    (by decide) (Or.inr ⟨"8080", by decide, by decide⟩) (by intro u hu; cases hu) (by decide)

/-! ### Upstream builder: the default aliases -/

theorem foldl_establishes_inv {α σ : Type} (f : σ → α → σ) (R Q : σ → Prop) (l : List α)
    (x0 : α) (hx : x0 ∈ l) (hR : ∀ x ∈ l, ∀ s, R s → R (f s x))
    (hQ : ∀ x ∈ l, ∀ s, Q s → Q (f s x)) (hest : ∀ s, R s → Q (f s x0)) (s : σ) (hs : R s) :
    Q (l.foldl f s) := by
  induction l generalizing s with
  | nil => cases hx
  | cons a rest ih =>
    simp only [List.foldl_cons]
    have hQ' : ∀ x ∈ rest, ∀ s, Q s → Q (f s x) :=
      fun x hx' s' hs' => hQ x (List.mem_cons_of_mem _ hx') s' hs'
    rcases List.mem_cons.mp hx with h | h
    · subst h
      exact foldl_preserves f Q rest hQ' _ (hest s hs)
    · exact ih h (fun x hx' s' hs' => hR x (List.mem_cons_of_mem _ hx') s' hs') hQ' _
        (hR a (List.mem_cons_self _ _) s hs)

/-- The registry at a key other than `default` after one step of the loop
over the process types. -/
theorem processTypeStep_names_full (appName port : String) (st : UpstreamState)
    (entry : String × List String) (key : String) (hkey : key ≠ "default") :
    mapGet (processTypeStep appName port st entry).upstreamResultingNames key =
      if entry.2.length ≠ 0 ∧ entry.1 = "web" ∧ "default-" ++ port = key then
        some (appName ++ "-" ++ (entry.1 ++ "-" ++ port))
      else if entry.2.length ≠ 0 ∧ entry.1 ++ "-" ++ port = key then
        some (appName ++ "-" ++ (entry.1 ++ "-" ++ port))
      else mapGet st.upstreamResultingNames key := by
  unfold processTypeStep
  by_cases hl : entry.2.length = 0
  · simp [hl]
  · have hbase : mapGet (mapSet st.upstreamResultingNames (entry.1 ++ "-" ++ port)
        (appName ++ "-" ++ (entry.1 ++ "-" ++ port))) key =
        if entry.2.length ≠ 0 ∧ entry.1 ++ "-" ++ port = key then
          some (appName ++ "-" ++ (entry.1 ++ "-" ++ port))
        else mapGet st.upstreamResultingNames key := by
      rw [mapGet_mapSet]
      by_cases hk : entry.1 ++ "-" ++ port = key <;> simp [hk, hl]
    by_cases hw : entry.1 = "web"
    · have halias : mapGet (mapSet (mapSet st.upstreamResultingNames (entry.1 ++ "-" ++ port)
          (appName ++ "-" ++ (entry.1 ++ "-" ++ port))) ("default-" ++ port)
          (appName ++ "-" ++ (entry.1 ++ "-" ++ port))) key =
          if entry.2.length ≠ 0 ∧ entry.1 = "web" ∧ "default-" ++ port = key then
            some (appName ++ "-" ++ (entry.1 ++ "-" ++ port))
          else if entry.2.length ≠ 0 ∧ entry.1 ++ "-" ++ port = key then
            some (appName ++ "-" ++ (entry.1 ++ "-" ++ port))
          else mapGet st.upstreamResultingNames key := by
        rw [mapGet_mapSet, hbase]
        by_cases hk : "default-" ++ port = key
        · rw [if_pos hk, if_pos ⟨hl, hw, hk⟩]
        · rw [if_neg hk, if_neg (show ¬ (entry.2.length ≠ 0 ∧ entry.1 = "web" ∧
            "default-" ++ port = key) from fun h => hk h.2.2)]
      simp only [hl, if_false]
      rw [if_pos hw]
      rw [← halias]
      split
      · rw [mapGet_mapSet_ne _ _ _ _ (Ne.symm hkey)]
      · rfl
    · simp only [hl, if_false]
      rw [if_neg hw, hbase, if_neg (show ¬ (entry.2.length ≠ 0 ∧ entry.1 = "web" ∧
        "default-" ++ port = key) from fun h => hw h.2.1)]

/-- The entry `default` of the registry after one step of the loop over the
process types: written by a `web` process type with listeners when absent. -/
theorem processTypeStep_default_value (appName port : String) (st : UpstreamState)
    (entry : String × List String) :
    mapGet (processTypeStep appName port st entry).upstreamResultingNames "default" =
      if entry.2.length ≠ 0 ∧ entry.1 = "web" ∧
          mapGet st.upstreamResultingNames "default" = none then
        some (appName ++ "-" ++ (entry.1 ++ "-" ++ port))
      else mapGet st.upstreamResultingNames "default" := by
  unfold processTypeStep
  by_cases hl : entry.2.length = 0
  · simp [hl]
  · have hkeep : mapGet (mapSet (mapSet st.upstreamResultingNames (entry.1 ++ "-" ++ port)
        (appName ++ "-" ++ (entry.1 ++ "-" ++ port))) ("default-" ++ port)
        (appName ++ "-" ++ (entry.1 ++ "-" ++ port))) "default" =
        mapGet st.upstreamResultingNames "default" := by
      rw [mapGet_mapSet_ne _ _ _ _ (defaultPort_ne_default port),
        mapGet_mapSet_ne _ _ _ _ (refName_ne_default entry.1 port)]
    by_cases hw : entry.1 = "web"
    · simp only [hl, if_false]
      rw [if_pos hw]
      by_cases hnone : mapGet st.upstreamResultingNames "default" = none
      · rw [if_pos (show entry.2.length ≠ 0 ∧ entry.1 = "web" ∧
          mapGet st.upstreamResultingNames "default" = none from ⟨hl, hw, hnone⟩)]
        have hcond : (mapGet (mapSet (mapSet st.upstreamResultingNames (entry.1 ++ "-" ++ port)
            (appName ++ "-" ++ (entry.1 ++ "-" ++ port))) ("default-" ++ port)
            (appName ++ "-" ++ (entry.1 ++ "-" ++ port))) "default").isNone = true := by
          rw [hkeep, hnone]
          rfl
        rw [if_pos hcond]
        exact mapGet_mapSet_same _ _ _
      · rw [if_neg (show ¬ (entry.2.length ≠ 0 ∧ entry.1 = "web" ∧
          mapGet st.upstreamResultingNames "default" = none) from fun h => hnone h.2.2)]
        have hcond : ¬ (mapGet (mapSet (mapSet st.upstreamResultingNames (entry.1 ++ "-" ++ port)
            (appName ++ "-" ++ (entry.1 ++ "-" ++ port))) ("default-" ++ port)
            (appName ++ "-" ++ (entry.1 ++ "-" ++ port))) "default").isNone = true := by
          rw [hkeep]
          intro h
          exact hnone (Option.isNone_iff_eq_none.mp h)
        rw [if_neg hcond]
        exact hkeep
    · simp only [hl, if_false]
      rw [if_neg hw, if_neg (show ¬ (entry.2.length ≠ 0 ∧ entry.1 = "web" ∧
        mapGet st.upstreamResultingNames "default" = none) from fun h => hw h.2.1)]
      exact mapGet_mapSet_ne _ _ _ _ (refName_ne_default entry.1 port)

theorem append_left_cancel_string (a b c : String) (h : a ++ b = a ++ c) : b = c := by
  have hd := congrArg String.data h
  simp only [String.data_append] at hd
  exact String.ext (List.append_cancel_left hd)

/-- The alias `default-<p>` on the state that `buildUpstreamConfig` collects. -/
theorem registry_alias (appName : String) (config : Config) (data : upstreamConfigTemplateData)
    (p : String) (webListeners : List String)
    (hp : p ∈ data.UpstreamPorts)
    (hweb : ("web", webListeners) ∈ data.AppListeners) (hls : webListeners ≠ [])
    (huser : ∀ u ∈ config.Upstreams, u.Name ≠ "default-" ++ p)
    (hcollide : ∀ q ∈ data.UpstreamPorts, ∀ e ∈ data.AppListeners, e.2 ≠ [] →
      e.1 ++ "-" ++ q ≠ "default-" ++ p) :
    mapGet (collectUpstreams appName config data).upstreamResultingNames ("default-" ++ p) =
      some (appName ++ "-" ++ ("web" ++ "-" ++ p)) := by
  have hlen : webListeners.length ≠ 0 := fun h => hls (List.length_eq_zero.mp h)
  have hne : ∀ e : String × List String, e.2.length ≠ 0 → e.2 ≠ [] := by
    intro e h1 h2
    rw [h2] at h1
    exact h1 rfl
  have hstep : ∀ q ∈ data.UpstreamPorts, ∀ e ∈ data.AppListeners, ∀ st : UpstreamState,
      mapGet st.upstreamResultingNames ("default-" ++ p) =
          some (appName ++ "-" ++ ("web" ++ "-" ++ p)) →
        mapGet (processTypeStep appName q st e).upstreamResultingNames ("default-" ++ p) =
          some (appName ++ "-" ++ ("web" ++ "-" ++ p)) := by
    intro q hq e he st hst
    rw [processTypeStep_names_full _ _ _ _ _ (defaultPort_ne_default p)]
    by_cases h1 : e.2.length ≠ 0 ∧ e.1 = "web" ∧ "default-" ++ q = "default-" ++ p
    · rw [if_pos h1, h1.2.1, append_left_cancel_string _ _ _ h1.2.2]
    · rw [if_neg h1]
      by_cases h2 : e.2.length ≠ 0 ∧ e.1 ++ "-" ++ q = "default-" ++ p
      · exact absurd h2.2 (hcollide q hq e he (hne e h2.1))
      · rw [if_neg h2]
        exact hst
  unfold collectUpstreams
  apply foldl_preserves (userUpstreamStep appName)
    (fun st => mapGet st.upstreamResultingNames ("default-" ++ p) =
      some (appName ++ "-" ++ ("web" ++ "-" ++ p)))
  · intro u hu st hst
    simp only [userUpstreamStep_names]
    rw [if_neg (fun h => huser u hu h.2)]
    exact hst
  · apply foldl_establishes (portStep appName data.AppListeners)
      (fun st => mapGet st.upstreamResultingNames ("default-" ++ p) =
        some (appName ++ "-" ++ ("web" ++ "-" ++ p))) data.UpstreamPorts p hp
    · intro q hq st hst
      unfold portStep
      exact foldl_preserves (processTypeStep appName q)
        (fun st => mapGet st.upstreamResultingNames ("default-" ++ p) =
          some (appName ++ "-" ++ ("web" ++ "-" ++ p))) data.AppListeners
        (fun e he s hs => hstep q hq e he s hs) st hst
    · intro st
      unfold portStep
      apply foldl_establishes (processTypeStep appName p)
        (fun st => mapGet st.upstreamResultingNames ("default-" ++ p) =
          some (appName ++ "-" ++ ("web" ++ "-" ++ p))) data.AppListeners ("web", webListeners)
        hweb
      · exact fun e he s hs => hstep p hp e he s hs
      · intro s
        rw [processTypeStep_names_full _ _ _ _ _ (defaultPort_ne_default p)]
        rw [if_pos (show webListeners.length ≠ 0 ∧ "web" = "web" ∧
          "default-" ++ p = "default-" ++ p from ⟨hlen, rfl, rfl⟩)]

/-- The alias `default` on the state that `buildUpstreamConfig` collects. -/
theorem registry_default (appName : String) (config : Config) (data : upstreamConfigTemplateData)
    (p0 : String) (rest : List String) (webListeners : List String)
    (hports : data.UpstreamPorts = p0 :: rest)
    (hweb : ("web", webListeners) ∈ data.AppListeners) (hls : webListeners ≠ [])
    (huser : ∀ u ∈ config.Upstreams, u.Name ≠ "default") :
    mapGet (collectUpstreams appName config data).upstreamResultingNames "default" =
      some (appName ++ "-" ++ ("web" ++ "-" ++ p0)) := by
  have hlen : webListeners.length ≠ 0 := fun h => hls (List.length_eq_zero.mp h)
  have hQ : ∀ (q : String) (e : String × List String) (st : UpstreamState),
      mapGet st.upstreamResultingNames "default" = some (appName ++ "-" ++ ("web" ++ "-" ++ p0)) →
        mapGet (processTypeStep appName q st e).upstreamResultingNames "default" =
          some (appName ++ "-" ++ ("web" ++ "-" ++ p0)) := by
    intro q e st hst
    rw [processTypeStep_default_value]
    rw [if_neg (show ¬ (e.2.length ≠ 0 ∧ e.1 = "web" ∧
      mapGet st.upstreamResultingNames "default" = none) from fun h => by
        rw [hst] at h
        exact Option.noConfusion h.2.2)]
    exact hst
  unfold collectUpstreams
  rw [userUpstreams_default appName config.Upstreams _ huser, hports]
  simp only [List.foldl_cons]
  apply foldl_preserves (portStep appName data.AppListeners)
    (fun st => mapGet st.upstreamResultingNames "default" =
      some (appName ++ "-" ++ ("web" ++ "-" ++ p0)))
  · intro q _ st hst
    unfold portStep
    exact foldl_preserves (processTypeStep appName q)
      (fun st => mapGet st.upstreamResultingNames "default" =
        some (appName ++ "-" ++ ("web" ++ "-" ++ p0))) data.AppListeners
      (fun e _ s hs => hQ q e s hs) st hst
  · unfold portStep
    apply foldl_establishes_inv (processTypeStep appName p0)
      (fun st => mapGet st.upstreamResultingNames "default" = none ∨
        mapGet st.upstreamResultingNames "default" =
          some (appName ++ "-" ++ ("web" ++ "-" ++ p0)))
      (fun st => mapGet st.upstreamResultingNames "default" =
        some (appName ++ "-" ++ ("web" ++ "-" ++ p0)))
      data.AppListeners ("web", webListeners) hweb
    · intro e _ s hs
      rcases hs with hs | hs
      · rw [processTypeStep_default_value]
        by_cases hc : e.2.length ≠ 0 ∧ e.1 = "web" ∧
            mapGet s.upstreamResultingNames "default" = none
        · right
          rw [if_pos hc, hc.2.1]
        · left
          rw [if_neg hc]
          exact hs
      · exact Or.inr (hQ p0 e s hs)
    · exact fun e _ s hs => hQ p0 e s hs
    · intro s hs
      rcases hs with hs | hs
      · rw [processTypeStep_default_value]
        rw [if_pos (show webListeners.length ≠ 0 ∧ "web" = "web" ∧
          mapGet s.upstreamResultingNames "default" = none from ⟨hlen, rfl, hs⟩)]
      · exact hQ p0 _ s hs
    · left
      rfl

theorem web_generated_name (appName p : String) :
    appName ++ "-" ++ ("web" ++ "-" ++ p) = appName ++ "-web-" ++ p := by
  apply String.ext
  simp only [String.data_append, List.append_assoc]
  rfl

theorem web_reference (p : String) : "web" ++ "-" ++ p = "web-" ++ p := by
  apply String.ext
  simp only [String.data_append, List.append_assoc]
  rfl

/-- C17 (amended). When `buildUpstreamConfig` succeeds and the `web` process
type has at least one listener: for every declared port `p` such that no
user-declared upstream is named `default-p` and no (process type, port) pair
with listeners yields the reference `default-p`, the registry maps
`default-p` to `<appName>-web-p`, the generated name that `web-p` is mapped
to; and when no user-declared upstream is named `default`, the registry maps
`default` to `<appName>-web-<p0>` for the first declared port `p0`, the
generated name that `web-<p0>` is mapped to. -/
theorem default_aliases (sigil : Sigil) (appName : String) (config : Config)
    (data : upstreamConfigTemplateData) (text : String) (names : List (String × String))
    (webListeners : List String)
    (hok : buildUpstreamConfig sigil appName config data = .ok (text, names))
    (hweb : ("web", webListeners) ∈ data.AppListeners) (hls : webListeners ≠ []) :
    (∀ p ∈ data.UpstreamPorts,
      (∀ u ∈ config.Upstreams, u.Name ≠ "default-" ++ p) →
      (∀ q ∈ data.UpstreamPorts, ∀ e ∈ data.AppListeners, e.2 ≠ [] →
        e.1 ++ "-" ++ q ≠ "default-" ++ p) →
      mapGet names ("default-" ++ p) = some (appName ++ "-web-" ++ p) ∧
        mapGet names ("web-" ++ p) = some (appName ++ "-web-" ++ p)) ∧
    (∀ p0 rest, data.UpstreamPorts = p0 :: rest →
      (∀ u ∈ config.Upstreams, u.Name ≠ "default") →
      mapGet names "default" = some (appName ++ "-web-" ++ p0) ∧
        mapGet names ("web-" ++ p0) = some (appName ++ "-web-" ++ p0)) := by
  rw [buildUpstreamConfig_names sigil appName config data text names hok]
  have hwebref : ∀ p ∈ data.UpstreamPorts,
      mapGet (collectUpstreams appName config data).upstreamResultingNames ("web-" ++ p) =
        some (appName ++ "-web-" ++ p) := by
    intro p hp
    have h := registry_default_reference appName config data "web" p webListeners hp hweb hls
      (fun _ q _ => web_ref_ne_alias p q)
    rw [web_generated_name, web_reference] at h
    exact h
  constructor
  · intro p hp huser hcollide
    refine ⟨?_, hwebref p hp⟩
    rw [← web_generated_name]
    exact registry_alias appName config data p webListeners hp hweb hls huser hcollide
  · intro p0 rest hports huser
    refine ⟨?_, hwebref p0 (by rw [hports]; exact List.mem_cons_self _ _)⟩
    rw [← web_generated_name]
    exact registry_default appName config data p0 rest webListeners hports hweb hls huser

/-- C17: a user-declared upstream named `default` takes the entry `default`
(`app-default`, not `app-web-80`); and a process type named `default` that is
visited after `web` takes the entry `default-80` (`app-default-80`, not
`app-web-80`). -/
theorem default_aliases_counterexample :
    buildUpstreamConfig sigilIdentity "app"
        { emptyConfig with
          Upstreams := [{ Name := "default", Servers := [{ Addr := "10.0.0.9:8080", Flags := [] }] }] }
        { UpstreamPorts := ["80"], AppListeners := [("web", ["10.0.0.1:5000"])], App := "app" } =
      .ok (upstreamTemplateStr,
        [("web-80", "app-web-80"), ("default-80", "app-web-80"), ("default", "app-default")]) ∧
    buildUpstreamConfig sigilIdentity "app" emptyConfig
        { UpstreamPorts := ["80"]
          AppListeners := [("web", ["10.0.0.1:5000"]), ("default", ["10.0.0.2:5000"])]
          App := "app" } =
      .ok (upstreamTemplateStr,
        [("web-80", "app-web-80"), ("default-80", "app-default-80"), ("default", "app-web-80")]) := by
  decide

theorem default_aliases_witness :
    (∀ p ∈ ["8080", "8443"],
      (∀ u ∈ emptyConfig.Upstreams, u.Name ≠ "default-" ++ p) →
      (∀ q ∈ ["8080", "8443"], ∀ e ∈ [("web", ["10.0.0.1:5000"])], e.2 ≠ [] →
        e.1 ++ "-" ++ q ≠ "default-" ++ p) →
      mapGet [("web-8080", "app-web-8080"), ("default-8080", "app-web-8080"),
          ("default", "app-web-8080"), ("web-8443", "app-web-8443"),
          ("default-8443", "app-web-8443")] ("default-" ++ p) = some ("app" ++ "-web-" ++ p) ∧
        mapGet [("web-8080", "app-web-8080"), ("default-8080", "app-web-8080"),
          ("default", "app-web-8080"), ("web-8443", "app-web-8443"),
          ("default-8443", "app-web-8443")] ("web-" ++ p) = some ("app" ++ "-web-" ++ p)) ∧
    (∀ p0 rest, ["8080", "8443"] = p0 :: rest →
      (∀ u ∈ emptyConfig.Upstreams, u.Name ≠ "default") →
      mapGet [("web-8080", "app-web-8080"), ("default-8080", "app-web-8080"),
          ("default", "app-web-8080"), ("web-8443", "app-web-8443"),
          ("default-8443", "app-web-8443")] "default" = some ("app" ++ "-web-" ++ p0) ∧
        mapGet [("web-8080", "app-web-8080"), ("default-8080", "app-web-8080"),
          ("default", "app-web-8080"), ("web-8443", "app-web-8443"),
          ("default-8443", "app-web-8443")] ("web-" ++ p0) = some ("app" ++ "-web-" ++ p0)) :=
  default_aliases sigilIdentity "app" emptyConfig
    { UpstreamPorts := ["8080", "8443"], AppListeners := [("web", ["10.0.0.1:5000"])],
      App := "app" }
    upstreamTemplateStr
    [("web-8080", "app-web-8080"), ("default-8080", "app-web-8080"),
      ("default", "app-web-8080"), ("web-8443", "app-web-8443"),
      ("default-8443", "app-web-8443")]
    ["10.0.0.1:5000"] (by decide) (by decide) (by decide)

/-! ### Upstream builder: user-declared upstreams -/

theorem refName_ne_empty (t p : String) : t ++ "-" ++ p ≠ "" := by
  intro h
  have hd := congrArg (fun s => s.data.length) h
  simp only [String.data_append, List.length_append] at hd
  change t.data.length + 1 + p.data.length = 0 at hd
  omega

theorem defaultPort_ne_empty (p : String) : "default-" ++ p ≠ "" := by
  intro h
  have hd := congrArg (fun s => s.data.length) h
  simp only [String.data_append, List.length_append] at hd
  change 8 + p.data.length = 0 at hd
  omega

/-- The registry and the upstream map never hold the empty key. -/
theorem collectUpstreams_no_empty_key (appName : String) (config : Config)
    (data : upstreamConfigTemplateData) :
    mapGet (collectUpstreams appName config data).upstreamResultingNames "" = none ∧
      mapGet (collectUpstreams appName config data).upstreamConfigs "" = none := by
  unfold collectUpstreams
  apply foldl_preserves (userUpstreamStep appName)
    (fun st => mapGet st.upstreamResultingNames "" = none ∧ mapGet st.upstreamConfigs "" = none)
  · intro u _ st hst
    constructor
    · rw [userUpstreamStep_names, if_neg (fun h => h.1 h.2)]
      exact hst.1
    · by_cases hn : u.Name = ""
      · unfold userUpstreamStep
        simp only [hn, if_true]
        exact hst.2
      · rw [userUpstreamStep_cfgs _ _ _ _ hn]
        exact hst.2
  · apply foldl_preserves (portStep appName data.AppListeners)
      (fun st => mapGet st.upstreamResultingNames "" = none ∧ mapGet st.upstreamConfigs "" = none)
    · intro q _ st hst
      unfold portStep
      apply foldl_preserves (processTypeStep appName q)
        (fun st => mapGet st.upstreamResultingNames "" = none ∧
          mapGet st.upstreamConfigs "" = none)
      · intro e _ s hs
        constructor
        · rw [processTypeStep_names_full _ _ _ _ _ (by decide),
            if_neg (fun h => defaultPort_ne_empty q h.2.2),
            if_neg (fun h => refName_ne_empty e.1 q h.2)]
          exact hs.1
        · rw [processTypeStep_cfgs, if_neg (fun h => refName_ne_empty e.1 q h.2)]
          exact hs.2
      · exact hst
    · exact ⟨rfl, rfl⟩

theorem userUpstreams_names (appName : String) (upstreams : List UpstreamConfig)
    (st : UpstreamState) (u : UpstreamConfig) (hu : u ∈ upstreams) (hn : u.Name ≠ "") :
    mapGet (upstreams.foldl (userUpstreamStep appName) st).upstreamResultingNames u.Name =
      some (appName ++ "-" ++ u.Name) := by
  apply foldl_establishes (userUpstreamStep appName)
    (fun st => mapGet st.upstreamResultingNames u.Name = some (appName ++ "-" ++ u.Name))
    upstreams u hu
  · intro u' _ s hs
    simp only [userUpstreamStep_names]
    by_cases hk : u'.Name ≠ "" ∧ u'.Name = u.Name
    · rw [if_pos hk, hk.2]
    · rw [if_neg hk]
      exact hs
  · intro s
    show mapGet (userUpstreamStep appName s u).upstreamResultingNames u.Name =
      some (appName ++ "-" ++ u.Name)
    rw [userUpstreamStep_names, if_pos ⟨hn, rfl⟩]

theorem userUpstreams_block (appName : String) (pre post : List UpstreamConfig)
    (u : UpstreamConfig) (st : UpstreamState) (hn : u.Name ≠ "")
    (hlast : ∀ u' ∈ post, u'.Name ≠ u.Name) :
    mapGet ((pre ++ u :: post).foldl (userUpstreamStep appName) st).upstreamConfigs u.Name =
      some { GeneratedUpstreamName := appName ++ "-" ++ u.Name
             Servers := u.Servers.map
               (fun server => { Addr := server.Addr, Flags := server.Flags, FlagsString := "" }) } := by
  rw [List.foldl_append, List.foldl_cons, userUpstreams_cfgs appName post _ _ hlast]
  unfold userUpstreamStep
  simp only [hn, if_false]
  exact mapGet_mapSet_same _ _ _

/-- C18 (amended). When `buildUpstreamConfig` succeeds: the registry maps the
name `n` of every user-declared upstream with a non-empty name to
`<appName>-n`; for every such upstream that no later user-declared upstream
shares its name with, the upstream `n` handed to the template carries the
generated name `<appName>-n` and exactly the declared servers' addresses, in
declared order, whatever the default upstreams registered under `n`; and
neither the registry nor the upstreams hold the empty key, so an upstream
with an empty name adds nothing. -/
theorem user_upstreams (sigil : Sigil) (appName : String) (config : Config)
    (data : upstreamConfigTemplateData) (text : String) (names : List (String × String))
    (hok : buildUpstreamConfig sigil appName config data = .ok (text, names)) :
    ∃ blocks, upstreamBlocks sigil appName config data = .ok blocks ∧
      (∀ u ∈ config.Upstreams, u.Name ≠ "" →
        mapGet names u.Name = some (appName ++ "-" ++ u.Name)) ∧
      (∀ pre u post, config.Upstreams = pre ++ u :: post → u.Name ≠ "" →
        (∀ u' ∈ post, u'.Name ≠ u.Name) →
        ∃ uc, mapGet blocks u.Name = some uc ∧
          uc.GeneratedUpstreamName = appName ++ "-" ++ u.Name ∧
          uc.Servers.map (fun s => s.Addr) = u.Servers.map (fun s => s.Addr)) ∧
      mapGet names "" = none ∧ mapGet blocks "" = none := by
  obtain ⟨blocks, hblocks⟩ := buildUpstreamConfig_blocks sigil appName config data text names hok
  refine ⟨blocks, hblocks, ?_, ?_, ?_, ?_⟩
  · intro u hu hn
    rw [buildUpstreamConfig_names sigil appName config data text names hok]
    unfold collectUpstreams
    exact userUpstreams_names appName config.Upstreams _ u hu hn
  · intro pre u post hsplit hn hlast
    have hget : mapGet (collectUpstreams appName config data).upstreamConfigs u.Name =
        some { GeneratedUpstreamName := appName ++ "-" ++ u.Name
               Servers := u.Servers.map
                 (fun server =>
                   { Addr := server.Addr, Flags := server.Flags, FlagsString := "" }) } := by
      unfold collectUpstreams
      rw [hsplit]
      exact userUpstreams_block appName pre post u _ hn hlast
    unfold upstreamBlocks at hblocks
    obtain ⟨uc', huc', hgen, haddr, _⟩ := expandUpstreams_get sigil _ _ _ _ _ hblocks hget
    refine ⟨uc', huc', hgen, ?_⟩
    rw [haddr]
    simp [List.map_map, Function.comp]
  · rw [buildUpstreamConfig_names sigil appName config data text names hok]
    exact (collectUpstreams_no_empty_key appName config data).1
  · unfold upstreamBlocks at hblocks
    exact expandUpstreams_none sigil _ _ _ "" hblocks
      (collectUpstreams_no_empty_key appName config data).2

/-- C18: of two user-declared upstreams named `api`, only the servers of the
second are in the upstream `api`; the declared server `10.0.0.1:80` of the
first is not. -/
theorem user_upstreams_counterexample :
    buildUpstreamConfig sigilIdentity "app"
        { emptyConfig with
          Upstreams := [{ Name := "api", Servers := [{ Addr := "10.0.0.1:80", Flags := [] }] },
                        { Name := "api", Servers := [{ Addr := "10.0.0.2:80", Flags := [] }] }] }
        { UpstreamPorts := ["8080"], AppListeners := [], App := "app" } =
      .ok (upstreamTemplateStr, [("api", "app-api")]) ∧
    upstreamBlocks sigilIdentity "app"
        { emptyConfig with
          Upstreams := [{ Name := "api", Servers := [{ Addr := "10.0.0.1:80", Flags := [] }] },
                        { Name := "api", Servers := [{ Addr := "10.0.0.2:80", Flags := [] }] }] }
        { UpstreamPorts := ["8080"], AppListeners := [], App := "app" } =
      .ok [("api",
        { GeneratedUpstreamName := "app-api"
          Servers := [{ Addr := "10.0.0.2:80", Flags := [], FlagsString := "" }] })] := by
  decide

theorem user_upstreams_witness :
    ∃ blocks, upstreamBlocks sigilIdentity "app" exampleUserUpstream exampleWebData = .ok blocks ∧
      (∀ u ∈ exampleUserUpstream.Upstreams, u.Name ≠ "" →
        mapGet [("web-8080", "app-web-8080"), ("default-8080", "app-web-8080"),
          ("default", "app-web-8080"), ("api", "app-api")] u.Name =
          some ("app" ++ "-" ++ u.Name)) ∧
      (∀ pre u post, exampleUserUpstream.Upstreams = pre ++ u :: post → u.Name ≠ "" →
        (∀ u' ∈ post, u'.Name ≠ u.Name) →
        ∃ uc, mapGet blocks u.Name = some uc ∧
          uc.GeneratedUpstreamName = "app" ++ "-" ++ u.Name ∧
          uc.Servers.map (fun s => s.Addr) = u.Servers.map (fun s => s.Addr)) ∧
      mapGet [("web-8080", "app-web-8080"), ("default-8080", "app-web-8080"),
        ("default", "app-web-8080"), ("api", "app-api")] "" = none ∧
      mapGet blocks "" = none :=
  user_upstreams sigilIdentity "app" exampleUserUpstream exampleWebData upstreamTemplateStr
    [("web-8080", "app-web-8080"), ("default-8080", "app-web-8080"),
      ("default", "app-web-8080"), ("api", "app-api")]
    (by decide)

/-! ### Variable resolver -/

/-- C11. A user variable `db` that is a mapping of the named type
`file_config.ConfigVars` is returned as it is: its string leaf `postgres` is
not replaced by the output `<postgres>` of the evaluator, whereas the
top-level string `hello` is, and so is the leaf of the same mapping held as a
`map[string]any`. -/
theorem nested_config_vars_left_unresolved :
    resolveUserVars sigilBracket exampleSysVars
        [("greeting", .str "hello"), ("db", .configVars [("url", .str "postgres")])] =
      .ok [("greeting", .str "<hello>"), ("db", .configVars [("url", .str "postgres")])] ∧
    sigilBracket.execute "postgres" exampleSysVars "user_var_db.url" = .ok "<postgres>" ∧
    resolveUserVars sigilBracket exampleSysVars
        [("greeting", .str "hello"), ("db", .map [("url", .str "postgres")])] =
      .ok [("greeting", .str "<hello>"), ("db", .map [("url", .str "<postgres>")])] :=
  ⟨rfl, rfl, rfl⟩

/-- C12. The evaluator rejects the string leaf `broken` of the user variable
`db`, a mapping of the named type `file_config.ConfigVars`, yet
`resolveUserVars` succeeds and returns the tree as it is; with the same
mapping held as a `map[string]any` it fails. -/
theorem nested_failure_goes_unnoticed :
    sigilStrict.execute "broken" exampleSysVars "user_var_db.url" =
      .error "template: unexpected EOF" ∧
    resolveUserVars sigilStrict exampleSysVars [("db", .configVars [("url", .str "broken")])] =
      .ok [("db", .configVars [("url", .str "broken")])] ∧
    resolveUserVars sigilStrict exampleSysVars [("db", .map [("url", .str "broken")])] =
      .error "failed to resolve user var db: in key url: template: unexpected EOF" :=
  ⟨rfl, rfl, rfl⟩

/-! ### Location builder -/

theorem bodyText_ne_empty (lines : List String) (h : lines ≠ []) : bodyText lines ≠ "" := by
  cases lines with
  | nil => exact absurd rfl h
  | cons line rest =>
    intro hempty
    have hdata := congrArg String.data hempty
    simp [bodyText, String.data_append] at hdata

theorem renderLocationBlock_ne_empty (modifier uri named : String) (lines : List String)
    (h : lines ≠ []) : renderLocationBlock modifier uri named lines ≠ "" := by
  unfold renderLocationBlock
  split
  · intro hempty
    have hdata := congrArg String.data hempty
    simp [String.data_append] at hdata
  · exact bodyText_ne_empty lines h

theorem stringsSplit_ne_nil (s : String) (sep : Char) : stringsSplit s sep ≠ [] := by
  unfold stringsSplit
  intro h
  exact splitChars_ne_nil sep s.data (List.map_eq_nil_iff.mp h)

theorem ruleOutput_ne_empty (sigil : Sigil) (appName : String) (config : Config)
    (data : locationConfigData) (vhost : VhostConfig) (location : LocationConfig)
    (out : String) (h : ruleOutput sigil appName config data vhost location = .ok out) :
    out ≠ "" := by
  unfold ruleOutput at h
  split at h
  · cases h
  · split at h
    · cases h
    · split at h
      · cases h
      · injection h with h
        rw [← h]
        exact renderLocationBlock_ne_empty _ _ _ _ (stringsSplit_ne_nil _ _)

theorem tmplData_lookups (tmplData : List (String × Value)) (a b c d : Value) :
    let td := mapSet (mapSet (mapSet (mapSet tmplData "modifier" a) "uri" b) "bodyLines" c)
      "named" d
    mapGet td "modifier" = some a ∧ mapGet td "uri" = some b ∧
      mapGet td "named" = some d ∧ mapGet td "bodyLines" = some c := by
  intro td
  refine ⟨?_, ?_, ?_, ?_⟩
  · show mapGet (mapSet _ _ _) _ = _
    rw [mapGet_mapSet_ne _ _ _ _ (by decide), mapGet_mapSet_ne _ _ _ _ (by decide),
      mapGet_mapSet_ne _ _ _ _ (by decide), mapGet_mapSet_same]
  · show mapGet (mapSet _ _ _) _ = _
    rw [mapGet_mapSet_ne _ _ _ _ (by decide), mapGet_mapSet_ne _ _ _ _ (by decide),
      mapGet_mapSet_same]
  · show mapGet (mapSet _ _ _) _ = _
    rw [mapGet_mapSet_same]
  · show mapGet (mapSet _ _ _) _ = _
    rw [mapGet_mapSet_ne _ _ _ _ (by decide), mapGet_mapSet_same]

theorem locationLoop_outputs (sigil : Sigil) (hrender : RendersLocationBlock sigil)
    (appName : String) (config : Config) (data : locationConfigData) (vhost : VhostConfig) :
    ∀ (locations : List LocationConfig) (tmplData : List (String × Value)) (acc s : String),
      locationLoop sigil appName config data vhost locations (tmplData, acc) = .ok s →
      ∃ outputs,
        List.Forall₂
          (fun location out => ruleOutput sigil appName config data vhost location = .ok out)
          locations outputs ∧
        s = appendLines acc outputs := by
  intro locations
  induction locations with
  | nil =>
    intro tmplData acc s h
    simp only [locationLoop] at h
    injection h with h
    exact ⟨[], List.Forall₂.nil, by rw [← h]; rfl⟩
  | cons location rest ih =>
    intro tmplData acc s h
    rw [locationLoop] at h
    split at h
    · cases h
    · rename_i modifierOut hmod
      split at h
      · cases h
      · rename_i uriOut huri
        split at h
        · cases h
        · rename_i bodyOut hbody
          obtain ⟨h1, h2, h3, h4⟩ := tmplData_lookups tmplData (.str modifierOut) (.str uriOut)
            (.seq ((stringsSplit bodyOut '\n').map Value.str))
            (.str (if location.Named ≠ "" then
              (mapGet (namedLocations appName vhost) location.Named).getD "" else ""))
          dsimp only at h
          rw [hrender _ _ _ _ _ _ h1 h2 h3 h4] at h
          dsimp only at h
          obtain ⟨outputs, hall, hs⟩ := ih _ _ _ h
          refine ⟨renderLocationBlock modifierOut uriOut
            (if location.Named ≠ "" then
              (mapGet (namedLocations appName vhost) location.Named).getD "" else "")
            (stringsSplit bodyOut '\n') :: outputs, List.Forall₂.cons ?_ hall, ?_⟩
          · unfold ruleOutput
            rw [hmod, huri, hbody]
          · rw [hs, appendLines_cons]

theorem vhostLoop_keeps (sigil : Sigil) (appName : String) (config : Config)
    (data : locationConfigData) (k : String) :
    ∀ (vhosts : List VhostConfig) (m result : List (String × String)),
      vhostLoop sigil appName config data vhosts m = .ok result →
      (∀ v ∈ vhosts, v.ServerName ≠ k) → mapGet result k = mapGet m k := by
  intro vhosts
  induction vhosts with
  | nil =>
    intro m result h _
    simp only [vhostLoop] at h
    injection h with h
    rw [h]
  | cons vhost rest ih =>
    intro m result h hne
    rw [vhostLoop] at h
    split at h
    · cases h
    · rw [ih _ _ h (fun v hv => hne v (List.mem_cons_of_mem _ hv)),
        mapGet_mapSet_ne _ _ _ _ (hne vhost (List.mem_cons_self _ _))]

theorem vhostLoop_document (sigil : Sigil) (appName : String) (config : Config)
    (data : locationConfigData) (vhost : VhostConfig) (post : List VhostConfig)
    (hlast : ∀ v ∈ post, v.ServerName ≠ vhost.ServerName) :
    ∀ (pre : List VhostConfig) (m result : List (String × String)),
      vhostLoop sigil appName config data (pre ++ vhost :: post) m = .ok result →
      ∃ s, locationLoop sigil appName config data vhost vhost.Locations
          (initialTmplData config, "") = .ok s ∧
        mapGet result vhost.ServerName = some s := by
  intro pre
  induction pre with
  | nil =>
    intro m result h
    rw [List.nil_append, vhostLoop] at h
    split at h
    · cases h
    · rename_i s hs
      refine ⟨s, hs, ?_⟩
      rw [vhostLoop_keeps sigil appName config data _ _ _ _ h hlast, mapGet_mapSet_same]
  | cons v rest ih =>
    intro m result h
    rw [List.cons_append, vhostLoop] at h
    split at h
    · cases h
    · exact ih _ _ h

theorem stringItems_strings (lines : List String) :
    stringItems (lines.map Value.str) = some lines := by
  induction lines with
  | nil => rfl
  | cons line rest ih => simp [stringItems, ih]

theorem sigilTextTemplate_renders : RendersLocationBlock sigilTextTemplate := by
  intro tmplData name modifier uri named bodyLines h1 h2 h3 h4
  simp only [sigilTextTemplate, if_true, h1, h2, h3, h4, stringItems_strings]

theorem forall2_mem_right {α β : Type} {R : α → β → Prop} {l1 : List α} {l2 : List β}
    (h : List.Forall₂ R l1 l2) : ∀ b ∈ l2, ∃ a ∈ l1, R a b := by
  induction h with
  | nil => intro b hb; cases hb
  | cons hab _ ih =>
    intro b hb
    rcases List.mem_cons.mp hb with rfl | hb
    · exact ⟨_, List.mem_cons_self _ _, hab⟩
    · obtain ⟨a, ha, hr⟩ := ih b hb
      exact ⟨a, List.mem_cons_of_mem _ ha, hr⟩

/-- C20 (amended). When `buildLocationConfig` succeeds with an evaluator that
renders the block template as `text/template` does, then for every virtual
host whose server name is not declared again by a later virtual host, the
result map holds under that server name the rendered outputs of the host's
rules, in declared order, joined by a newline. -/
theorem location_documents (sigil : Sigil) (hrender : RendersLocationBlock sigil)
    (appName : String) (config : Config) (data : locationConfigData)
    (result : List (String × String))
    (h : buildLocationConfig sigil appName config data = .ok result)
    (pre : List VhostConfig) (vhost : VhostConfig) (post : List VhostConfig)
    (hvhosts : config.Vhosts = pre ++ vhost :: post)
    (hlast : ∀ v ∈ post, v.ServerName ≠ vhost.ServerName) :
    ∃ outputs,
      List.Forall₂
        (fun location out => ruleOutput sigil appName config data vhost location = .ok out)
        vhost.Locations outputs ∧
      mapGet result vhost.ServerName = some (stringsJoin outputs "\n") := by
  unfold buildLocationConfig at h
  rw [hvhosts] at h
  obtain ⟨s, hs, hget⟩ := vhostLoop_document sigil appName config data vhost post hlast pre _ _ h
  obtain ⟨outputs, hall, hdoc⟩ :=
    locationLoop_outputs sigil hrender appName config data vhost _ _ _ _ hs
  refine ⟨outputs, hall, ?_⟩
  rw [hget, hdoc, appendLines_empty]
  intro out hout
  obtain ⟨location, _, hrule⟩ := forall2_mem_right hall out hout
  exact ruleOutput_ne_empty sigil appName config data vhost location out hrule

theorem location_documents_counterexample :
    buildLocationConfig sigilTextTemplate "app" exampleSameServerName emptyLocationData =
      .ok [("example.com", "location /api \x7b\n  return 404;\n\x7d\n\n")] ∧
    exampleSameServerName.Vhosts = [exampleFirstVhost, exampleSecondVhost] ∧
    exampleFirstVhost.ServerName = "example.com" ∧
    List.Forall₂
      (fun location out =>
        ruleOutput sigilTextTemplate "app" exampleSameServerName emptyLocationData
          exampleFirstVhost location = .ok out)
      exampleFirstVhost.Locations ["location / \x7b\n  return 200;\n\x7d\n\n"] :=
  ⟨by decide, rfl, rfl, List.Forall₂.cons (by decide) List.Forall₂.nil⟩

theorem location_documents_witness :
    buildLocationConfig sigilTextTemplate "app" exampleOneVhost emptyLocationData =
      .ok [("example.com",
        "location / \x7b\n  proxy_pass http://app;\n\x7d\n\n\n" ++
        "location @app_fallback \x7b\n  return 404;\n\x7d\n\n\n" ++
        "\n  gzip on;\n  gzip_vary on;")] ∧
    ∃ outputs,
      List.Forall₂
        (fun location out =>
          ruleOutput sigilTextTemplate "app" exampleOneVhost emptyLocationData exampleVhost
            location = .ok out)
        exampleVhost.Locations outputs ∧
      mapGet [("example.com",
        "location / \x7b\n  proxy_pass http://app;\n\x7d\n\n\n" ++
        "location @app_fallback \x7b\n  return 404;\n\x7d\n\n\n" ++
        "\n  gzip on;\n  gzip_vary on;")] exampleVhost.ServerName =
        some (stringsJoin outputs "\n") :=
  ⟨by decide,
    location_documents sigilTextTemplate sigilTextTemplate_renders "app" exampleOneVhost
      emptyLocationData _ (by decide) [] exampleVhost [] rfl (by simp)⟩

/-! ### Variable resolver: values of type `map[string]any` and `[]any` -/

theorem resolveMapEntries_shape (sigil : Sigil) (sysVars : Value) (context : String) :
    ∀ (entries resolvedMap : List (String × Value)),
      resolveMapEntries sigil sysVars entries context = .ok resolvedMap →
      List.Forall₂
        (fun entry resolved => resolved.1 = entry.1 ∧
          resolveValue sigil sysVars entry.2 (context ++ "." ++ entry.1) = .ok resolved.2)
        entries resolvedMap := by
  intro entries
  induction entries with
  | nil =>
    intro resolvedMap h
    simp only [resolveMapEntries] at h
    injection h with h
    rw [← h]
    exact List.Forall₂.nil
  | cons entry rest ih =>
    obtain ⟨k, nestedVal⟩ := entry
    intro resolvedMap h
    rw [resolveMapEntries] at h
    split at h
    · cases h
    · rename_i resolved hres
      split at h
      · cases h
      · rename_i rest' hrest
        injection h with h
        rw [← h]
        exact List.Forall₂.cons ⟨rfl, hres⟩ (ih _ hrest)

theorem resolveSliceItems_shape (sigil : Sigil) (sysVars : Value) (context : String) :
    ∀ (items resolvedSlice : List Value) (i : Nat),
      resolveSliceItems sigil sysVars items context i = .ok resolvedSlice →
      resolvedSlice.length = items.length ∧
      ∀ (j : Nat) (item : Value), items.get? j = some item →
        ∃ resolved, resolvedSlice.get? j = some resolved ∧
          resolveValue sigil sysVars item (context ++ "[" ++ toString (i + j) ++ "]") =
            .ok resolved := by
  intro items
  induction items with
  | nil =>
    intro resolvedSlice i h
    simp only [resolveSliceItems] at h
    injection h with h
    rw [← h]
    exact ⟨rfl, fun j item hj => by simp at hj⟩
  | cons item rest ih =>
    intro resolvedSlice i h
    rw [resolveSliceItems] at h
    split at h
    · cases h
    · rename_i resolved hres
      split at h
      · cases h
      · rename_i rest' hrest
        injection h with h
        rw [← h]
        obtain ⟨hlen, hall⟩ := ih _ _ hrest
        refine ⟨by simp [hlen], ?_⟩
        intro j item' hj
        cases j with
        | zero =>
          simp only [List.get?_cons_zero, Option.some.injEq] at hj
          rw [← hj]
          exact ⟨resolved, rfl, hres⟩
        | succ j =>
          simp only [List.get?_cons_succ] at hj
          obtain ⟨r, hr, hv⟩ := hall j item' hj
          refine ⟨r, by simpa using hr, ?_⟩
          rw [show i + (j + 1) = i + 1 + j by omega]
          exact hv

theorem resolveUserVars_shape (sigil : Sigil) (sysVars : Value) :
    ∀ (userVars resolvedUserVars : List (String × Value)),
      resolveUserVars sigil sysVars userVars = .ok resolvedUserVars →
      List.Forall₂
        (fun entry resolved => resolved.1 = entry.1 ∧
          resolveValue sigil sysVars entry.2 ("user_var_" ++ entry.1) = .ok resolved.2)
        userVars resolvedUserVars := by
  intro userVars
  induction userVars with
  | nil =>
    intro resolvedUserVars h
    simp only [resolveUserVars] at h
    injection h with h
    rw [← h]
    exact List.Forall₂.nil
  | cons entry rest ih =>
    obtain ⟨k, v⟩ := entry
    intro resolvedUserVars h
    rw [resolveUserVars] at h
    split at h
    · cases h
    · rename_i resolved hres
      split at h
      · cases h
      · rename_i rest' hrest
        injection h with h
        rw [← h]
        exact List.Forall₂.cons ⟨rfl, hres⟩ (ih _ hrest)

theorem resolveValue_shape (sigil : Sigil) (sysVars : Value) (v resolved : Value)
    (context : String) (h : resolveValue sigil sysVars v context = .ok resolved) :
    match v with
    | .str val => ∃ out, sigil.execute val sysVars context = .ok out ∧ resolved = .str out
    | .map entries =>
      ∃ resolvedMap, resolved = .map resolvedMap ∧
        List.Forall₂
          (fun entry r => r.1 = entry.1 ∧
            resolveValue sigil sysVars entry.2 (context ++ "." ++ entry.1) = .ok r.2)
          entries resolvedMap
    | .seq items =>
      ∃ resolvedSlice, resolved = .seq resolvedSlice ∧
        resolvedSlice.length = items.length ∧
        ∀ (j : Nat) (item : Value), items.get? j = some item →
          ∃ r, resolvedSlice.get? j = some r ∧
            resolveValue sigil sysVars item (context ++ "[" ++ toString j ++ "]") = .ok r
    | other => resolved = other := by
  cases v with
  | null => simp only [resolveValue] at h; injection h with h; exact h.symm
  | int n => simp only [resolveValue] at h; injection h with h; exact h.symm
  | bool b => simp only [resolveValue] at h; injection h with h; exact h.symm
  | configVars entries => simp only [resolveValue] at h; injection h with h; exact h.symm
  | other printed => simp only [resolveValue] at h; injection h with h; exact h.symm
  | str val =>
    rw [resolveValue] at h
    split at h
    · cases h
    · rename_i out hout
      injection h with h
      exact ⟨out, hout, h.symm⟩
  | map entries =>
    rw [resolveValue] at h
    split at h
    · cases h
    · rename_i resolvedMap hmap
      injection h with h
      exact ⟨resolvedMap, h.symm, resolveMapEntries_shape sigil sysVars context _ _ hmap⟩
  | seq items =>
    rw [resolveValue] at h
    split at h
    · cases h
    · rename_i resolvedSlice hslice
      injection h with h
      obtain ⟨hlen, hall⟩ := resolveSliceItems_shape sigil sysVars context _ _ _ hslice
      refine ⟨resolvedSlice, h.symm, hlen, ?_⟩
      intro j item hj
      obtain ⟨r, hr, hv⟩ := hall j item hj
      exact ⟨r, hr, by simpa using hv⟩

mutual
theorem resolveValue_error_iff (sigil : Sigil) (sysVars : Value) :
    ∀ (v : Value) (context : String),
      (∃ e, resolveValue sigil sysVars v context = .error e) ↔
        FailingLeaf sigil sysVars v context
  | .null, context => by
    constructor
    · rintro ⟨e, h⟩; simp [resolveValue] at h
    · intro h; cases h
  | .int n, context => by
    constructor
    · rintro ⟨e, h⟩; simp [resolveValue] at h
    · intro h; cases h
  | .bool b, context => by
    constructor
    · rintro ⟨e, h⟩; simp [resolveValue] at h
    · intro h; cases h
  | .configVars entries, context => by
    constructor
    · rintro ⟨e, h⟩; simp [resolveValue] at h
    · intro h; cases h
  | .other printed, context => by
    constructor
    · rintro ⟨e, h⟩; simp [resolveValue] at h
    · intro h; cases h
  | .str val, context => by
    constructor
    · rintro ⟨e, h⟩
      rw [resolveValue] at h
      split at h
      · rename_i e' he
        exact FailingLeaf.str val context e' he
      · cases h
    · intro h
      cases h with
      | str _ _ e he => exact ⟨e, by rw [resolveValue, he]⟩
  | .map entries, context => by
    have ih := resolveMapEntries_error_iff sigil sysVars entries context
    constructor
    · rintro ⟨e, h⟩
      rw [resolveValue] at h
      split at h
      · rename_i e' he
        obtain ⟨k, v, hmem, hleaf⟩ := ih.mp ⟨e', he⟩
        exact FailingLeaf.map entries context k v hmem hleaf
      · cases h
    · intro h
      cases h with
      | map _ _ k v hmem hleaf =>
        obtain ⟨e, he⟩ := ih.mpr ⟨k, v, hmem, hleaf⟩
        exact ⟨e, by rw [resolveValue, he]⟩
  | .seq items, context => by
    have ih := resolveSliceItems_error_iff sigil sysVars items context 0
    constructor
    · rintro ⟨e, h⟩
      rw [resolveValue] at h
      split at h
      · rename_i e' he
        obtain ⟨j, v, hget, hleaf⟩ := ih.mp ⟨e', he⟩
        rw [Nat.zero_add] at hleaf
        exact FailingLeaf.seq items context j v hget hleaf
      · cases h
    · intro h
      cases h with
      | seq _ _ j v hget hleaf =>
        obtain ⟨e, he⟩ := ih.mpr ⟨j, v, hget, by rw [Nat.zero_add]; exact hleaf⟩
        exact ⟨e, by rw [resolveValue, he]⟩

theorem resolveMapEntries_error_iff (sigil : Sigil) (sysVars : Value) :
    ∀ (entries : List (String × Value)) (context : String),
      (∃ e, resolveMapEntries sigil sysVars entries context = .error e) ↔
        ∃ k v, (k, v) ∈ entries ∧ FailingLeaf sigil sysVars v (context ++ "." ++ k)
  | [], context => by
    constructor
    · rintro ⟨e, h⟩; simp [resolveMapEntries] at h
    · rintro ⟨k, v, hmem, _⟩; cases hmem
  | (k, nestedVal) :: rest, context => by
    have ihv := resolveValue_error_iff sigil sysVars nestedVal (context ++ "." ++ k)
    have ihr := resolveMapEntries_error_iff sigil sysVars rest context
    constructor
    · rintro ⟨e, h⟩
      rw [resolveMapEntries] at h
      split at h
      · rename_i e' he
        exact ⟨k, nestedVal, List.mem_cons_self _ _, ihv.mp ⟨e', he⟩⟩
      · split at h
        · rename_i e' he
          obtain ⟨k', v', hmem, hleaf⟩ := ihr.mp ⟨e', he⟩
          exact ⟨k', v', List.mem_cons_of_mem _ hmem, hleaf⟩
        · cases h
    · rintro ⟨k', v', hmem, hleaf⟩
      rw [resolveMapEntries]
      split
      · exact ⟨_, rfl⟩
      · rename_i resolved hres
        rcases List.mem_cons.mp hmem with heq | hmem
        · injection heq with hk hv
          subst hk; subst hv
          obtain ⟨e, he⟩ := ihv.mpr hleaf
          rw [he] at hres
          cases hres
        · obtain ⟨e, he⟩ := ihr.mpr ⟨k', v', hmem, hleaf⟩
          rw [he]
          exact ⟨_, rfl⟩

theorem resolveSliceItems_error_iff (sigil : Sigil) (sysVars : Value) :
    ∀ (items : List Value) (context : String) (i : Nat),
      (∃ e, resolveSliceItems sigil sysVars items context i = .error e) ↔
        ∃ j v, items.get? j = some v ∧
          FailingLeaf sigil sysVars v (context ++ "[" ++ toString (i + j) ++ "]")
  | [], context, i => by
    constructor
    · rintro ⟨e, h⟩; simp [resolveSliceItems] at h
    · rintro ⟨j, v, hget, _⟩; simp at hget
  | item :: rest, context, i => by
    have ihv := resolveValue_error_iff sigil sysVars item (context ++ "[" ++ toString i ++ "]")
    have ihr := resolveSliceItems_error_iff sigil sysVars rest context (i + 1)
    constructor
    · rintro ⟨e, h⟩
      rw [resolveSliceItems] at h
      split at h
      · rename_i e' he
        exact ⟨0, item, rfl, by rw [Nat.add_zero]; exact ihv.mp ⟨e', he⟩⟩
      · split at h
        · rename_i e' he
          obtain ⟨j, v, hget, hleaf⟩ := ihr.mp ⟨e', he⟩
          refine ⟨j + 1, v, by simpa using hget, ?_⟩
          rw [show i + (j + 1) = i + 1 + j by omega]
          exact hleaf
        · cases h
    · rintro ⟨j, v, hget, hleaf⟩
      rw [resolveSliceItems]
      split
      · exact ⟨_, rfl⟩
      · rename_i resolved hres
        cases j with
        | zero =>
          simp only [List.get?_cons_zero, Option.some.injEq] at hget
          subst hget
          rw [Nat.add_zero] at hleaf
          obtain ⟨e, he⟩ := ihv.mpr hleaf
          rw [he] at hres
          cases hres
        | succ j =>
          simp only [List.get?_cons_succ] at hget
          rw [show i + (j + 1) = i + 1 + j by omega] at hleaf
          obtain ⟨e, he⟩ := ihr.mpr ⟨j, v, hget, hleaf⟩
          rw [he]
          exact ⟨_, rfl⟩
end

theorem resolveUserVars_error_iff (sigil : Sigil) (sysVars : Value) :
    ∀ (userVars : List (String × Value)),
      (∃ e, resolveUserVars sigil sysVars userVars = .error e) ↔
        ∃ k v, (k, v) ∈ userVars ∧ FailingLeaf sigil sysVars v ("user_var_" ++ k) := by
  intro userVars
  induction userVars with
  | nil =>
    constructor
    · rintro ⟨e, h⟩; simp [resolveUserVars] at h
    · rintro ⟨k, v, hmem, _⟩; cases hmem
  | cons entry rest ihr =>
    obtain ⟨k, nestedVal⟩ := entry
    have ihv := resolveValue_error_iff sigil sysVars nestedVal ("user_var_" ++ k)
    constructor
    · rintro ⟨e, h⟩
      rw [resolveUserVars] at h
      split at h
      · rename_i e' he
        exact ⟨k, nestedVal, List.mem_cons_self _ _, ihv.mp ⟨e', he⟩⟩
      · split at h
        · rename_i e' he
          obtain ⟨k', v', hmem, hleaf⟩ := ihr.mp ⟨e', he⟩
          exact ⟨k', v', List.mem_cons_of_mem _ hmem, hleaf⟩
        · cases h
    · rintro ⟨k', v', hmem, hleaf⟩
      rw [resolveUserVars]
      split
      · exact ⟨_, rfl⟩
      · rename_i resolved hres
        rcases List.mem_cons.mp hmem with heq | hmem
        · injection heq with hk hv
          subst hk; subst hv
          obtain ⟨e, he⟩ := ihv.mpr hleaf
          rw [he] at hres
          cases hres
        · obtain ⟨e, he⟩ := ihr.mpr ⟨k', v', hmem, hleaf⟩
          rw [he]
          exact ⟨_, rfl⟩

/-! ### Location builder: block wrapping -/

theorem namedLocations_foldl (appName n : String) :
    ∀ (locations : List LocationConfig) (names : List (String × String)),
      (mapGet names n = some (appName ++ "_" ++ n) ∨
        ∃ location ∈ locations, location.Named = n ∧ n ≠ "") →
      mapGet
        (locations.foldl
          (fun names location =>
            if location.Named ≠ "" then
              mapSet names location.Named (appName ++ "_" ++ location.Named)
            else names)
          names) n = some (appName ++ "_" ++ n) := by
  intro locations
  induction locations with
  | nil =>
    intro names h
    rcases h with h | ⟨location, hmem, _⟩
    · exact h
    · cases hmem
  | cons x rest ih =>
    intro names h
    rw [List.foldl_cons]
    apply ih
    by_cases hx : x.Named = n
    · left
      by_cases hn : n = ""
      · rcases h with h | ⟨_, _, _, hne⟩
        · rw [if_neg (by rw [hx, hn]; simp)]
          exact h
        · exact absurd hn hne
      · rw [if_pos (by rw [hx]; exact hn), hx, mapGet_mapSet_same]
    · rcases h with h | ⟨location, hmem, hnamed, hne⟩
      · left
        by_cases hxe : x.Named ≠ ""
        · rw [if_pos hxe, mapGet_mapSet_ne _ _ _ _ hx]
          exact h
        · rw [if_neg hxe]
          exact h
      · rcases List.mem_cons.mp hmem with heq | hmem
        · rw [heq] at hnamed
          exact absurd hnamed hx
        · right
          exact ⟨location, hmem, hnamed, hne⟩

theorem namedLocations_get (appName : String) (vhost : VhostConfig) (location : LocationConfig)
    (hmem : location ∈ vhost.Locations) (hnamed : location.Named ≠ "") :
    mapGet (namedLocations appName vhost) location.Named =
      some (appName ++ "_" ++ location.Named) :=
  namedLocations_foldl appName location.Named vhost.Locations []
    (Or.inr ⟨location, hmem, rfl, hnamed⟩)

theorem hasPrefix_append (pre rest : String) : hasPrefix (pre ++ rest) pre = true := by
  unfold hasPrefix
  rw [String.data_append]
  exact List.isPrefixOf_iff_prefix.mpr (List.prefix_append _ _)

theorem hasPrefix_bodyText (lines : List String) (h : lines ≠ []) :
    hasPrefix (bodyText lines) "location " = false := by
  cases lines with
  | nil => exact absurd rfl h
  | cons line rest =>
    unfold hasPrefix
    simp [bodyText, String.data_append, List.isPrefixOf]

theorem vhostLoop_each (sigil : Sigil) (appName : String) (config : Config)
    (data : locationConfigData) :
    ∀ (vhosts : List VhostConfig) (m result : List (String × String)),
      vhostLoop sigil appName config data vhosts m = .ok result →
      ∀ vhost ∈ vhosts, ∃ s,
        locationLoop sigil appName config data vhost vhost.Locations
          (initialTmplData config, "") = .ok s := by
  intro vhosts
  induction vhosts with
  | nil => intro m result _ vhost hv; cases hv
  | cons v rest ih =>
    intro m result h vhost hv
    rw [vhostLoop] at h
    split at h
    · cases h
    · rename_i s hs
      rcases List.mem_cons.mp hv with heq | hv
      · rw [heq]
        exact ⟨s, hs⟩
      · exact ih _ _ h vhost hv

theorem forall2_imp_mem {α β : Type} {R S : α → β → Prop} {l1 : List α} {l2 : List β}
    (h : List.Forall₂ R l1 l2) (himp : ∀ a ∈ l1, ∀ b, R a b → S a b) :
    List.Forall₂ S l1 l2 := by
  induction h with
  | nil => exact List.Forall₂.nil
  | cons hab _ ih =>
    exact List.Forall₂.cons (himp _ (List.mem_cons_self _ _) _ hab)
      (ih (fun a ha b hr => himp a (List.mem_cons_of_mem _ ha) b hr))

theorem ruleOutput_expansion (sigil : Sigil) (appName : String) (config : Config)
    (data : locationConfigData) (vhost : VhostConfig) (location : LocationConfig)
    (out : String) (h : ruleOutput sigil appName config data vhost location = .ok out) :
    ∃ modifierOut uriOut bodyOut,
      ruleExpansion sigil appName config data vhost location =
        some (modifierOut, uriOut, bodyOut) ∧
      out = renderLocationBlock modifierOut uriOut
        (if location.Named ≠ "" then
          (mapGet (namedLocations appName vhost) location.Named).getD "" else "")
        (stringsSplit bodyOut '\n') := by
  unfold ruleOutput at h
  split at h
  · cases h
  · rename_i modifierOut hmod
    split at h
    · cases h
    · rename_i uriOut huri
      split at h
      · cases h
      · rename_i bodyOut hbody
        injection h with h
        refine ⟨modifierOut, uriOut, bodyOut, ?_, h.symm⟩
        unfold ruleExpansion
        rw [hmod, huri, hbody]

theorem renderLocationBlock_named (modifier uri named : String) (lines : List String)
    (h : named ≠ "") :
    renderLocationBlock modifier uri named lines =
      "location " ++ modifier ++ "@" ++ named ++ " \x7b" ++ bodyText lines ++ "\n\x7d\n\n" := by
  unfold renderLocationBlock
  rw [if_pos (Or.inr h), if_pos h]
  simp only [String.append_assoc]

theorem renderLocationBlock_uri (modifier uri : String) (lines : List String) (h : uri ≠ "") :
    renderLocationBlock modifier uri "" lines =
      "location " ++ modifier ++ uri ++ " \x7b" ++ bodyText lines ++ "\n\x7d\n\n" := by
  unfold renderLocationBlock
  rw [if_pos (Or.inl h), if_neg (by simp)]

theorem renderLocationBlock_bare (modifier : String) (lines : List String) :
    renderLocationBlock modifier "" "" lines = bodyText lines := by
  unfold renderLocationBlock
  rw [if_neg (by simp)]

theorem renderLocationBlock_prefix (modifier uri named : String) (lines : List String)
    (hlines : lines ≠ []) :
    hasPrefix (renderLocationBlock modifier uri named lines) "location " = true ↔
      (uri ≠ "" ∨ named ≠ "") := by
  unfold renderLocationBlock
  by_cases h : uri ≠ "" ∨ named ≠ ""
  · rw [if_pos h]
    simp only [String.append_assoc, hasPrefix_append, true_iff]
    exact h
  · rw [if_neg h, hasPrefix_bodyText lines hlines]
    simp only [Bool.false_eq_true, false_iff]
    exact h

/-- C21 (amended). When `buildLocationConfig` succeeds with an evaluator that
renders the block template as `text/template` does, the document of every
virtual host is the newline-joined list of the outputs of its rules, and for
every rule, with `modifierOut`, `uriOut` and `bodyOut` the expansions of its
modifier, URI and body: the output starts with `location ` if and only if
`uriOut` is not empty or the rule has an internal name; with neither, the
output is the body lines alone, each after a newline and two spaces; with an
internal name `n` it is `location <modifierOut>@<appName>_n \x7b`, the body
lines, and the closing brace; with no internal name and a non-empty `uriOut`
it is `location <modifierOut><uriOut> \x7b`, the body lines, and the closing
brace. -/
theorem block_wrapping (sigil : Sigil) (hrender : RendersLocationBlock sigil)
    (appName : String) (config : Config) (data : locationConfigData)
    (result : List (String × String))
    (h : buildLocationConfig sigil appName config data = .ok result)
    (vhost : VhostConfig) (hvhost : vhost ∈ config.Vhosts) :
    ∃ outputs,
      locationLoop sigil appName config data vhost vhost.Locations
        (initialTmplData config, "") = .ok (stringsJoin outputs "\n") ∧
      List.Forall₂
        (fun location out => ∃ modifierOut uriOut bodyOut,
          ruleExpansion sigil appName config data vhost location =
            some (modifierOut, uriOut, bodyOut) ∧
          (hasPrefix out "location " = true ↔ (uriOut ≠ "" ∨ location.Named ≠ "")) ∧
          (uriOut = "" → location.Named = "" →
            out = bodyText (stringsSplit bodyOut '\n')) ∧
          (location.Named ≠ "" →
            out = "location " ++ modifierOut ++ "@" ++ (appName ++ "_" ++ location.Named) ++
              " \x7b" ++ bodyText (stringsSplit bodyOut '\n') ++ "\n\x7d\n\n") ∧
          (location.Named = "" → uriOut ≠ "" →
            out = "location " ++ modifierOut ++ uriOut ++
              " \x7b" ++ bodyText (stringsSplit bodyOut '\n') ++ "\n\x7d\n\n"))
        vhost.Locations outputs := by
  obtain ⟨s, hs⟩ := vhostLoop_each sigil appName config data _ _ _ h vhost hvhost
  obtain ⟨outputs, hall, hdoc⟩ :=
    locationLoop_outputs sigil hrender appName config data vhost _ _ _ _ hs
  have hjoin : s = stringsJoin outputs "\n" := by
    rw [hdoc]
    apply appendLines_empty
    intro out hout
    obtain ⟨location, _, hrule⟩ := forall2_mem_right hall out hout
    exact ruleOutput_ne_empty sigil appName config data vhost location out hrule
  refine ⟨outputs, by rw [hs, hjoin], forall2_imp_mem hall ?_⟩
  intro location hmem out hrule
  obtain ⟨modifierOut, uriOut, bodyOut, hexp, hout⟩ :=
    ruleOutput_expansion sigil appName config data vhost location out hrule
  refine ⟨modifierOut, uriOut, bodyOut, hexp, ?_, ?_, ?_, ?_⟩
  · rw [hout, renderLocationBlock_prefix _ _ _ _ (stringsSplit_ne_nil _ _)]
    by_cases hn : location.Named = ""
    · rw [if_neg (by simpa using hn)]
      simp [hn]
    · rw [if_pos hn, namedLocations_get appName vhost location hmem hn]
      simp only [Option.getD_some]
      constructor
      · intro _
        exact Or.inr hn
      · intro _
        right
        intro hempty
        have hdata := congrArg String.data hempty
        simp [String.data_append] at hdata
  · intro hu hn
    rw [hout, if_neg (by simpa using hn), hu, renderLocationBlock_bare]
  · intro hn
    rw [hout, if_pos hn, namedLocations_get appName vhost location hmem hn]
    simp only [Option.getD_some]
    apply renderLocationBlock_named
    intro hempty
    have hdata := congrArg String.data hempty
    simp [String.data_append] at hdata
  · intro hn hu
    rw [hout, if_neg (by simpa using hn), renderLocationBlock_uri _ _ _ hu]

/-- C21: the one rule of `example.com` has the URI
`\x7b\x7b $.vars.prefix \x7d\x7d`, which expands to the empty text, and no
internal name; its output is the bare body line, with no block header. -/
theorem block_wrapping_counterexample :
    buildLocationConfig sigilEmptyPrefix "app" exampleEmptyUri emptyLocationData =
      .ok [("example.com", "\n  return 404;")] ∧
    (∀ vhost ∈ exampleEmptyUri.Vhosts, ∀ location ∈ vhost.Locations, location.Uri ≠ "") ∧
    hasPrefix "\n  return 404;" "location " = false := by
  decide

theorem block_wrapping_witness :
    RendersLocationBlock sigilTextTemplate ∧
    exampleVhost ∈ exampleOneVhost.Vhosts ∧
    ∃ outputs,
      locationLoop sigilTextTemplate "app" exampleOneVhost emptyLocationData exampleVhost
        exampleVhost.Locations (initialTmplData exampleOneVhost, "") =
          .ok (stringsJoin outputs "\n") ∧
      List.Forall₂
        (fun location out => ∃ modifierOut uriOut bodyOut,
          ruleExpansion sigilTextTemplate "app" exampleOneVhost emptyLocationData exampleVhost
            location = some (modifierOut, uriOut, bodyOut) ∧
          (hasPrefix out "location " = true ↔ (uriOut ≠ "" ∨ location.Named ≠ "")) ∧
          (uriOut = "" → location.Named = "" →
            out = bodyText (stringsSplit bodyOut '\n')) ∧
          (location.Named ≠ "" →
            out = "location " ++ modifierOut ++ "@" ++ ("app" ++ "_" ++ location.Named) ++
              " \x7b" ++ bodyText (stringsSplit bodyOut '\n') ++ "\n\x7d\n\n") ∧
          (location.Named = "" → uriOut ≠ "" →
            out = "location " ++ modifierOut ++ uriOut ++
              " \x7b" ++ bodyText (stringsSplit bodyOut '\n') ++ "\n\x7d\n\n"))
        exampleVhost.Locations outputs :=
  ⟨sigilTextTemplate_renders, List.mem_singleton.mpr rfl,
    block_wrapping sigilTextTemplate sigilTextTemplate_renders "app" exampleOneVhost
      emptyLocationData
      [("example.com",
        "location / \x7b\n  proxy_pass http://app;\n\x7d\n\n\n" ++
        "location @app_fallback \x7b\n  return 404;\n\x7d\n\n\n" ++
        "\n  gzip on;\n  gzip_vary on;")]
      (by decide) exampleVhost (List.mem_singleton.mpr rfl)⟩

/-! ### Cache builders: one builder for both kinds -/

theorem buildCachePath_proxy (appName inMemRoot onDiskRoot : String) (cache : CacheConfig)
    (roots : List (String × String)) (happ : appName ≠ "")
    (hin : mapGet roots "in_mem" = some inMemRoot) (hdisk : mapGet roots "on_disk" = some onDiskRoot)
    (hinRoot : inMemRoot ≠ "") (hdiskRoot : onDiskRoot ≠ "") :
    buildCachePath "proxy" appName cache roots =
      .ok (specCachePath cache.CachePath cache.InMem cache.OnDisk
        ("proxy_" ++ appName ++ "_" ++ cache.Name) inMemRoot onDiskRoot) := by
  have hname : "proxy" ++ "_" ++ appName ++ "_" ++ cache.Name =
      "proxy_" ++ appName ++ "_" ++ cache.Name := rfl
  unfold buildCachePath specCachePath filepathJoin
  by_cases hp : cache.CachePath = ""
  · cases hm : cache.InMem <;> cases hd : cache.OnDisk <;>
      simp [hp, happ, hin, hdisk, hinRoot, hdiskRoot, hname]
  · simp [hp]

theorem buildCachePath_fastcgi (appName inMemRoot onDiskRoot : String) (cache : CacheConfig)
    (roots : List (String × String)) (happ : appName ≠ "")
    (hin : mapGet roots "in_mem" = some inMemRoot) (hdisk : mapGet roots "on_disk" = some onDiskRoot)
    (hinRoot : inMemRoot ≠ "") (hdiskRoot : onDiskRoot ≠ "") :
    buildCachePath "fastcgi" appName cache roots =
      .ok (specCachePath cache.CachePath cache.InMem cache.OnDisk
        ("fastcgi_" ++ appName ++ "_" ++ cache.Name) inMemRoot onDiskRoot) := by
  have hname : "fastcgi" ++ "_" ++ appName ++ "_" ++ cache.Name =
      "fastcgi_" ++ appName ++ "_" ++ cache.Name := rfl
  unfold buildCachePath specCachePath filepathJoin
  by_cases hp : cache.CachePath = ""
  · cases hm : cache.InMem <;> cases hd : cache.OnDisk <;>
      simp [hp, happ, hin, hdisk, hinRoot, hdiskRoot, hname]
  · simp [hp]

/-- C23. With a non-empty app name and non-empty roots, the roots of the
purger being those of the builder: for every cache definition, `buildCachePath`
of the cache purger returns without error the path `specCachePath` (the
explicit path if given, else the in-memory root if `in_mem`, else the on-disk
root, joined with `<kind>_<appName>_<cacheName>`), and when the builder of the
kind succeeds, the directive line of each of its caches carries that same
path. -/
theorem purger_targets_configured_directory (sigil : Sigil) (appName : String)
    (data : buildProxyCacheConfigData) (config : Config)
    (proxyRoots fastcgiRoots : List (String × String)) (happ : appName ≠ "")
    (hproxyIn : mapGet proxyRoots "in_mem" = some data.proxyCacheInMemRootPath)
    (hproxyDisk : mapGet proxyRoots "on_disk" = some data.proxyCacheOnDiskRootPath)
    (hfastcgiIn : mapGet fastcgiRoots "in_mem" = some data.fastcgiInMemRootPath)
    (hfastcgiDisk : mapGet fastcgiRoots "on_disk" = some data.fastcgiOnDiskRootPath)
    (hroots : data.proxyCacheInMemRootPath ≠ "" ∧ data.proxyCacheOnDiskRootPath ≠ "" ∧
      data.fastcgiInMemRootPath ≠ "" ∧ data.fastcgiOnDiskRootPath ≠ "") :
    ((∀ cache, buildCachePath "proxy" appName cache proxyRoots =
        .ok (specCachePath cache.CachePath cache.InMem cache.OnDisk
          ("proxy_" ++ appName ++ "_" ++ cache.Name)
          data.proxyCacheInMemRootPath data.proxyCacheOnDiskRootPath)) ∧
      ∀ cfgStr names, buildProxyCacheConfig sigil appName data config = .ok (cfgStr, names) →
        ∃ flagStrs : List String, flagStrs.length = config.ProxyCaches.length ∧
          cfgStr = stringsJoin (List.zipWith
            (fun cache flagStr =>
              "proxy_cache_path " ++
                specCachePath cache.CachePath cache.InMem cache.OnDisk
                  ("proxy_" ++ appName ++ "_" ++ cache.Name)
                  data.proxyCacheInMemRootPath data.proxyCacheOnDiskRootPath ++
                " keys_zone=" ++ ("proxy_" ++ appName ++ "_" ++ cache.Name) ++ ":" ++
                specKeyZoneSize cache.KeyZoneSize data.proxyCacheKeyZoneSize ++ " " ++
                flagStr ++ ";")
            config.ProxyCaches flagStrs) "\n") ∧
    ((∀ cache, buildCachePath "fastcgi" appName cache fastcgiRoots =
        .ok (specCachePath cache.CachePath cache.InMem cache.OnDisk
          ("fastcgi_" ++ appName ++ "_" ++ cache.Name)
          data.fastcgiInMemRootPath data.fastcgiOnDiskRootPath)) ∧
      ∀ cfgStr names, buildFastcgiCacheConfig sigil appName data config = .ok (cfgStr, names) →
        ∃ flagStrs : List String, flagStrs.length = config.FastcgiCaches.length ∧
          cfgStr = stringsJoin (List.zipWith
            (fun cache flagStr =>
              "fastcgi_cache_path " ++
                specCachePath cache.CachePath cache.InMem cache.OnDisk
                  ("fastcgi_" ++ appName ++ "_" ++ cache.Name)
                  data.fastcgiInMemRootPath data.fastcgiOnDiskRootPath ++
                " keys_zone=" ++ ("fastcgi_" ++ appName ++ "_" ++ cache.Name) ++ ":" ++
                specKeyZoneSize cache.KeyZoneSize data.fastcgiKeyZoneSize ++ " " ++
                flagStr ++ ";")
            config.FastcgiCaches flagStrs) "\n") := by
  obtain ⟨h1, h2, h3, h4⟩ := hroots
  refine ⟨⟨?_, ?_⟩, ⟨?_, ?_⟩⟩
  · intro cache
    exact buildCachePath_proxy appName _ _ cache proxyRoots happ hproxyIn hproxyDisk h1 h2
  · intro cfgStr names h
    obtain ⟨flagStrs, hlen, hcfg⟩ := proxyCacheLoop_lines sigil appName data config _ _ _ _ h
    refine ⟨flagStrs, hlen, ?_⟩
    rw [hcfg]
    apply appendLines_empty
    apply zipWith_ne_empty
    intro cache flagStr
    exact append_ne_empty_right _ _ (by decide)
  · intro cache
    exact buildCachePath_fastcgi appName _ _ cache fastcgiRoots happ hfastcgiIn hfastcgiDisk h3 h4
  · intro cfgStr names h
    obtain ⟨flagStrs, hlen, hcfg⟩ := fastcgiCacheLoop_lines sigil appName data config _ _ _ _ h
    refine ⟨flagStrs, hlen, ?_⟩
    rw [hcfg]
    apply appendLines_empty
    apply zipWith_ne_empty
    intro cache flagStr
    exact append_ne_empty_right _ _ (by decide)

theorem purger_targets_configured_directory_witness :
    "app" ≠ "" ∧
    (exampleCacheData.proxyCacheInMemRootPath ≠ "" ∧
      exampleCacheData.proxyCacheOnDiskRootPath ≠ "" ∧
      exampleCacheData.fastcgiInMemRootPath ≠ "" ∧
      exampleCacheData.fastcgiOnDiskRootPath ≠ "") ∧
    buildCachePath "proxy" "app"
        { Name := "a", CachePath := "", KeyZoneSize := "", Flags := some [("inactive", "10m")],
          InMem := true, OnDisk := false, PurgeOnDeploy := false }
        [("in_mem", "/dev/shm/nginx"), ("on_disk", "/var/cache/nginx")] =
      .ok "/dev/shm/nginx/proxy_app_a" ∧
    (∀ cache, buildCachePath "proxy" "app" cache
        [("in_mem", "/dev/shm/nginx"), ("on_disk", "/var/cache/nginx")] =
      .ok (specCachePath cache.CachePath cache.InMem cache.OnDisk
        ("proxy_" ++ "app" ++ "_" ++ cache.Name)
        exampleCacheData.proxyCacheInMemRootPath exampleCacheData.proxyCacheOnDiskRootPath)) ∧
    (∀ cache, buildCachePath "fastcgi" "app" cache
        [("in_mem", "/dev/shm/fastcgi"), ("on_disk", "/var/cache/fastcgi")] =
      .ok (specCachePath cache.CachePath cache.InMem cache.OnDisk
        ("fastcgi_" ++ "app" ++ "_" ++ cache.Name)
        exampleCacheData.fastcgiInMemRootPath exampleCacheData.fastcgiOnDiskRootPath)) :=
  ⟨by decide, by decide, by decide,
    (purger_targets_configured_directory sigilIdentity "app" exampleCacheData exampleTwoCaches
      [("in_mem", "/dev/shm/nginx"), ("on_disk", "/var/cache/nginx")]
      [("in_mem", "/dev/shm/fastcgi"), ("on_disk", "/var/cache/fastcgi")]
      (by decide) rfl rfl rfl rfl (by decide)).1.1,
    (purger_targets_configured_directory sigilIdentity "app" exampleCacheData exampleTwoCaches
      [("in_mem", "/dev/shm/nginx"), ("on_disk", "/var/cache/nginx")]
      [("in_mem", "/dev/shm/fastcgi"), ("on_disk", "/var/cache/fastcgi")]
      (by decide) rfl rfl rfl rfl (by decide)).2.1⟩

end NginxConfigBuilder
